import Mathlib

/-! # ZMQ examples: shutdown protocol of the timing and demonstration programs

A shallow embedding of `performance/push.cpp`, `performance/pubsub.cpp`,
`performance/req.cpp`, `performance/pair.cpp`, `push.cpp`, `pubsub.cpp` and
`reqrep.cpp`.

* Part 1 embeds the library primitives the programs lean on: `int`
  arithmetic, `std::latch`, the byte stored through a `char`.
* Part 2 embeds `ignore`, the workers (`puller`, `subscriber`) and the
  coordinator loops of `main` as functions from what the environment answers
  (receive outcomes, latch polls) to the sequence of calls the code makes.
* Part 3 embeds a whole run (one coordinator, `numclients` workers, two
  latches) as a step function over interleavings.
* Part 4 embeds `requestor` and `replier` of `performance/req.cpp`.
* Part 5 embeds the computation of the reported seconds.
* Part 6 embeds `main` of the demonstration programs and `subscriber` of
  `pubsub.cpp`.
* Part 7 embeds the five coordinator programs from their first library call.
* Part 8 embeds a whole run of `push.cpp` as a step function.
* Part 9 embeds the two timed runs of `performance/pair.cpp` and
  `performance/req.cpp` with the sizes of their messages.
* Part 10 embeds a whole run of `reqrep.cpp` as a step function.
-/

namespace ZmqExamples

/-! ## Part 1: primitives -/

/-- Two's-complement wrap of a mathematical integer into a 32 bit `int`. -/
def wrapInt (x : Int) : Int := (x + 2147483648) % 4294967296 - 2147483648

/-- Largest `int`. -/
def INT_MAX : Int := 2147483647

/-- The `ZMQ_DONTWAIT` flag of `zmq.h`. -/
def ZMQ_DONTWAIT : Int := 1

/-- The `EAGAIN` error number of `errno.h`. -/
def EAGAIN : Int := 11

/-- A `std::latch`: its internal counter. -/
structure Latch where
  counter : Int
  deriving DecidableEq, Repr

namespace Latch

/-- `std::latch l(n)`. -/
def mk0 (n : Int) : Latch := ⟨n⟩

/-- `l.count_down()`: decrement the counter by one. -/
def count_down (l : Latch) : Latch := ⟨l.counter - 1⟩

/-- `l.try_wait()`: true exactly when the counter is zero. -/
def try_wait (l : Latch) : Bool := l.counter == 0

end Latch

/-- A barrier operation of the spec: `signalArrival` is `count_down`,
`isSatisfied` is `try_wait`. -/
inductive LatchOp
  | signalArrival
  | isSatisfied
  deriving DecidableEq, Repr

/-- Execute one operation: the new latch and, for a query, its answer. -/
def LatchOp.exec (l : Latch) : LatchOp → Latch × Option Bool
  | LatchOp.signalArrival => (l.count_down, none)
  | LatchOp.isSatisfied => (l, some l.try_wait)

/-- Execute a sequence of operations: the final latch and the answers of the
queries, in order. -/
def execAll : Latch → List LatchOp → Latch × List Bool
  | l, [] => (l, [])
  | l, op :: ops =>
    let r := op.exec l
    let rest := execAll r.1 ops
    (rest.1, r.2.toList ++ rest.2)

/-- Number of `signalArrival` operations in a sequence. -/
def arrivals (ops : List LatchOp) : Nat := ops.count LatchOp.signalArrival

/-- The byte left in memory by `*message = v` through a `char*`. -/
def storeChar (v : Int) : Nat := (v % 256).toNat

/-- The buffer `message` of `main` after `*message = 0` (ordinary) or
`*message = 0xff` (done); `buf` is the content of `new char[msgsize]`. An
empty buffer has no first byte to write. -/
def encode (isEnd : Bool) (buf : List Nat) : List Nat :=
  match buf with
  | [] => []
  | _ :: rest => storeChar (if isEnd then 0xff else 0) :: rest

/-! ## Part 2: the functions of the timing programs -/

/-- How a piece of code ends: it returns a value, it calls
`exit(EXIT_FAILURE)`, or it reads memory that is not part of the message. -/
inductive Outcome (α : Type)
  | ret (a : α)
  | fatal
  | undef
  deriving DecidableEq, Repr

/-- Sequencing of outcomes. -/
def Outcome.bind {α β : Type} (o : Outcome α) (f : α → Outcome β) : Outcome β :=
  match o with
  | Outcome.ret a => f a
  | Outcome.fatal => Outcome.fatal
  | Outcome.undef => Outcome.undef

/-- Apply a function to the returned value. -/
def Outcome.map {α β : Type} (f : α → β) (o : Outcome α) : Outcome β :=
  o.bind (fun a => Outcome.ret (f a))

/-- `checkError(int status, ..)`: exits on a negative status, otherwise
returns the status. -/
def checkError (status : Int) : Outcome Int :=
  if status < 0 then Outcome.fatal else Outcome.ret status

/-- `checkError(void* p, ..)`: exits on a null pointer; `isNull` says whether
the pointer is null. -/
def checkErrorPtr (isNull : Bool) : Outcome Unit :=
  if isNull then Outcome.fatal else Outcome.ret ()

/-- What the library calls made by one receive answer. -/
structure RecvOutcome where
  /-- status of `zmq_msg_init` -/
  initStatus : Int
  /-- status of `zmq_recvmsg` -/
  status : Int
  /-- `zmq_errno()` after the receive -/
  errno : Int
  /-- `zmq_msg_data` returned a null pointer -/
  dataNull : Bool
  /-- bytes of the received message part -/
  data : List Nat
  /-- status of `zmq_msg_close` -/
  closeStatus : Int
  /-- status of `zmq_getsockopt(ZMQ_RCVMORE)` -/
  optStatus : Int
  /-- value of the `ZMQ_RCVMORE` option -/
  more : Int
  deriving DecidableEq, Repr

/-- The outcome of receiving the single-part message `data` with every call
succeeding. -/
def delivered (data : List Nat) : RecvOutcome :=
  { initStatus := 0, status := data.length, errno := 0, dataNull := false,
    data := data, closeStatus := 0, optStatus := 0, more := 0 }

/-- The outcome of a receive that finds no message (`EAGAIN`). -/
def nothingAvailable : RecvOutcome :=
  { initStatus := 0, status := -1, errno := EAGAIN, dataNull := false,
    data := [], closeStatus := 0, optStatus := 0, more := 0 }

/-- `ignore(socket, flags)` of the timing programs; `flags` only reaches
`zmq_recvmsg`, whose answer is `o`. -/
def ignore (_flags : Int) (o : RecvOutcome) : Outcome Int :=
  (checkError o.initStatus).bind fun _ =>
  if o.status < 0 ∧ o.errno = EAGAIN then Outcome.ret 0
  else
    (checkError o.status).bind fun _ =>
    (checkErrorPtr o.dataNull).bind fun _ =>
    match o.data with
    | [] => Outcome.undef
    | b :: _ =>
      let result : Int := ((b % 256 : Nat) : Int)
      (checkError o.closeStatus).bind fun _ =>
      (checkError o.optStatus).bind fun _ =>
      if o.more ≠ 0 then Outcome.fatal else Outcome.ret result

/-- The workers leave `while(ignore(socket) == 0)` when this holds of the
value `ignore` returned. -/
def sawEnd (v : Int) : Bool := v != 0

/-- The two latches of a run by role: `stop` has one slot per worker (`done`
in the timing programs, `exitlatch` in `push.cpp`), `release` has one more
(`exitlatch` in the timing programs, `donelatch` in `push.cpp`). -/
inductive Barrier
  | stop
  | release
  deriving DecidableEq, Repr

/-- Calls a worker makes, in program order. -/
inductive WEvent
  /-- `zmq_recvmsg(socket, &msg, flags)` -/
  | recv (flags : Int)
  /-- `count_down()` on a latch -/
  | countDown (b : Barrier)
  /-- `try_wait()` on a latch, with its answer -/
  | tryWait (b : Barrier) (r : Bool)
  /-- `arrive_and_wait()` on a latch -/
  | arriveAndWait (b : Barrier)
  /-- `zmq_close(socket)` -/
  | close
  deriving DecidableEq, Repr

/-- How far a run got. -/
inductive Status
  /-- the function returned -/
  | finished
  /-- the environment's answers are used up (a blocking call has not
  returned, or a polling loop is still turning) -/
  | pending
  /-- `exit(EXIT_FAILURE)`, or an exception that nothing catches -/
  | fatal
  /-- an access outside an object: a read outside the received message, a
  write outside a buffer -/
  | undef
  deriving DecidableEq, Repr

/-- A loop or a thread function, observed: its calls, the `got` counter, the
receive answers not consumed, and how far it got. -/
structure Run where
  trace : List WEvent
  got : Int
  rest : List RecvOutcome
  status : Status
  deriving DecidableEq, Repr

/-- Put an event in front of a run. -/
def Run.cons (e : WEvent) (r : Run) : Run := { r with trace := e :: r.trace }

/-- Put events in front of a run. -/
def Run.prepend (es : List WEvent) (r : Run) : Run := { r with trace := es ++ r.trace }

/-- The blocking stage `int got(0); while(ignore(socket) == 0) { got++; }`
against the answers of the successive receives. `finished` means the loop was
left. -/
def recvLoop : List RecvOutcome → Int → Run
  | [], got => ⟨[], got, [], Status.pending⟩
  | o :: rest, got =>
    match ignore 0 o with
    | Outcome.ret v =>
      if sawEnd v then ⟨[WEvent.recv 0], got, rest, Status.finished⟩
      else (recvLoop rest (wrapInt (got + 1))).cons (WEvent.recv 0)
    | Outcome.fatal => ⟨[WEvent.recv 0], got, rest, Status.fatal⟩
    | Outcome.undef => ⟨[WEvent.recv 0], got, rest, Status.undef⟩

/-- The polling stage `while(!done.try_wait()) { ignore(socket,
ZMQ_DONTWAIT); }` against the answers of the successive polls and
receives. -/
def pollLoop : List Bool → List RecvOutcome → Int → Run
  | [], recvs, got => ⟨[], got, recvs, Status.pending⟩
  | true :: _, recvs, got =>
    ⟨[WEvent.tryWait Barrier.stop true], got, recvs, Status.finished⟩
  | false :: _, [], got =>
    ⟨[WEvent.tryWait Barrier.stop false], got, [], Status.pending⟩
  | false :: polls, o :: recvs, got =>
    match ignore ZMQ_DONTWAIT o with
    | Outcome.ret _ =>
      (pollLoop polls recvs got).prepend
        [WEvent.tryWait Barrier.stop false, WEvent.recv ZMQ_DONTWAIT]
    | Outcome.fatal =>
      ⟨[WEvent.tryWait Barrier.stop false, WEvent.recv ZMQ_DONTWAIT], got, recvs,
        Status.fatal⟩
    | Outcome.undef =>
      ⟨[WEvent.tryWait Barrier.stop false, WEvent.recv ZMQ_DONTWAIT], got, recvs,
        Status.undef⟩

/-- The end of a worker: `exitlatch.arrive_and_wait();
checkError(zmq_close(socket), ..)`. `released` says whether the wait
returns, `closeStatus` is what `zmq_close` answers. -/
def teardown (released : Bool) (closeStatus : Int) (got : Int)
    (rest : List RecvOutcome) : Run :=
  if released then
    match checkError closeStatus with
    | Outcome.ret _ =>
      ⟨[WEvent.arriveAndWait Barrier.release, WEvent.close], got, rest, Status.finished⟩
    | _ => ⟨[WEvent.arriveAndWait Barrier.release, WEvent.close], got, rest, Status.fatal⟩
  else ⟨[WEvent.arriveAndWait Barrier.release], got, rest, Status.pending⟩

/-- `subscriber` of `performance/pubsub.cpp` from its first receive on (the
socket is set up and connected). -/
def subscriber (recvs : List RecvOutcome) (polls : List Bool) (released : Bool)
    (closeStatus : Int) : Run :=
  let r1 := recvLoop recvs 0
  match r1.status with
  | Status.finished =>
    let r2 := pollLoop polls r1.rest r1.got
    match r2.status with
    | Status.finished =>
      (teardown released closeStatus r2.got r2.rest).prepend
        (r1.trace ++ WEvent.countDown Barrier.stop :: r2.trace)
    | _ => r2.prepend (r1.trace ++ [WEvent.countDown Barrier.stop])
  | _ => r1

/-- `puller` of `performance/push.cpp`: the statements of `subscriber`
without the `got` counter. -/
def puller (recvs : List RecvOutcome) (polls : List Bool) (released : Bool)
    (closeStatus : Int) : List WEvent × Status :=
  let r := subscriber recvs polls released closeStatus
  (r.trace, r.status)

/-- The bytes of a C string: what precedes the first zero byte; `none` when
the data holds no zero byte. -/
def cstring : List Nat → Option (List Nat)
  | [] => none
  | b :: rest =>
    if b % 256 = 0 then some []
    else (cstring rest).map (fun s => b % 256 :: s)

/-- `rcvString(sock)` of `push.cpp`: a blocking receive of a single-part
message holding a C string. -/
def rcvString (o : RecvOutcome) : Outcome (List Nat) :=
  (checkError o.initStatus).bind fun _ =>
  (checkError o.status).bind fun _ =>
  (checkError o.optStatus).bind fun _ =>
  if o.more ≠ 0 then Outcome.fatal
  else
    (checkErrorPtr o.dataNull).bind fun _ =>
    match cstring o.data with
    | none => Outcome.undef
    | some str => Outcome.ret str

/-- The characters of "EXIT". -/
def EXIT : List Nat := [69, 88, 73, 84]

/-- The loop `while (true) { msg = rcvString(sock); ..; if (msg == "EXIT")
break; }` of `puller` in `push.cpp`. -/
def demoRecvLoop : List RecvOutcome → Run
  | [] => ⟨[], 0, [], Status.pending⟩
  | o :: rest =>
    match rcvString o with
    | Outcome.ret msg =>
      if msg = EXIT then ⟨[WEvent.recv 0], 0, rest, Status.finished⟩
      else (demoRecvLoop rest).cons (WEvent.recv 0)
    | Outcome.fatal => ⟨[WEvent.recv 0], 0, rest, Status.fatal⟩
    | Outcome.undef => ⟨[WEvent.recv 0], 0, rest, Status.undef⟩

/-- `puller` of `push.cpp` from its first receive on: the receive loop, then
`exitlatch.arrive_and_wait()` (the latch with one slot per puller), then
`donelatch.arrive_and_wait()`, then `zmq_close`. `stopped` and `released` say
whether the two waits return. -/
def demoPuller (recvs : List RecvOutcome) (stopped released : Bool)
    (closeStatus : Int) : Run :=
  let r1 := demoRecvLoop recvs
  match r1.status with
  | Status.finished =>
    if stopped then
      (teardown released closeStatus 0 r1.rest).prepend
        (r1.trace ++ [WEvent.arriveAndWait Barrier.stop])
    else
      ⟨r1.trace ++ [WEvent.arriveAndWait Barrier.stop], 0, r1.rest, Status.pending⟩
  | _ => r1

/-- An event by which a worker arrives at the stop barrier. -/
def WEvent.isStopArrival : WEvent → Bool
  | WEvent.countDown Barrier.stop => true
  | WEvent.arriveAndWait Barrier.stop => true
  | _ => false

/-- Checks a trace: once `seen` (a stop arrival has occurred), every receive
carries `ZMQ_DONTWAIT`. -/
def dontWaitAfterStop : Bool → List WEvent → Bool
  | _, [] => true
  | seen, WEvent.recv flags :: rest =>
    (!seen || flags == ZMQ_DONTWAIT) && dontWaitAfterStop seen rest
  | seen, e :: rest => dontWaitAfterStop (seen || e.isStopArrival) rest

/-- Calls the coordinator makes, in program order. -/
inductive MEvent
  /-- `new std::thread(..)` -/
  | spawn
  /-- `start = high_resolution_clock::now()` -/
  | start
  /-- `send(socket, message, msgsize)`, with the first byte of the message -/
  | send (first : Nat)
  /-- `done.try_wait()`, with its answer -/
  | tryWait (r : Bool)
  /-- `end = high_resolution_clock::now()` -/
  | stop
  /-- `exitlatch.arrive_and_wait()` -/
  | arriveAndWait
  /-- `zmq_close(socket)` -/
  | close
  /-- `zmq_ctx_term(ctx)` -/
  | term
  /-- `p->join()` -/
  | join
  /-- the statistics are printed, with the value of `sent` -/
  | report (sent : Int)
  deriving DecidableEq, Repr

/-- The first byte of the ordinary messages `main` sends. -/
def ordinaryByte : Nat := storeChar 0

/-- The first byte of the done messages `main` sends. -/
def doneByte : Nat := storeChar 0xff

/-- `while(sent < nummsgs) { send(..); sent++; }` of `performance/push.cpp`:
the sends and the final `sent`; `none` when the fuel does not suffice. -/
def pushDataLoop : Nat → Int → Int → Option (List MEvent × Int)
  | 0, nummsgs, sent => if sent < nummsgs then none else some ([], sent)
  | fuel + 1, nummsgs, sent =>
    if sent < nummsgs then
      (pushDataLoop fuel nummsgs (wrapInt (sent + 1))).map
        fun r => (MEvent.send ordinaryByte :: r.1, r.2)
    else some ([], sent)

/-- `for (int i = 0; i < minmsgs; i++) { send(..); sent++; }` of
`performance/pubsub.cpp`; `none` when the fuel does not suffice. -/
def pubsubDataLoop : Nat → Int → Int → Int → Option (List MEvent × Int)
  | 0, minmsgs, i, sent => if i < minmsgs then none else some ([], sent)
  | fuel + 1, minmsgs, i, sent =>
    if i < minmsgs then
      (pubsubDataLoop fuel minmsgs (wrapInt (i + 1)) (wrapInt (sent + 1))).map
        fun r => (MEvent.send ordinaryByte :: r.1, r.2)
    else some ([], sent)

/-- `while(!done.try_wait()) { send(..); sent++; }` with first byte `0xff`,
against the answers of the successive polls: the calls, the final `sent`, and
whether the loop was left. -/
def signalLoop : List Bool → Int → List MEvent × Int × Bool
  | [], sent => ([], sent, false)
  | true :: _, sent => ([MEvent.tryWait true], sent, true)
  | false :: polls, sent =>
    let r := signalLoop polls (wrapInt (sent + 1))
    (MEvent.tryWait false :: MEvent.send doneByte :: r.1, r.2.1, r.2.2)

/-- What a coordinator run shows: its calls, the last value of `sent`, and
how far it got. -/
structure MainRun where
  trace : List MEvent
  sent : Int
  status : Status
  deriving DecidableEq, Repr

/-- `main` of `performance/push.cpp` from the creation of the latches on,
every send and teardown call succeeding. `released` says whether the wait on
the exit latch returns; `none` when the fuel does not suffice. -/
def pushMain (fuel : Nat) (nummsgs : Int) (numclients : Nat) (polls : List Bool)
    (released : Bool) : Option MainRun :=
  match pushDataLoop fuel nummsgs 0 with
  | none => none
  | some (sends, sent) =>
    let head := List.replicate numclients MEvent.spawn ++ MEvent.start :: sends
    let sig := signalLoop polls sent
    if sig.2.2 then
      if released then
        some ⟨head ++ sig.1 ++ [MEvent.stop, MEvent.arriveAndWait, MEvent.close, MEvent.term]
          ++ List.replicate numclients MEvent.join ++ [MEvent.report sig.2.1],
          sig.2.1, Status.finished⟩
      else some ⟨head ++ sig.1 ++ [MEvent.stop, MEvent.arriveAndWait], sig.2.1, Status.pending⟩
    else some ⟨head ++ sig.1, sig.2.1, Status.pending⟩

/-- `main` of `performance/pubsub.cpp` from the creation of the latches on,
every send and teardown call succeeding. `released` says whether the wait on
the exit latch returns; `none` when the fuel does not suffice. -/
def pubsubMain (fuel : Nat) (minmsgs : Int) (numsubs : Nat) (polls : List Bool)
    (released : Bool) : Option MainRun :=
  match pubsubDataLoop fuel minmsgs 0 0 with
  | none => none
  | some (sends, sent) =>
    let head := List.replicate numsubs MEvent.spawn ++ MEvent.start :: sends
    let sig := signalLoop polls sent
    if sig.2.2 then
      if released then
        some ⟨head ++ sig.1 ++ [MEvent.stop, MEvent.arriveAndWait]
          ++ List.replicate numsubs MEvent.join ++ [MEvent.close, MEvent.term,
            MEvent.report sig.2.1],
          sig.2.1, Status.finished⟩
      else some ⟨head ++ sig.1 ++ [MEvent.stop, MEvent.arriveAndWait], sig.2.1, Status.pending⟩
    else some ⟨head ++ sig.1, sig.2.1, Status.pending⟩

/-! ## Part 3: a whole run as an interleaving of steps

Every call that can fail goes through `checkError`, which ends the process;
a run that has ended takes no further step, so the states of a failing run
are states of the runs modelled here. Messages are sent with at least one
byte, and a queued message is represented by its first byte. The transport
is outside the repository: each send names the workers whose queues receive
the message (none, one or several). -/

/-- Which timing program runs. -/
inductive Variant
  | push
  | pubsub
  deriving DecidableEq, Repr

/-- Command line of a timing program. -/
structure Config where
  variant : Variant
  nummsgs : Int
  numclients : Nat
  deriving DecidableEq, Repr

/-- Control points of `puller` / `subscriber`. -/
inductive WorkerPc
  /-- `zmq_socket`, `setBuffering`, (`ZMQ_SUBSCRIBE`,) `zmq_connect` -/
  | connect
  /-- `while(ignore(socket) == 0)` -/
  | recv
  /-- `done.count_down()` -/
  | countDown
  /-- `while(!done.try_wait())` -/
  | poll
  /-- `ignore(socket, ZMQ_DONTWAIT)` -/
  | drain
  /-- `exitlatch.arrive_and_wait()`, the arrival -/
  | arrive
  /-- `exitlatch.arrive_and_wait()`, the wait -/
  | waiting
  /-- `zmq_close(socket)` -/
  | close
  /-- socket closed, thread function returned -/
  | closed
  deriving DecidableEq, Repr

/-- One worker thread: where it is, its `got` counter (subscriber only) and
the first bytes of the messages queued on its socket. -/
structure Worker where
  pc : WorkerPc
  got : Int
  inbox : List Nat
  deriving DecidableEq, Repr

/-- Control points of `main` from the creation of the latches on. -/
inductive MainPc
  /-- `for (int i = 0; i < numclients; i++) push_back(new std::thread(..))` -/
  | spawn
  /-- `while(sent < nummsgs)` / `for (int i = 0; i < minmsgs; i++)` -/
  | sendData
  /-- `while(!done.try_wait())` -/
  | pollDone
  /-- `send(socket, message, msgsize); sent++` with first byte `0xff` -/
  | sendDone
  /-- `exitlatch.arrive_and_wait()`, the arrival (after `end = now()`) -/
  | arrive
  /-- `exitlatch.arrive_and_wait()`, the wait -/
  | waiting
  /-- `zmq_close(socket)` -/
  | closeSock
  /-- `zmq_ctx_term(ctx)` -/
  | term
  /-- `for (auto p : ..) p->join()` -/
  | join
  /-- statistics printed, `return EXIT_SUCCESS` -/
  | finished
  deriving DecidableEq, Repr

/-- State of a run. -/
structure State where
  done : Latch
  exitlatch : Latch
  mainPc : MainPc
  sent : Int
  workers : List Worker
  deriving DecidableEq, Repr

/-- State right after `std::latch done(numclients); std::latch
exitlatch(numclients+1);`, with no thread created yet. -/
def init (cfg : Config) : State :=
  { done := Latch.mk0 cfg.numclients
    exitlatch := Latch.mk0 (cfg.numclients + 1)
    mainPc := MainPc.spawn
    sent := 0
    workers := [] }

/-- Queue a message with first byte `b` on the sockets of the workers whose
index is listed in `dest`. -/
def deliverFrom (b : Nat) (dest : List Nat) : Nat → List Worker → List Worker
  | _, [] => []
  | i, w :: ws =>
    (if i ∈ dest then { w with inbox := w.inbox ++ [b] } else w)
      :: deliverFrom b dest (i + 1) ws

/-- One step of a worker; `none` when the worker is blocked or has
returned. The result carries the two latches. -/
def workerStep (done exitlatch : Latch) (w : Worker) :
    Option (Worker × Latch × Latch) :=
  match w.pc with
  | WorkerPc.connect => some ({ w with pc := WorkerPc.recv }, done, exitlatch)
  | WorkerPc.recv =>
    match w.inbox with
    | [] => none
    | b :: rest =>
      if b % 256 = 0 then
        some ({ pc := WorkerPc.recv, got := wrapInt (w.got + 1), inbox := rest },
          done, exitlatch)
      else
        some ({ w with pc := WorkerPc.countDown, inbox := rest }, done, exitlatch)
  | WorkerPc.countDown =>
    some ({ w with pc := WorkerPc.poll }, done.count_down, exitlatch)
  | WorkerPc.poll =>
    if done.try_wait then some ({ w with pc := WorkerPc.arrive }, done, exitlatch)
    else some ({ w with pc := WorkerPc.drain }, done, exitlatch)
  | WorkerPc.drain =>
    some ({ w with pc := WorkerPc.poll, inbox := w.inbox.tail }, done, exitlatch)
  | WorkerPc.arrive =>
    some ({ w with pc := WorkerPc.waiting }, done, exitlatch.count_down)
  | WorkerPc.waiting =>
    if exitlatch.try_wait then some ({ w with pc := WorkerPc.close }, done, exitlatch)
    else none
  | WorkerPc.close => some ({ w with pc := WorkerPc.closed }, done, exitlatch)
  | WorkerPc.closed => none

/-- One step of `main`; `dest` names the workers a send reaches. `none` when
`main` is blocked or has returned. In `performance/pubsub.cpp` the loop
variable `i` of the first loop and `sent` start at zero and advance
together, so `sent` stands for both. -/
def mainStep (cfg : Config) (dest : List Nat) (s : State) : Option State :=
  match s.mainPc with
  | MainPc.spawn =>
    if s.workers.length < cfg.numclients then
      some { s with workers := s.workers ++ [⟨WorkerPc.connect, 0, []⟩] }
    else some { s with mainPc := MainPc.sendData }
  | MainPc.sendData =>
    if s.sent < cfg.nummsgs then
      some { s with sent := wrapInt (s.sent + 1), workers := deliverFrom 0 dest 0 s.workers }
    else some { s with mainPc := MainPc.pollDone }
  | MainPc.pollDone =>
    if s.done.try_wait then some { s with mainPc := MainPc.arrive }
    else some { s with mainPc := MainPc.sendDone }
  | MainPc.sendDone =>
    some { s with mainPc := MainPc.pollDone, sent := wrapInt (s.sent + 1),
                  workers := deliverFrom 255 dest 0 s.workers }
  | MainPc.arrive =>
    some { s with mainPc := MainPc.waiting, exitlatch := s.exitlatch.count_down }
  | MainPc.waiting =>
    if s.exitlatch.try_wait then
      some { s with mainPc :=
        match cfg.variant with
        | Variant.push => MainPc.closeSock
        | Variant.pubsub => MainPc.join }
    else none
  | MainPc.closeSock => some { s with mainPc := MainPc.term }
  | MainPc.term =>
    some { s with mainPc :=
      match cfg.variant with
      | Variant.push => MainPc.join
      | Variant.pubsub => MainPc.finished }
  | MainPc.join =>
    if s.workers.all (fun w => w.pc == WorkerPc.closed) then
      some { s with mainPc :=
        match cfg.variant with
        | Variant.push => MainPc.finished
        | Variant.pubsub => MainPc.closeSock }
    else none
  | MainPc.finished => none

/-- Who moves next. -/
inductive Action
  /-- `main` takes a step; a send reaches the listed workers -/
  | main (dest : List Nat)
  /-- worker `i` takes a step -/
  | worker (i : Nat)
  deriving DecidableEq, Repr

/-- One step of the run. -/
def step (cfg : Config) (s : State) : Action → Option State
  | Action.main dest => mainStep cfg dest s
  | Action.worker i =>
    match s.workers[i]? with
    | none => none
    | some w =>
      match workerStep s.done s.exitlatch w with
      | none => none
      | some (w', d, e) =>
        some { s with done := d, exitlatch := e, workers := s.workers.set i w' }

/-- Run a schedule from a state. -/
def run (cfg : Config) : State → List Action → Option State
  | s, [] => some s
  | s, a :: as =>
    match step cfg s a with
    | none => none
    | some s' => run cfg s' as

/-- States some schedule reaches from the initial state. -/
def Reachable (cfg : Config) (s : State) : Prop :=
  ∃ sched : List Action, run cfg (init cfg) sched = some s

/-- The worker has executed `done.count_down()`. -/
def WorkerPc.signalled : WorkerPc → Bool
  | WorkerPc.connect | WorkerPc.recv | WorkerPc.countDown => false
  | _ => true

/-- The worker has left its polling loop. -/
def WorkerPc.pastPoll : WorkerPc → Bool
  | WorkerPc.arrive | WorkerPc.waiting | WorkerPc.close | WorkerPc.closed => true
  | _ => false

/-- The worker has arrived at the exit latch. -/
def WorkerPc.arrived : WorkerPc → Bool
  | WorkerPc.waiting | WorkerPc.close | WorkerPc.closed => true
  | _ => false

/-- The worker's `arrive_and_wait` has returned. -/
def WorkerPc.released : WorkerPc → Bool
  | WorkerPc.close | WorkerPc.closed => true
  | _ => false

/-- The coordinator has arrived at the exit latch. -/
def MainPc.arrived : MainPc → Bool
  | MainPc.waiting | MainPc.closeSock | MainPc.term | MainPc.join | MainPc.finished => true
  | _ => false

/-- The coordinator has left its signalling loop. -/
def MainPc.pastPoll : MainPc → Bool
  | MainPc.arrive => true
  | pc => pc.arrived

/-- The coordinator's `arrive_and_wait` has returned. -/
def MainPc.released : MainPc → Bool
  | MainPc.closeSock | MainPc.term | MainPc.join | MainPc.finished => true
  | _ => false

/-- Number of workers whose control point satisfies `p`. -/
def countPc (p : WorkerPc → Bool) (s : State) : Nat :=
  s.workers.countP (fun w => p w.pc)

/-- Inductive invariant of a run. -/
structure Inv (cfg : Config) (s : State) : Prop where
  len : s.workers.length ≤ cfg.numclients
  done_eq : s.done.counter = (cfg.numclients : Int) - (countPc WorkerPc.signalled s : Int)
  exit_eq : s.exitlatch.counter =
    (cfg.numclients : Int) + 1 - (countPc WorkerPc.arrived s : Int)
      - (if s.mainPc.arrived then 1 else 0)
  w_past : ∀ w ∈ s.workers, w.pc.pastPoll = true → s.done.counter = 0
  m_past : s.mainPc.pastPoll = true → s.done.counter = 0
  w_rel : ∀ w ∈ s.workers, w.pc.released = true → s.exitlatch.counter = 0
  m_rel : s.mainPc.released = true → s.exitlatch.counter = 0

/-- A push run with one puller and one ordinary message. -/
def sampleCfg : Config := ⟨Variant.push, 1, 1⟩

/-- A schedule of `sampleCfg`: the puller receives the ordinary message and
one done message, counts down, leaves its polling loop and arrives at the
exit latch while `main` is still in its signalling loop. -/
def scheduleToWait : List Action :=
  [Action.main [], Action.main [], Action.worker 0, Action.main [0], Action.main [],
   Action.main [], Action.main [0], Action.worker 0, Action.worker 0, Action.worker 0,
   Action.worker 0, Action.worker 0]

/-- The schedule continued: `main` sees the done latch satisfied and arrives
at the exit latch. -/
def scheduleToRelease : List Action :=
  scheduleToWait ++ [Action.main [], Action.main []]

/-- The schedule continued: the puller and `main` close their sockets. -/
def scheduleToClose : List Action :=
  scheduleToRelease ++ [Action.worker 0, Action.worker 0, Action.main [], Action.main []]

/-- The coordinator is at its `zmq_close(socket)` or has executed it:
`performance/push.cpp` closes right after the wait, `performance/pubsub.cpp`
joins the subscribers first. -/
def MainPc.closing : Variant → MainPc → Bool
  | _, MainPc.closeSock => true
  | _, MainPc.term => true
  | _, MainPc.finished => true
  | Variant.push, MainPc.join => true
  | _, _ => false

/-- Some participant is at the close of its own socket or has executed it. -/
def someClosing (cfg : Config) (s : State) : Prop :=
  (∃ w ∈ s.workers, w.pc = WorkerPc.close ∨ w.pc = WorkerPc.closed)
    ∨ s.mainPc.closing cfg.variant = true

/-- All `numclients + 1` participants have arrived at the exit latch. -/
def allArrived (cfg : Config) (s : State) : Prop :=
  s.workers.length = cfg.numclients ∧ (∀ w ∈ s.workers, w.pc.arrived = true)
    ∧ s.mainPc.arrived = true

/-- A worker has stopped receiving: it has left its polling loop and has not
yet returned from the wait on the exit latch. -/
def WorkerPc.idleWaiting : WorkerPc → Bool
  | WorkerPc.arrive | WorkerPc.waiting => true
  | _ => false

/-- A message whose first byte is zero. -/
def isOrdinary : List Nat → Bool
  | [] => false
  | b :: _ => b % 256 == 0

/-- A message whose first byte is not zero. -/
def isSentinel : List Nat → Bool
  | [] => false
  | b :: _ => b % 256 != 0

/-- An event a worker may make once it has arrived at the stop barrier: a
poll, a receive with `ZMQ_DONTWAIT`, the arrival at the release barrier, the
close of its socket. -/
def WEvent.afterStop : WEvent → Bool
  | WEvent.recv flags => flags == ZMQ_DONTWAIT
  | WEvent.tryWait _ _ => true
  | WEvent.arriveAndWait Barrier.release => true
  | WEvent.close => true
  | _ => false

/-- No blocking receive after the stop barrier: in the trace `t`, every
receive that follows an arrival at the stop barrier carries `ZMQ_DONTWAIT`. -/
def NoBlockingRecvAfterStop (t : List WEvent) : Prop :=
  ∀ (pre post : List WEvent) (e : WEvent) (flags : Int),
    t = pre ++ e :: post → e.isStopArrival = true → WEvent.recv flags ∈ post →
      flags = ZMQ_DONTWAIT

/-- `k` rounds of the signalling loop: a poll answered false, then a done
message. -/
def signalRounds : Nat → List MEvent
  | 0 => []
  | k + 1 => MEvent.tryWait false :: MEvent.send doneByte :: signalRounds k

/-- Number of polls answered false before the first poll answered true. -/
def unsatisfiedPolls (polls : List Bool) : Nat :=
  (polls.takeWhile (fun b => !b)).length

/-- The first bytes of the messages sent in a trace, in send order. -/
def sends : List MEvent → List Nat
  | [] => []
  | MEvent.send b :: t => b :: sends t
  | _ :: t => sends t

/-- The calls of a timing program after its signalling loop: `push` closes
and terminates before joining, `pubsub` joins first. -/
def afterSignal (v : Variant) (numclients : Nat) (sent : Int) : List MEvent :=
  match v with
  | Variant.push =>
    [MEvent.stop, MEvent.arriveAndWait, MEvent.close, MEvent.term]
      ++ List.replicate numclients MEvent.join ++ [MEvent.report sent]
  | Variant.pubsub =>
    [MEvent.stop, MEvent.arriveAndWait] ++ List.replicate numclients MEvent.join
      ++ [MEvent.close, MEvent.term, MEvent.report sent]

/-- The coordinator of either timing program. -/
def timedMain (v : Variant) (fuel : Nat) (nummsgs : Int) (numclients : Nat)
    (polls : List Bool) (released : Bool) : Option MainRun :=
  match v with
  | Variant.push => pushMain fuel nummsgs numclients polls released
  | Variant.pubsub => pubsubMain fuel nummsgs numclients polls released

/-- A pubsub run with no subscriber and one ordinary message. -/
def noWorkerCfg : Config := ⟨Variant.pubsub, 1, 0⟩

/-! ## Part 4: the request/reply timing program (`performance/req.cpp`) -/

/-- Calls of `requestor` and `replier`, in program order. -/
inductive QEvent
  /-- `send(socket, .., size)`, with the first byte of the message -/
  | send (first : Nat)
  /-- `ignore(socket)` -/
  | recv
  /-- `start = high_resolution_clock::now()` -/
  | start
  /-- `replythread.join()` -/
  | join
  /-- `end = high_resolution_clock::now()` -/
  | stop
  /-- `zmq_close(socket)` -/
  | close
  /-- `zmq_ctx_term(context)` -/
  | term
  deriving DecidableEq, Repr

/-- A run of `requestor` or `replier`: its calls and how far it got. -/
structure QRun where
  trace : List QEvent
  status : Status
  deriving DecidableEq, Repr

/-- Put an event in front of a run. -/
def QRun.cons (e : QEvent) (r : QRun) : QRun := { r with trace := e :: r.trace }

/-- The loop `for (int i = 0; i < nreq; i++) { send(socket, request,
reqsize); ignore(socket); if (i == (nreq-2)) { *request = 0xff; } }` of
`requestor`, from loop variable `i` and first byte `first` of `request`,
against the answers of the successive receives. `finished` means the loop
was left. -/
def requestLoop (nreq : Int) : List RecvOutcome → Int → Nat → QRun
  | [], i, first =>
    if i < nreq then ⟨[QEvent.send first], Status.pending⟩ else ⟨[], Status.finished⟩
  | o :: replies, i, first =>
    if i < nreq then
      match ignore 0 o with
      | Outcome.ret _ =>
        ((requestLoop nreq replies (wrapInt (i + 1))
            (if i = wrapInt (nreq - 2) then storeChar 0xff else first)).cons
          QEvent.recv).cons (QEvent.send first)
      | Outcome.fatal => ⟨[QEvent.send first, QEvent.recv], Status.fatal⟩
      | Outcome.undef => ⟨[QEvent.send first, QEvent.recv], Status.undef⟩
    else ⟨[], Status.finished⟩

/-- `requestor` of `performance/req.cpp` from `*request = 0` on (context,
reply thread and socket are set up), every send and teardown call
succeeding. `joined` says whether `replythread.join()` returns. -/
def requestor (nreq : Int) (replies : List RecvOutcome) (joined : Bool) : QRun :=
  let r := requestLoop nreq replies 0 (storeChar 0)
  match r.status with
  | Status.finished =>
    if joined then
      ⟨QEvent.start :: r.trace ++ [QEvent.join, QEvent.stop, QEvent.close, QEvent.term],
        Status.finished⟩
    else ⟨QEvent.start :: r.trace ++ [QEvent.join], Status.pending⟩
  | st => ⟨QEvent.start :: r.trace, st⟩

/-- The first bytes of the requests sent in a trace, in order. -/
def requestsSent : List QEvent → List Nat
  | [] => []
  | QEvent.send b :: t => b :: requestsSent t
  | _ :: t => requestsSent t

/-- The loop `while(ignore(socket) == 0) { send(socket, replymsg, size); }`
of `replier` against the answers of the successive receives; `replyFirst` is
the first byte of the buffer `replymsg`. `finished` means the loop was
left. -/
def replyLoop (replyFirst : Nat) : List RecvOutcome → QRun
  | [] => ⟨[], Status.pending⟩
  | o :: requests =>
    match ignore 0 o with
    | Outcome.ret v =>
      if sawEnd v then ⟨[QEvent.recv], Status.finished⟩
      else ((replyLoop replyFirst requests).cons (QEvent.send replyFirst)).cons QEvent.recv
    | Outcome.fatal => ⟨[QEvent.recv], Status.fatal⟩
    | Outcome.undef => ⟨[QEvent.recv], Status.undef⟩

/-- `replier` of `performance/req.cpp` from its loop on (the socket is set
up and bound), every send and the close succeeding: the loop, the last
reply, `zmq_close`. -/
def replier (replyFirst : Nat) (requests : List RecvOutcome) : QRun :=
  let r := replyLoop replyFirst requests
  match r.status with
  | Status.finished =>
    ⟨r.trace ++ [QEvent.send replyFirst, QEvent.close], Status.finished⟩
  | st => ⟨r.trace, st⟩

/-! ## Part 5: the reported time -/

/-- `duration_cast<milliseconds>(d).count()` for a duration of `ticks` ticks
of a clock whose period is `num / den` seconds: the whole number of
milliseconds, rounded toward zero. For `high_resolution_clock` of libstdc++
the period is a nanosecond, `num = 1` and `den = 1000000000`. -/
def durationCastMs (num den : Nat) (ticks : Int) : Int :=
  (ticks * num * 1000).tdiv den

/-- The seconds a timing program reports: `ms = (double)duration_cast<
milliseconds>(end - start).count(); secs = ms/1000.0`, as the exact quotient.
The two roundings to `double` keep zero at zero and the sign of a non-zero
whole number of milliseconds. -/
def elapsedSeconds (num den : Nat) (start stop : Int) : ℚ :=
  (durationCastMs num den (stop - start) : ℚ) / 1000

/-! ## Part 6: the demonstration programs (`push.cpp`, `pubsub.cpp`, `reqrep.cpp`) -/

/-- The character codes of a string. -/
def bytes (s : String) : List Nat := s.toList.map Char.toNat

/-- The message `sendString(sock, mesg)` sends: the characters of `mesg`
and the terminating zero (`strlen(mesg) + 1` bytes). -/
def cmessage (mesg : String) : List Nat := bytes mesg ++ [0]

/-- Calls of the `main` of a demonstration program, in program order. -/
inductive DEvent
  /-- `new std::thread(.., i)` -/
  | spawn (i : Int)
  /-- `sleep(1)` -/
  | sleep
  /-- `sendString(sock, ..)`, with the bytes of the message -/
  | send (msg : List Nat)
  /-- `rcvString(socket)` -/
  | recv
  /-- `exitlatch.try_wait()`, with its answer -/
  | tryWait (r : Bool)
  /-- `usleep(500)` -/
  | usleep
  /-- `donelatch.arrive_and_wait()` -/
  | arriveAndWait
  /-- `t->join()` -/
  | join
  /-- `zmq_close(sock)` -/
  | close
  /-- `zmq_ctx_term(ctx)` -/
  | term
  deriving DecidableEq, Repr

/-- `for (int i = start; i < n; i++) { body(i) }` as the calls it makes;
`none` when the fuel does not suffice. -/
def forLoop {ε : Type} (body : Int → List ε) : Nat → Int → Int → Option (List ε)
  | 0, n, i => if i < n then none else some []
  | fuel + 1, n, i =>
    if i < n then (forLoop body fuel n (wrapInt (i + 1))).map (fun t => body i ++ t)
    else some []

/-- The end of a demonstration `main`: one `join` per thread created, then
`zmq_close` and `zmq_ctx_term`. `joined` says whether the joins return. -/
def joinAndClose (threads : Nat) (joined : Bool) : List DEvent × Status :=
  if threads = 0 then ([DEvent.close, DEvent.term], Status.finished)
  else if joined then
    (List.replicate threads DEvent.join ++ [DEvent.close, DEvent.term], Status.finished)
  else ([DEvent.join], Status.pending)

/-- The loop `while(!exitlatch.try_wait()) { sendString(sock, "EXIT");
usleep(500); }` of `main` in `push.cpp` against the answers of the polls; the
flag says whether the loop was left. -/
def exitLoop : List Bool → List DEvent × Bool
  | [] => ([], false)
  | true :: _ => ([DEvent.tryWait true], true)
  | false :: polls =>
    let r := exitLoop polls
    (DEvent.tryWait false :: DEvent.send (cmessage "EXIT") :: DEvent.usleep :: r.1, r.2)

/-- `main` of `push.cpp` after the bind, every send and teardown call
succeeding: the pullers are created, `nMessages` messages are pushed, "EXIT"
is pushed until the first latch is complete, `main` arrives at the second
latch, joins and tears down. `released` says whether the wait on the second
latch returns; `none` when the fuel does not suffice. -/
def demoPushMain (fuel : Nat) (nPullers nMessages : Int) (polls : List Bool)
    (released joined : Bool) : Option (List DEvent × Status) :=
  match forLoop (fun i => [DEvent.spawn i]) fuel nPullers 0,
      forLoop (fun i => [DEvent.send (cmessage ("Push number " ++ toString i))]) fuel
        nMessages 0 with
  | some threads, some pushes =>
    let ex := exitLoop polls
    if ex.2 then
      if released then
        let fin := joinAndClose threads.length joined
        some (threads ++ pushes ++ ex.1 ++ DEvent.arriveAndWait :: fin.1, fin.2)
      else some (threads ++ pushes ++ ex.1 ++ [DEvent.arriveAndWait], Status.pending)
    else some (threads ++ pushes ++ ex.1, Status.pending)
  | _, _ => none

/-- The `i`-th publication of `main` in `pubsub.cpp`:
`((i % 2 == 0) ? "EVEN" : "ODD") << " message number " << i`. -/
def publication (i : Int) : String :=
  (if i.tmod 2 = 0 then "EVEN" else "ODD") ++ " message number " ++ toString i

/-- The two messages `main` of `pubsub.cpp` sends after its publications. -/
def terminationMessages : List String := ["EVEN EXIT", "ODD EXIT"]

/-- `main` of `pubsub.cpp` after the bind, every send and teardown call
succeeding: the subscribers are created, `responses` publications are sent,
then the two termination messages; `main` joins and tears down. `none` when
the fuel does not suffice. -/
def demoPubsubMain (fuel : Nat) (subscribers responses : Int) (joined : Bool) :
    Option (List DEvent × Status) :=
  match forLoop (fun i => [DEvent.spawn i]) fuel subscribers 0,
      forLoop (fun i => [DEvent.send (cmessage (publication i))]) fuel responses 0 with
  | some threads, some pubs =>
    let fin := joinAndClose threads.length joined
    some (threads ++ DEvent.sleep :: pubs
      ++ terminationMessages.map (fun m => DEvent.send (cmessage m)) ++ fin.1, fin.2)
  | _, _ => none

/-- The words of a line as `while (strLine >> word)` extracts them:
maximal runs of bytes that are not white space. `cur` is the word being
read. -/
def splitFrom : List Nat → List Nat → List (List Nat)
  | [], cur => if cur = [] then [] else [cur]
  | b :: rest, cur =>
    if b = 32 ∨ (9 ≤ b ∧ b ≤ 13) then
      if cur = [] then splitFrom rest [] else cur :: splitFrom rest []
    else splitFrom rest (cur ++ [b])

/-- `splitLine(line)` of `pubsub.cpp`. -/
def splitLine (line : List Nat) : List (List Nat) := splitFrom line []

/-- The loop `while(true) { message = rcvString(socket); words =
splitLine(message); if (words[1] == "EXIT") break; }` of `subscriber` in
`pubsub.cpp`. Indexing `words[1]` when there are fewer than two words is a
read outside the vector. -/
def demoSubLoop : List RecvOutcome → Run
  | [] => ⟨[], 0, [], Status.pending⟩
  | o :: rest =>
    match rcvString o with
    | Outcome.ret msg =>
      match (splitLine msg)[1]? with
      | none => ⟨[WEvent.recv 0], 0, rest, Status.undef⟩
      | some word =>
        if word = bytes "EXIT" then ⟨[WEvent.recv 0], 0, rest, Status.finished⟩
        else (demoSubLoop rest).cons (WEvent.recv 0)
    | Outcome.fatal => ⟨[WEvent.recv 0], 0, rest, Status.fatal⟩
    | Outcome.undef => ⟨[WEvent.recv 0], 0, rest, Status.undef⟩

/-- `subscriber` of `pubsub.cpp` from its first receive on: the loop, then
`zmq_close`. -/
def demoSubscriber (recvs : List RecvOutcome) (closeStatus : Int) : Run :=
  let r := demoSubLoop recvs
  match r.status with
  | Status.finished =>
    match checkError closeStatus with
    | Outcome.ret _ => ⟨r.trace ++ [WEvent.close], 0, r.rest, Status.finished⟩
    | _ => ⟨r.trace ++ [WEvent.close], 0, r.rest, Status.fatal⟩
  | _ => r

/-- A loop `for (int i = 0; i < n; i++) { req = rcvString(socket); ..;
sendString(socket, reply); }` of `main` in `reqrep.cpp` against the answers
of the successive receives: the calls, how far it got, and the answers not
consumed. -/
def serveLoop (reply : String) (n : Int) :
    List RecvOutcome → Int → List DEvent × Status × List RecvOutcome
  | [], i => if i < n then ([], Status.pending, []) else ([], Status.finished, [])
  | o :: rest, i =>
    if i < n then
      match rcvString o with
      | Outcome.ret _ =>
        let r := serveLoop reply n rest (wrapInt (i + 1))
        (DEvent.recv :: DEvent.send (cmessage reply) :: r.1, r.2.1, r.2.2)
      | Outcome.fatal => ([DEvent.recv], Status.fatal, rest)
      | Outcome.undef => ([DEvent.recv], Status.undef, rest)
    else ([], Status.finished, o :: rest)

/-- `main` of `reqrep.cpp` after the bind, every send and teardown call
succeeding: the clients are created, `nreplies` requests are answered "Keep
going for now", `nclients` requests are answered "BYE"; `main` joins and
tears down. `none` when the fuel does not suffice. -/
def reqrepMain (fuel : Nat) (nclients nreplies : Int) (requests : List RecvOutcome)
    (joined : Bool) : Option (List DEvent × Status) :=
  match forLoop (fun i => [DEvent.spawn i]) fuel nclients 0 with
  | some threads =>
    let l1 := serveLoop "Keep going for now" nreplies requests 0
    match l1.2.1 with
    | Status.finished =>
      let l2 := serveLoop "BYE" nclients l1.2.2 0
      match l2.2.1 with
      | Status.finished =>
        let fin := joinAndClose threads.length joined
        some (threads ++ l1.1 ++ l2.1 ++ fin.1, fin.2)
      | st => some (threads ++ l1.1 ++ l2.1, st)
    | st => some (threads ++ l1.1, st)
  | none => none

/-- The bytes of a text: none is zero and each fits a `char`. -/
def isText (x : List Nat) : Prop := ∀ b ∈ x, 0 < b ∧ b < 256

instance isText.decidable (x : List Nat) : Decidable (isText x) := by
  unfold isText
  infer_instance

/-! ## Part 7: the coordinator programs from their first call -/

/-- `checkError(void* p, ..)` on a pointer given by its address, the null
pointer being 0: exits on null, otherwise returns the pointer. -/
def checkErrorAddr (p : Nat) : Outcome Nat :=
  if p = 0 then Outcome.fatal else Outcome.ret p

/-- What the library answers to the calls a `main` makes before it creates
its threads. -/
structure SetupAnswers where
  /-- the pointer `zmq_ctx_new()` returns -/
  ctx : Nat
  /-- the pointer `zmq_socket(..)` returns -/
  sock : Nat
  /-- status of `zmq_setsockopt(ZMQ_SNDBUF)` in `setBuffering` -/
  sndbuf : Int
  /-- status of `zmq_setsockopt(ZMQ_RCVBUF)` in `setBuffering` -/
  rcvbuf : Int
  /-- status of `zmq_setsockopt(ZMQ_MAXMSGSIZE)` in `setBuffering` -/
  maxmsg : Int
  /-- status of `zmq_bind(..)` -/
  bind : Int
  deriving DecidableEq, Repr

/-- The calls of the set up. -/
inductive Call
  | ctxNew
  | socket
  | setsockopt
  | bind
  deriving DecidableEq, Repr

/-- The checked calls of a `main` up to its bind, in program order, each
with the outcome of its `checkError`: `zmq_ctx_new`, `zmq_socket`, in the
timing programs `setBuffering`, `zmq_bind`. -/
def setupCalls (timing : Bool) (a : SetupAnswers) : List (Call × Outcome Unit) :=
  [(Call.ctxNew, (checkErrorAddr a.ctx).map (fun _ => ())),
   (Call.socket, (checkErrorAddr a.sock).map (fun _ => ()))]
  ++ (if timing then
        [(Call.setsockopt, (checkError a.sndbuf).map (fun _ => ())),
         (Call.setsockopt, (checkError a.rcvbuf).map (fun _ => ())),
         (Call.setsockopt, (checkError a.maxmsg).map (fun _ => ()))]
      else [])
  ++ [(Call.bind, (checkError a.bind).map (fun _ => ()))]

/-- Make the calls in order up to the first whose check does not return:
the calls made, and whether all returned. -/
def runCalls : List (Call × Outcome Unit) → List Call × Bool
  | [] => ([], true)
  | (c, Outcome.ret _) :: rest => (c :: (runCalls rest).1, (runCalls rest).2)
  | (c, _) :: _ => ([c], false)

/-- What a program does: a call of its set up, `exit(EXIT_FAILURE)`, or a
call of the rest of `main`. -/
inductive PEvent (ε : Type)
  | call (c : Call)
  | exitFailure
  | body (e : ε)
  deriving DecidableEq, Repr

/-- A run of a program. -/
structure ProgRun (ε : Type) where
  trace : List (PEvent ε)
  status : Status

/-- A `main`: its set up, then, when every check returned, the rest. -/
def program {ε : Type} (calls : List (Call × Outcome Unit))
    (rest : Option (List ε × Status)) : Option (ProgRun ε) :=
  match runCalls calls with
  | (made, true) => rest.map fun r => ⟨made.map PEvent.call ++ r.1.map PEvent.body, r.2⟩
  | (made, false) => some ⟨made.map PEvent.call ++ [PEvent.exitFailure], Status.fatal⟩

/-- `main` of `performance/push.cpp`. -/
def pushProgram (a : SetupAnswers) (fuel : Nat) (nummsgs : Int) (numclients : Nat)
    (polls : List Bool) (released : Bool) : Option (ProgRun MEvent) :=
  program (setupCalls true a)
    ((pushMain fuel nummsgs numclients polls released).map fun r => (r.trace, r.status))

/-- `main` of `performance/pubsub.cpp`. -/
def pubsubProgram (a : SetupAnswers) (fuel : Nat) (minmsgs : Int) (numsubs : Nat)
    (polls : List Bool) (released : Bool) : Option (ProgRun MEvent) :=
  program (setupCalls true a)
    ((pubsubMain fuel minmsgs numsubs polls released).map fun r => (r.trace, r.status))

/-- `main` of `push.cpp`. -/
def demoPushProgram (a : SetupAnswers) (fuel : Nat) (nPullers nMessages : Int)
    (polls : List Bool) (released joined : Bool) : Option (ProgRun DEvent) :=
  program (setupCalls false a) (demoPushMain fuel nPullers nMessages polls released joined)

/-- `main` of `pubsub.cpp`. -/
def demoPubsubProgram (a : SetupAnswers) (fuel : Nat) (subscribers responses : Int)
    (joined : Bool) : Option (ProgRun DEvent) :=
  program (setupCalls false a) (demoPubsubMain fuel subscribers responses joined)

/-- `main` of `reqrep.cpp`. -/
def reqrepProgram (a : SetupAnswers) (fuel : Nat) (nclients nreplies : Int)
    (requests : List RecvOutcome) (joined : Bool) : Option (ProgRun DEvent) :=
  program (setupCalls false a) (reqrepMain fuel nclients nreplies requests joined)

/-- A run that ended in `exit(EXIT_FAILURE)` with no call of the rest of
`main` made: no thread created, no message sent. -/
def ProgRun.failedInSetup {ε : Type} (r : ProgRun ε) : Prop :=
  r.status = Status.fatal ∧ r.trace.getLast? = some PEvent.exitFailure
    ∧ ∀ e ∈ r.trace, ∀ x, e ≠ PEvent.body x

/-! ## Part 8: a whole run of `push.cpp` as an interleaving of steps

As in Part 3: a failed call ends the process, and each send names the
pullers whose queues receive the message. -/

namespace DemoPush

/-- Command line of `push.cpp`. -/
structure Config where
  nPullers : Nat
  nMessages : Int
  deriving DecidableEq, Repr

/-- Control points of `puller`. -/
inductive PullerPc
  /-- `zmq_socket`, `zmq_connect` -/
  | connect
  /-- `msg = rcvString(sock); if (msg == "EXIT") break;` -/
  | recv
  /-- `exitlatch.arrive_and_wait()`, the arrival -/
  | arriveExit
  /-- `exitlatch.arrive_and_wait()`, the wait -/
  | waitExit
  /-- `donelatch.arrive_and_wait()`, the arrival -/
  | arriveDone
  /-- `donelatch.arrive_and_wait()`, the wait -/
  | waitDone
  /-- `zmq_close(sock)` -/
  | close
  /-- socket closed, thread function returned -/
  | closed
  deriving DecidableEq, Repr

/-- One puller thread: where it is and the strings queued on its socket. -/
structure Puller where
  pc : PullerPc
  inbox : List (List Nat)
  deriving DecidableEq, Repr

/-- Control points of `main` from the creation of the latches on. -/
inductive PusherPc
  /-- `for (int i = 0; i < nPullers; i++) push_back(new std::thread(..))` -/
  | spawn
  /-- `for (int i = 0; i < nMessages; i++) sendString(sock, "Push number i")` -/
  | push
  /-- `while(!exitlatch.try_wait())` -/
  | pollExit
  /-- `sendString(sock, "EXIT"); usleep(500);` -/
  | sendExit
  /-- `donelatch.arrive_and_wait()`, the arrival -/
  | arriveDone
  /-- `donelatch.arrive_and_wait()`, the wait -/
  | waitDone
  /-- `for (auto t : pullThreads) t->join()` -/
  | join
  /-- `zmq_close(sock)` -/
  | closeSock
  /-- `zmq_ctx_term(ctx)` -/
  | term
  /-- `return EXIT_SUCCESS` -/
  | finished
  deriving DecidableEq, Repr

/-- State of a run: `exitlatch` has one slot per puller, `donelatch` one
more; `i` is the loop variable of the push loop. -/
structure State where
  exitlatch : Latch
  donelatch : Latch
  mainPc : PusherPc
  i : Int
  pullers : List Puller
  deriving DecidableEq, Repr

/-- State right after `std::latch exitlatch(nPullers); std::latch
donelatch(nPullers+1);`. -/
def init (cfg : Config) : State :=
  { exitlatch := Latch.mk0 cfg.nPullers
    donelatch := Latch.mk0 (cfg.nPullers + 1)
    mainPc := PusherPc.spawn
    i := 0
    pullers := [] }

/-- Queue the string `m` on the sockets of the pullers whose index is listed
in `dest`. -/
def deliverFrom (m : List Nat) (dest : List Nat) : Nat → List Puller → List Puller
  | _, [] => []
  | k, p :: ps =>
    (if k ∈ dest then { p with inbox := p.inbox ++ [m] } else p)
      :: deliverFrom m dest (k + 1) ps

/-- One step of a puller; `none` when it is blocked or has returned. The
result carries the two latches. -/
def pullerStep (exitlatch donelatch : Latch) (p : Puller) :
    Option (Puller × Latch × Latch) :=
  match p.pc with
  | PullerPc.connect => some ({ p with pc := PullerPc.recv }, exitlatch, donelatch)
  | PullerPc.recv =>
    match p.inbox with
    | [] => none
    | m :: rest =>
      if m = bytes "EXIT" then
        some ({ pc := PullerPc.arriveExit, inbox := rest }, exitlatch, donelatch)
      else some ({ pc := PullerPc.recv, inbox := rest }, exitlatch, donelatch)
  | PullerPc.arriveExit =>
    some ({ p with pc := PullerPc.waitExit }, exitlatch.count_down, donelatch)
  | PullerPc.waitExit =>
    if exitlatch.try_wait then
      some ({ p with pc := PullerPc.arriveDone }, exitlatch, donelatch)
    else none
  | PullerPc.arriveDone =>
    some ({ p with pc := PullerPc.waitDone }, exitlatch, donelatch.count_down)
  | PullerPc.waitDone =>
    if donelatch.try_wait then some ({ p with pc := PullerPc.close }, exitlatch, donelatch)
    else none
  | PullerPc.close => some ({ p with pc := PullerPc.closed }, exitlatch, donelatch)
  | PullerPc.closed => none

/-- One step of `main`; `dest` names the pullers a send reaches. `none` when
`main` is blocked or has returned. -/
def pusherStep (cfg : Config) (dest : List Nat) (s : State) : Option State :=
  match s.mainPc with
  | PusherPc.spawn =>
    if s.pullers.length < cfg.nPullers then
      some { s with pullers := s.pullers ++ [⟨PullerPc.connect, []⟩] }
    else some { s with mainPc := PusherPc.push, i := 0 }
  | PusherPc.push =>
    if s.i < cfg.nMessages then
      some { s with i := wrapInt (s.i + 1),
                    pullers := deliverFrom (bytes ("Push number " ++ toString s.i)) dest 0
                      s.pullers }
    else some { s with mainPc := PusherPc.pollExit }
  | PusherPc.pollExit =>
    if s.exitlatch.try_wait then some { s with mainPc := PusherPc.arriveDone }
    else some { s with mainPc := PusherPc.sendExit }
  | PusherPc.sendExit =>
    some { s with mainPc := PusherPc.pollExit,
                  pullers := deliverFrom (bytes "EXIT") dest 0 s.pullers }
  | PusherPc.arriveDone =>
    some { s with mainPc := PusherPc.waitDone, donelatch := s.donelatch.count_down }
  | PusherPc.waitDone =>
    if s.donelatch.try_wait then some { s with mainPc := PusherPc.join } else none
  | PusherPc.join =>
    if s.pullers.all (fun p => p.pc == PullerPc.closed) then
      some { s with mainPc := PusherPc.closeSock }
    else none
  | PusherPc.closeSock => some { s with mainPc := PusherPc.term }
  | PusherPc.term => some { s with mainPc := PusherPc.finished }
  | PusherPc.finished => none

/-- Who moves next. -/
inductive Move
  /-- `main` takes a step; a send reaches the listed pullers -/
  | main (dest : List Nat)
  /-- puller `k` takes a step -/
  | puller (k : Nat)
  deriving DecidableEq, Repr

/-- One step of the run. -/
def step (cfg : Config) (s : State) : Move → Option State
  | Move.main dest => pusherStep cfg dest s
  | Move.puller k =>
    match s.pullers[k]? with
    | none => none
    | some p =>
      match pullerStep s.exitlatch s.donelatch p with
      | none => none
      | some (p', e, d) =>
        some { s with exitlatch := e, donelatch := d, pullers := s.pullers.set k p' }

/-- Run a schedule from a state. -/
def run (cfg : Config) : State → List Move → Option State
  | s, [] => some s
  | s, a :: as =>
    match step cfg s a with
    | none => none
    | some s' => run cfg s' as

/-- States some schedule reaches from the initial state. -/
def Reachable (cfg : Config) (s : State) : Prop :=
  ∃ sched : List Move, run cfg (init cfg) sched = some s

/-- The puller has arrived at `donelatch`. -/
def PullerPc.arrived : PullerPc → Bool
  | PullerPc.waitDone | PullerPc.close | PullerPc.closed => true
  | _ => false

/-- The puller is at the close of its socket or has executed it. -/
def PullerPc.closing : PullerPc → Bool
  | PullerPc.close | PullerPc.closed => true
  | _ => false

/-- The pusher has arrived at `donelatch`. -/
def PusherPc.arrived : PusherPc → Bool
  | PusherPc.spawn | PusherPc.push | PusherPc.pollExit | PusherPc.sendExit
  | PusherPc.arriveDone => false
  | _ => true

/-- The pusher is in its EXIT-sending loop or before it. -/
def PusherPc.sending : PusherPc → Bool
  | PusherPc.spawn | PusherPc.push | PusherPc.pollExit | PusherPc.sendExit => true
  | _ => false

/-- Inductive invariant of a run of `push.cpp`. -/
structure Inv (cfg : Config) (s : State) : Prop where
  len : s.pullers.length ≤ cfg.nPullers
  done_eq : s.donelatch.counter =
    (cfg.nPullers : Int) + 1 - (s.pullers.countP (fun p => p.pc.arrived) : Int)
      - (if s.mainPc.arrived then 1 else 0)
  p_rel : ∀ p ∈ s.pullers, p.pc.closing = true → s.donelatch.counter = 0

/-- A run with one puller and no ordinary message. -/
def sampleCfg : Config := ⟨1, 0⟩

/-- A schedule of `sampleCfg`: the puller receives "EXIT" and passes the
first latch, `main` leaves its loop and arrives at the second latch, and the
puller closes its socket. -/
def scheduleToClose : List Move :=
  [Move.main [], Move.main [], Move.puller 0, Move.main [], Move.main [], Move.main [0],
   Move.puller 0, Move.puller 0, Move.puller 0, Move.puller 0, Move.main [], Move.main [],
   Move.puller 0, Move.puller 0]

end DemoPush

/-! ### Calls of a timing `main` inside and outside the timed interval -/

/-- The calls `main` makes to shut the run down: the arrival at the exit
latch, the closes, the joins, and the report that follows them. -/
def MEvent.isTeardown : MEvent → Bool
  | MEvent.arriveAndWait | MEvent.close | MEvent.term | MEvent.join | MEvent.report _ => true
  | _ => false

/-- The calls of `main` inside the timed interval: sends and polls. -/
def MEvent.isTimed : MEvent → Bool
  | MEvent.send _ | MEvent.tryWait _ => true
  | _ => false

/-! ### Subscriptions of `pubsub.cpp` -/

/-- The table `subscriptions` of `pubsub.cpp`. -/
def subscriptions : List String := ["", "ODD", "EVEN"]

/-- `subscriptions[id % 3]` in `subscriber`: `%` rounds toward zero, and an
index outside the table (a negative one) is a read outside the array. -/
def subscription (id : Int) : Option String :=
  if 0 ≤ id.tmod 3 then subscriptions[(id.tmod 3).toNat]? else none

/-- The test a socket set with `ZMQ_SUBSCRIBE` to the `strlen(sub)` bytes of
`sub` makes on a published message: its first bytes are those of `sub`. -/
def matchesSubscription (sub : String) (msg : List Nat) : Bool :=
  (bytes sub).isPrefixOf msg

/-! ## Part 9: the two timed runs of `performance/pair.cpp` and `performance/req.cpp`

A timed run has two threads. The calls of the created thread come after the
`spawn` that creates it, and `join` returns once the thread function has
returned; so a run is observed as the calls of the main thread, the calls of
the created thread, and how far the main thread got. Socket creation, bind,
connect, send and close calls succeed. -/

/-- A thread function, observed: its calls and how far it got. -/
structure Thread (ε : Type) where
  trace : List ε
  status : Status
  deriving DecidableEq, Repr

/-- Put an event in front of the calls of a thread. -/
def Thread.cons {ε : Type} (e : ε) (r : Thread ε) : Thread ε := { r with trace := e :: r.trace }

/-- One timed run, observed: the calls of the main thread, the calls of the
thread it created, and how far the main thread got. -/
structure TimedRun (ε : Type) where
  main : List ε
  thread : List ε
  status : Status
  deriving DecidableEq, Repr

/-- A program of two timed runs, observed: the calls of the main thread, of
the thread of the first run and of the thread of the second run. -/
structure TwoRuns (ε : Type) where
  main : List ε
  first : List ε
  second : List ε
  status : Status
  deriving DecidableEq, Repr

/-- `new char[size]`: a negative size throws `std::bad_array_new_length`,
which nothing catches, so the program is terminated. -/
def allocate (size : Int) : Outcome Unit :=
  if size < 0 then Outcome.fatal else Outcome.ret ()

namespace Pair

/-- Calls of `performance/pair.cpp`, in program order. -/
inductive Event
  /-- `zmq_ctx_new()` -/
  | ctxNew
  /-- `zmq_socket(ctx, ZMQ_PAIR)` -/
  | socket
  /-- `zmq_bind(socket, uri)` -/
  | bind
  /-- `zmq_connect(socket, uri)` -/
  | connect
  /-- `std::thread peerThread(peer, uri, context, nmsgs, size)` -/
  | spawn (nmsgs size : Int)
  /-- `start = high_resolution_clock::now()` -/
  | start
  /-- `send(socket, msg, size)` -/
  | send (size : Int)
  /-- `ignore(socket)` -/
  | recv
  /-- `peerThread.join()` has returned -/
  | join
  /-- `end = high_resolution_clock::now()` -/
  | stop
  /-- `zmq_close(socket)` -/
  | close
  /-- `zmq_ctx_term(context)` -/
  | ctxTerm
  deriving DecidableEq, Repr

/-- The sizes of the messages sent in a sequence of calls, in order. -/
def sizes : List Event → List Int
  | [] => []
  | Event.send size :: t => size :: sizes t
  | _ :: t => sizes t

/-- `ignore(socket)` of `performance/pair.cpp`: a blocking receive whose
message is not looked at; `o` is what the library answers. -/
def ignore (o : RecvOutcome) : Outcome Unit :=
  (checkError o.initStatus).bind fun _ =>
  (checkError o.status).bind fun _ =>
  (checkError o.optStatus).bind fun _ =>
  if o.more ≠ 0 then Outcome.fatal else Outcome.ret ()

/-- The loop `for (int i = 0; i < nmsgs; i++) { ignore(socket);
send(socket, msg, size); }` of `peer`, from loop variable `i`, against the
answers of the successive receives. `finished` means the loop was left. -/
def peerLoop (nmsgs size : Int) : List RecvOutcome → Int → Thread Event
  | [], i => if i < nmsgs then ⟨[], Status.pending⟩ else ⟨[], Status.finished⟩
  | o :: recvs, i =>
    if i < nmsgs then
      match ignore o with
      | Outcome.ret _ =>
        ((peerLoop nmsgs size recvs (wrapInt (i + 1))).cons (Event.send size)).cons Event.recv
      | Outcome.fatal => ⟨[Event.recv], Status.fatal⟩
      | Outcome.undef => ⟨[Event.recv], Status.undef⟩
    else ⟨[], Status.finished⟩

/-- `peer(uri, ctx, nmsgs, size)`: socket, connect, the buffer, the loop,
`zmq_close`. -/
def peer (nmsgs size : Int) (recvs : List RecvOutcome) : Thread Event :=
  match allocate size with
  | Outcome.ret _ =>
    let r := peerLoop nmsgs size recvs 0
    match r.status with
    | Status.finished =>
      ⟨[Event.socket, Event.connect] ++ r.trace ++ [Event.close], Status.finished⟩
    | st => ⟨[Event.socket, Event.connect] ++ r.trace, st⟩
  | _ => ⟨[Event.socket, Event.connect], Status.fatal⟩

/-- The loop `for (int i = 0; i < nummsgs; i++) { send(socket, sendmsg,
mainsize); ignore(socket); }` of `run`, from loop variable `i`. -/
def exchangeLoop (nummsgs mainsize : Int) : List RecvOutcome → Int → Thread Event
  | [], i =>
    if i < nummsgs then ⟨[Event.send mainsize], Status.pending⟩ else ⟨[], Status.finished⟩
  | o :: recvs, i =>
    if i < nummsgs then
      match ignore o with
      | Outcome.ret _ =>
        ((exchangeLoop nummsgs mainsize recvs (wrapInt (i + 1))).cons Event.recv).cons
          (Event.send mainsize)
      | Outcome.fatal => ⟨[Event.send mainsize, Event.recv], Status.fatal⟩
      | Outcome.undef => ⟨[Event.send mainsize, Event.recv], Status.undef⟩
    else ⟨[], Status.finished⟩

/-- `run(uri, context, nummsgs, mainsize, thrsize)`: socket, bind, the
peer thread, the buffer, the timed exchange and join, `zmq_close`. `recvs`
answers the receives of the main thread, `peerRecvs` those of the peer. When
the peer has not returned the join does not return, and the run ends as the
peer does. -/
def run (nummsgs mainsize thrsize : Int) (recvs peerRecvs : List RecvOutcome) :
    TimedRun Event :=
  let t := peer nummsgs thrsize peerRecvs
  let setup := [Event.socket, Event.bind, Event.spawn nummsgs thrsize]
  match allocate mainsize with
  | Outcome.ret _ =>
    let r := exchangeLoop nummsgs mainsize recvs 0
    match r.status with
    | Status.finished =>
      match t.status with
      | Status.finished =>
        ⟨setup ++ Event.start :: r.trace ++ [Event.join, Event.stop, Event.close], t.trace,
          Status.finished⟩
      | st => ⟨setup ++ Event.start :: r.trace, t.trace, st⟩
    | st => ⟨setup ++ Event.start :: r.trace, t.trace, st⟩
  | _ => ⟨setup, t.trace, Status.fatal⟩

/-- `main` of `performance/pair.cpp` up to its report: the context,
`run(uri, context, nummsgs, size, 1)`, `run(uri, context, nummsgs, 1, size)`,
`zmq_ctx_term`. -/
def main (nummsgs size : Int) (recvs1 peerRecvs1 recvs2 peerRecvs2 : List RecvOutcome) :
    TwoRuns Event :=
  let r1 := run nummsgs size 1 recvs1 peerRecvs1
  match r1.status with
  | Status.finished =>
    let r2 := run nummsgs 1 size recvs2 peerRecvs2
    match r2.status with
    | Status.finished =>
      ⟨Event.ctxNew :: r1.main ++ r2.main ++ [Event.ctxTerm], r1.thread, r2.thread,
        Status.finished⟩
    | st => ⟨Event.ctxNew :: r1.main ++ r2.main, r1.thread, r2.thread, st⟩
  | st => ⟨Event.ctxNew :: r1.main, r1.thread, [], st⟩

end Pair

namespace Req

/-- Calls of `performance/req.cpp`, in program order. -/
inductive Event
  /-- `zmq_ctx_new()` -/
  | ctxNew
  /-- `std::thread replythread(replier, uri, context, repsize)` -/
  | spawn (size : Int)
  /-- `sleep(1)` -/
  | sleep
  /-- `zmq_socket(ctx, ZMQ_REQ)` or `zmq_socket(ctx, ZMQ_REP)` -/
  | socket
  /-- `setBuffering(socket)` -/
  | setBuffering
  /-- `zmq_bind(socket, uri)` -/
  | bind
  /-- `zmq_connect(socket, uri)` -/
  | connect
  /-- `start = high_resolution_clock::now()` -/
  | start
  /-- `send(socket, msg, size)`, with the first byte of the message -/
  | send (first : Nat) (size : Int)
  /-- `ignore(socket)` -/
  | recv
  /-- `replythread.join()` has returned -/
  | join
  /-- `end = high_resolution_clock::now()` -/
  | stop
  /-- `zmq_close(socket)` -/
  | close
  /-- `zmq_ctx_term(context)` -/
  | ctxTerm
  deriving DecidableEq, Repr

/-- The sizes of the messages sent in a sequence of calls, in order. -/
def sizes : List Event → List Int
  | [] => []
  | Event.send _ size :: t => size :: sizes t
  | _ :: t => sizes t

/-- The loop `while(ignore(socket) == 0) { send(socket, replymsg, size); }`
of `replier`; `replyFirst` is the first byte of the buffer `replymsg`. -/
def replyLoop (replyFirst : Nat) (size : Int) : List RecvOutcome → Thread Event
  | [] => ⟨[], Status.pending⟩
  | o :: requests =>
    match ZmqExamples.ignore 0 o with
    | Outcome.ret v =>
      if sawEnd v then ⟨[Event.recv], Status.finished⟩
      else ((replyLoop replyFirst size requests).cons (Event.send replyFirst size)).cons
        Event.recv
    | Outcome.fatal => ⟨[Event.recv], Status.fatal⟩
    | Outcome.undef => ⟨[Event.recv], Status.undef⟩

/-- `replier(uri, ctx, size)`: socket, `setBuffering`, bind, the buffer,
the loop, the last reply, `zmq_close`. -/
def replier (replyFirst : Nat) (size : Int) (requests : List RecvOutcome) : Thread Event :=
  let setup := [Event.socket, Event.setBuffering, Event.bind]
  match allocate size with
  | Outcome.ret _ =>
    let r := replyLoop replyFirst size requests
    match r.status with
    | Status.finished =>
      ⟨setup ++ r.trace ++ [Event.send replyFirst size, Event.close], Status.finished⟩
    | st => ⟨setup ++ r.trace, st⟩
  | _ => ⟨setup, Status.fatal⟩

/-- The loop `for (int i = 0; i < nreq; i++) { send(socket, request,
reqsize); ignore(socket); if (i == (nreq-2)) { *request = 0xff; } }` of
`requestor`, from loop variable `i` and first byte `first` of `request`. -/
def requestLoop (nreq reqsize : Int) : List RecvOutcome → Int → Nat → Thread Event
  | [], i, first =>
    if i < nreq then ⟨[Event.send first reqsize], Status.pending⟩ else ⟨[], Status.finished⟩
  | o :: replies, i, first =>
    if i < nreq then
      match ZmqExamples.ignore 0 o with
      | Outcome.ret _ =>
        ((requestLoop nreq reqsize replies (wrapInt (i + 1))
            (if i = wrapInt (nreq - 2) then storeChar 0xff else first)).cons
          Event.recv).cons (Event.send first reqsize)
      | Outcome.fatal => ⟨[Event.send first reqsize, Event.recv], Status.fatal⟩
      | Outcome.undef => ⟨[Event.send first reqsize, Event.recv], Status.undef⟩
    else ⟨[], Status.finished⟩

/-- `requestor(uri, nreq, reqsize, repsize)`: the context, the reply
thread, `sleep(1)`, socket, connect, the buffer and `*request = 0` (a write
outside the buffer when `reqsize` is 0), the timed exchange and join,
`zmq_close`, `zmq_ctx_term`. `replies` answers the receives of the main
thread, `requests` those of the replier. When the replier has not returned
the join does not return, and the run ends as the replier does. -/
def requestor (nreq reqsize repsize : Int) (replyFirst : Nat)
    (replies requests : List RecvOutcome) : TimedRun Event :=
  let t := replier replyFirst repsize requests
  let setup := [Event.ctxNew, Event.spawn repsize, Event.sleep, Event.socket, Event.connect]
  match allocate reqsize with
  | Outcome.ret _ =>
    if reqsize = 0 then ⟨setup, t.trace, Status.undef⟩
    else
      let r := requestLoop nreq reqsize replies 0 (storeChar 0)
      match r.status with
      | Status.finished =>
        match t.status with
        | Status.finished =>
          ⟨setup ++ Event.start :: r.trace
              ++ [Event.join, Event.stop, Event.close, Event.ctxTerm], t.trace,
            Status.finished⟩
        | st => ⟨setup ++ Event.start :: r.trace, t.trace, st⟩
      | st => ⟨setup ++ Event.start :: r.trace, t.trace, st⟩
  | _ => ⟨setup, t.trace, Status.fatal⟩

/-- `main` of `performance/req.cpp` up to its report:
`requestor(uri, nreq, bigsize, 1)`, then `requestor(uri, nreq, 1, bigsize)`. -/
def main (nreq bigsize : Int) (replyFirst1 replyFirst2 : Nat)
    (replies1 requests1 replies2 requests2 : List RecvOutcome) : TwoRuns Event :=
  let r1 := requestor nreq bigsize 1 replyFirst1 replies1 requests1
  match r1.status with
  | Status.finished =>
    let r2 := requestor nreq 1 bigsize replyFirst2 replies2 requests2
    ⟨r1.main ++ r2.main, r1.thread, r2.thread, r2.status⟩
  | st => ⟨r1.main, r1.thread, [], st⟩

end Req

/-! ## Part 10: a whole run of `reqrep.cpp` as an interleaving of steps

As in Part 8: every call succeeds. A request a client sends waits on the
reply socket until `main` receives it; a reply `main` sends goes to the
client whose request it received last and waits on that client's socket until
the client receives it. -/

namespace ReqRep

/-- Command line of `reqrep.cpp`. -/
structure Config where
  nclients : Nat
  nreplies : Int
  deriving DecidableEq, Repr

/-- Control points of `requester`. -/
inductive ClientPc
  /-- `zmq_socket`, `zmq_connect` -/
  | connect
  /-- `sendString(socket, req.c_str())` -/
  | send
  /-- `reply = rcvString(socket); if (reply == "BYE") break;` -/
  | recv
  /-- `zmq_close(socket)` -/
  | close
  /-- socket closed, thread function returned -/
  | closed
  deriving DecidableEq, Repr

/-- One requester thread: its `id`, where it is, its requests that `main`
has not received yet, the replies queued on its socket, and the replies
`rcvString` has returned to it so far. -/
structure Client where
  id : Int
  pc : ClientPc
  outbox : List (List Nat)
  inbox : List (List Nat)
  received : List (List Nat)
  deriving DecidableEq, Repr

/-- Control points of `main` from the creation of the threads on. -/
inductive ServerPc
  /-- `for (int i = 0; i < nclients; i++) push_back(new std::thread(..))` -/
  | spawn
  /-- `for (int i = 0; i < nreplies; i++) { req = rcvString(socket);` -/
  | serve
  /-- `sendString(socket, "Keep going for now"); }`, answering client `c` -/
  | reply (c : Nat)
  /-- `for (int i = 0; i < nclients; i++) { req = rcvString(socket);` -/
  | bye
  /-- `sendString(socket, "BYE"); }`, answering client `c` -/
  | replyBye (c : Nat)
  /-- `for (auto p : reqThreads) p->join()` -/
  | join
  /-- `zmq_close(socket)` -/
  | closeSock
  /-- `zmq_ctx_term(context)` -/
  | term
  /-- `return EXIT_SUCCESS` -/
  | finished
  deriving DecidableEq, Repr

/-- State of a run; `i` is the loop variable of the loop `main` is in. -/
structure State where
  mainPc : ServerPc
  i : Int
  clients : List Client
  deriving DecidableEq, Repr

/-- State right after the bind of the reply socket. -/
def init : State := { mainPc := ServerPc.spawn, i := 0, clients := [] }

/-- One step of a requester; `none` when it is blocked or has returned. -/
def clientStep (cl : Client) : Option Client :=
  match cl.pc with
  | ClientPc.connect => some { cl with pc := ClientPc.send }
  | ClientPc.send =>
    some { cl with pc := ClientPc.recv,
                   outbox := cl.outbox ++ [bytes ("Request from " ++ toString cl.id)] }
  | ClientPc.recv =>
    match cl.inbox with
    | [] => none
    | m :: rest =>
      some { cl with pc := if m = bytes "BYE" then ClientPc.close else ClientPc.send,
                     inbox := rest, received := cl.received ++ [m] }
  | ClientPc.close => some { cl with pc := ClientPc.closed }
  | ClientPc.closed => none

/-- `rcvString(socket)` of `main`: the request of client `c` is taken from
the reply socket; `none` when that client has no request waiting. -/
def takeRequest (c : Nat) (clients : List Client) : Option (List Client) :=
  match clients[c]? with
  | none => none
  | some cl =>
    match cl.outbox with
    | [] => none
    | _ :: rest => some (clients.set c { cl with outbox := rest })

/-- `sendString(socket, m)` of `main` after the request of client `c`: the
reply is queued on the socket of `c`. -/
def sendReply (m : List Nat) (c : Nat) (clients : List Client) : List Client :=
  match clients[c]? with
  | none => clients
  | some cl => clients.set c { cl with inbox := cl.inbox ++ [m] }

/-- One step of `main`; `c` names the client whose request a receive takes.
`none` when `main` is blocked or has returned. -/
def serverStep (cfg : Config) (c : Nat) (s : State) : Option State :=
  match s.mainPc with
  | ServerPc.spawn =>
    if s.clients.length < cfg.nclients then
      some { s with clients := s.clients
                      ++ [⟨(s.clients.length : Int), ClientPc.connect, [], [], []⟩] }
    else some { s with mainPc := ServerPc.serve, i := 0 }
  | ServerPc.serve =>
    if s.i < cfg.nreplies then
      match takeRequest c s.clients with
      | none => none
      | some clients => some { s with mainPc := ServerPc.reply c, clients := clients }
    else some { s with mainPc := ServerPc.bye, i := 0 }
  | ServerPc.reply k =>
    some { s with mainPc := ServerPc.serve, i := wrapInt (s.i + 1),
                  clients := sendReply (bytes "Keep going for now") k s.clients }
  | ServerPc.bye =>
    if s.i < (cfg.nclients : Int) then
      match takeRequest c s.clients with
      | none => none
      | some clients => some { s with mainPc := ServerPc.replyBye c, clients := clients }
    else some { s with mainPc := ServerPc.join }
  | ServerPc.replyBye k =>
    some { s with mainPc := ServerPc.bye, i := wrapInt (s.i + 1),
                  clients := sendReply (bytes "BYE") k s.clients }
  | ServerPc.join =>
    if s.clients.all (fun cl => cl.pc == ClientPc.closed) then
      some { s with mainPc := ServerPc.closeSock }
    else none
  | ServerPc.closeSock => some { s with mainPc := ServerPc.term }
  | ServerPc.term => some { s with mainPc := ServerPc.finished }
  | ServerPc.finished => none

/-- Who moves next. -/
inductive Move
  /-- `main` takes a step; a receive takes the request of client `c` -/
  | main (c : Nat)
  /-- client `k` takes a step -/
  | client (k : Nat)
  deriving DecidableEq, Repr

/-- One step of the run. -/
def step (cfg : Config) (s : State) : Move → Option State
  | Move.main c => serverStep cfg c s
  | Move.client k =>
    match s.clients[k]? with
    | none => none
    | some cl =>
      match clientStep cl with
      | none => none
      | some cl' => some { s with clients := s.clients.set k cl' }

/-- Run a schedule from a state. -/
def run (cfg : Config) : State → List Move → Option State
  | s, [] => some s
  | s, a :: as =>
    match step cfg s a with
    | none => none
    | some s' => run cfg s' as

/-- States some schedule reaches from the initial state. -/
def Reachable (cfg : Config) (s : State) : Prop :=
  ∃ sched : List Move, run cfg init sched = some s

/-- The requester has left its loop. -/
def ClientPc.stopped : ClientPc → Bool
  | ClientPc.close | ClientPc.closed => true
  | _ => false

/-- Both reply loops of `main` are finished. -/
def ServerPc.loopsDone : ServerPc → Bool
  | ServerPc.join | ServerPc.closeSock | ServerPc.term | ServerPc.finished => true
  | _ => false

/-- The joins of `main` have returned. -/
def ServerPc.joined : ServerPc → Bool
  | ServerPc.closeSock | ServerPc.term | ServerPc.finished => true
  | _ => false

/-- `main` has not entered its second loop. -/
def ServerPc.beforeBye : ServerPc → Bool
  | ServerPc.spawn | ServerPc.serve | ServerPc.reply _ => true
  | _ => false

/-- `main` is in its second loop. -/
def ServerPc.inBye : ServerPc → Bool
  | ServerPc.bye | ServerPc.replyBye _ => true
  | _ => false

/-- The client `main` is about to answer, if any. -/
def ServerPc.answering : ServerPc → Option Nat
  | ServerPc.reply c | ServerPc.replyBye c => some c
  | _ => none

/-- Number of "BYE" replies in a list of strings. -/
def byes (l : List (List Nat)) : Nat := l.count (bytes "BYE")

/-- A "BYE" has been sent to the client: it waits on the client's socket
or the client has received it and left its loop. -/
def Client.sentBye (cl : Client) : Bool := decide (bytes "BYE" ∈ cl.inbox) || cl.pc.stopped

/-- What holds of a client at each of its control points. -/
def Client.ok (cl : Client) : Prop :=
  match cl.pc with
  | ClientPc.connect | ClientPc.send => cl.outbox = [] ∧ cl.inbox = [] ∧ byes cl.received = 0
  | ClientPc.recv => byes cl.received = 0 ∧ cl.outbox.length + cl.inbox.length ≤ 1
  | ClientPc.close | ClientPc.closed =>
    cl.outbox = [] ∧ cl.inbox = [] ∧ byes cl.received = 1

/-- Inductive invariant of a run of `reqrep.cpp`. -/
structure Inv (cfg : Config) (s : State) : Prop where
  len : s.clients.length ≤ cfg.nclients
  full : s.mainPc ≠ ServerPc.spawn → s.clients.length = cfg.nclients
  ok : ∀ cl ∈ s.clients, cl.ok
  answering : ∀ c, s.mainPc.answering = some c →
    ∃ cl, s.clients[c]? = some cl ∧ cl.pc = ClientPc.recv ∧ cl.outbox = [] ∧ cl.inbox = []
  before : s.mainPc.beforeBye = true → s.clients.countP Client.sentBye = 0
  during : s.mainPc.inBye = true →
    (s.clients.countP Client.sentBye : Int) = s.i ∧ s.i ≤ (cfg.nclients : Int)
  last : ∀ c, s.mainPc = ServerPc.replyBye c → s.i < (cfg.nclients : Int)
  after : s.mainPc.loopsDone = true → s.clients.countP Client.sentBye = cfg.nclients
  joined : s.mainPc.joined = true → ∀ cl ∈ s.clients, cl.pc = ClientPc.closed

/-- A run with one client and no "Keep going for now" reply. -/
def sampleCfg : Config := ⟨1, 0⟩

/-- A schedule of `sampleCfg` up to the end of the second loop of `main`:
the client is created, connects and sends its request; `main` receives it,
answers "BYE" and leaves the loop. -/
def scheduleToJoin : List Move :=
  [Move.main 0, Move.main 0, Move.main 0, Move.client 0, Move.client 0, Move.main 0,
   Move.main 0, Move.main 0]

/-- The schedule `scheduleToJoin` continued to the return of `main`: the
client receives the "BYE" and closes its socket, `main` joins and tears
down. -/
def scheduleToEnd : List Move :=
  scheduleToJoin ++ [Move.client 0, Move.client 0, Move.main 0, Move.main 0, Move.main 0]

end ReqRep

/-! ## Theorems -/

theorem countP_set_balance {α : Type} (p : α → Bool) :
    ∀ (l : List α) (i : Nat) (a x : α), l[i]? = some a →
      (l.set i x).countP p + (if p a then 1 else 0)
        = l.countP p + (if p x then 1 else 0)
  | [], i, a, x, h => by simp at h
  | b :: l, 0, a, x, h => by
    simp at h
    subst h
    simp [List.countP_cons]
    omega
  | b :: l, i + 1, a, x, h => by
    simp at h
    have ih := countP_set_balance p l i a x h
    simp [List.countP_cons]
    omega

theorem deliverFrom_length (b : Nat) (dest : List Nat) :
    ∀ (ws : List Worker) (i : Nat), (deliverFrom b dest i ws).length = ws.length
  | [], _ => rfl
  | w :: ws, i => by simp [deliverFrom, deliverFrom_length b dest ws (i + 1)]

theorem deliverFrom_countP (b : Nat) (dest : List Nat) (p : WorkerPc → Bool) :
    ∀ (ws : List Worker) (i : Nat),
      (deliverFrom b dest i ws).countP (fun w => p w.pc) = ws.countP (fun w => p w.pc)
  | [], _ => rfl
  | w :: ws, i => by
    have ih := deliverFrom_countP b dest p ws (i + 1)
    by_cases h : i ∈ dest <;> simp [deliverFrom, List.countP_cons, h, ih]

theorem deliverFrom_mem (b : Nat) (dest : List Nat) :
    ∀ (ws : List Worker) (i : Nat) (w : Worker), w ∈ deliverFrom b dest i ws →
      ∃ v ∈ ws, v.pc = w.pc
  | [], _, w, h => by simp [deliverFrom] at h
  | v :: ws, i, w, h => by
    simp only [deliverFrom, List.mem_cons] at h
    rcases h with h | h
    · refine ⟨v, List.mem_cons_self _ _, ?_⟩
      by_cases hi : i ∈ dest <;> simp [hi] at h <;> simp [h]
    · obtain ⟨u, hu, hpc⟩ := deliverFrom_mem b dest ws (i + 1) w h
      exact ⟨u, List.mem_cons_of_mem _ hu, hpc⟩

theorem inv_init (cfg : Config) : Inv cfg (init cfg) := by
  constructor <;> simp [init, countPc, Latch.mk0, MainPc.arrived, MainPc.pastPoll, MainPc.released]

theorem inv_deliver (cfg : Config) (s : State) (b : Nat) (dest : List Nat) (pc : MainPc)
    (x : Int) (hpc : pc.arrived = false) (hpc' : s.mainPc.arrived = false)
    (hpp : pc.pastPoll = false) (hr : pc.released = false) (h : Inv cfg s) :
    Inv cfg { s with mainPc := pc, sent := x, workers := deliverFrom b dest 0 s.workers } := by
  obtain ⟨h1, h2, h3, h4, h5, h6, h7⟩ := h
  refine ⟨?_, ?_, ?_, ?_, ?_, ?_, ?_⟩
  · simpa [deliverFrom_length] using h1
  · simpa [countPc, deliverFrom_countP] using h2
  · simpa [countPc, deliverFrom_countP, hpc, hpc'] using h3
  · intro w hw hp
    obtain ⟨v, hv, hvw⟩ := deliverFrom_mem b dest _ _ w hw
    exact h4 v hv (hvw ▸ hp)
  · simp [hpp]
  · intro w hw hp
    obtain ⟨v, hv, hvw⟩ := deliverFrom_mem b dest _ _ w hw
    exact h6 v hv (hvw ▸ hp)
  · simp [hr]

theorem inv_mainStep (cfg : Config) (dest : List Nat) (s s' : State)
    (h : Inv cfg s) (hs : mainStep cfg dest s = some s') : Inv cfg s' := by
  have hA : countPc WorkerPc.arrived s ≤ s.workers.length := List.countP_le_length _
  obtain ⟨h1, h2, h3, h4, h5, h6, h7⟩ := h
  unfold mainStep at hs
  split at hs
  next hpc =>
    split at hs
    next hlt =>
      simp only [Option.some.injEq] at hs
      subst hs
      refine ⟨?_, ?_, ?_, ?_, ?_, ?_, ?_⟩
      · simp; omega
      · simpa [countPc, WorkerPc.signalled] using h2
      · simpa [countPc, WorkerPc.arrived] using h3
      · intro w hw hp
        simp only [List.mem_append, List.mem_singleton] at hw
        rcases hw with hw | rfl
        · exact h4 w hw hp
        · simp [WorkerPc.pastPoll] at hp
      · exact h5
      · intro w hw hp
        simp only [List.mem_append, List.mem_singleton] at hw
        rcases hw with hw | rfl
        · exact h6 w hw hp
        · simp [WorkerPc.released] at hp
      · exact h7
    next hge =>
      simp only [Option.some.injEq] at hs
      subst hs
      refine ⟨h1, h2, ?_, h4, ?_, h6, ?_⟩
      · simpa [hpc, MainPc.arrived] using h3
      · simp [MainPc.pastPoll, MainPc.arrived]
      · simp [MainPc.released]
  next hpc =>
    split at hs
    next hlt =>
      simp only [Option.some.injEq] at hs
      subst hs
      have := inv_deliver cfg s 0 dest MainPc.sendData (wrapInt (s.sent + 1))
        (by rfl) (by simp [hpc, MainPc.arrived]) (by rfl) (by rfl) ⟨h1, h2, h3, h4, h5, h6, h7⟩
      simpa [hpc] using this
    next hge =>
      simp only [Option.some.injEq] at hs
      subst hs
      refine ⟨h1, h2, ?_, h4, ?_, h6, ?_⟩
      · simpa [hpc, MainPc.arrived] using h3
      · simp [MainPc.pastPoll, MainPc.arrived]
      · simp [MainPc.released]
  next hpc =>
    split at hs
    next hd =>
      simp only [Option.some.injEq] at hs
      subst hs
      refine ⟨h1, h2, ?_, h4, ?_, h6, ?_⟩
      · simpa [hpc, MainPc.arrived] using h3
      · intro _
        simpa [Latch.try_wait] using hd
      · simp [MainPc.released]
    next hd =>
      simp only [Option.some.injEq] at hs
      subst hs
      refine ⟨h1, h2, ?_, h4, ?_, h6, ?_⟩
      · simpa [hpc, MainPc.arrived] using h3
      · simp [MainPc.pastPoll, MainPc.arrived]
      · simp [MainPc.released]
  next hpc =>
    simp only [Option.some.injEq] at hs
    subst hs
    exact inv_deliver cfg s 255 dest MainPc.pollDone (wrapInt (s.sent + 1))
      (by rfl) (by simp [hpc, MainPc.arrived]) (by rfl) (by rfl) ⟨h1, h2, h3, h4, h5, h6, h7⟩
  next hpc =>
    simp only [Option.some.injEq] at hs
    subst hs
    have hd : s.done.counter = 0 := h5 (by simp [hpc, MainPc.pastPoll])
    simp only [countPc] at hA h2 h3
    have he : s.exitlatch.counter ≥ 1 := by
      simp [hpc, MainPc.arrived] at h3
      omega
    refine ⟨h1, h2, ?_, h4, ?_, ?_, ?_⟩
    · simp [hpc, MainPc.arrived, Latch.count_down, countPc] at h3 ⊢
      omega
    · intro _
      exact hd
    · intro w hw hp
      have := h6 w hw hp
      omega
    · simp [MainPc.released]
  next hpc =>
    split at hs
    next he =>
      simp only [Option.some.injEq] at hs
      subst hs
      have he0 : s.exitlatch.counter = 0 := by simpa [Latch.try_wait] using he
      have hd : s.done.counter = 0 := h5 (by simp [hpc, MainPc.pastPoll, MainPc.arrived])
      refine ⟨h1, h2, ?_, h4, ?_, h6, ?_⟩
      · cases cfg.variant <;> simpa [hpc, MainPc.arrived] using h3
      · intro _
        exact hd
      · intro _
        exact he0
    next he => simp at hs
  next hpc =>
    simp only [Option.some.injEq] at hs
    subst hs
    refine ⟨h1, h2, ?_, h4, ?_, h6, ?_⟩
    · simpa [hpc, MainPc.arrived] using h3
    · intro _
      exact h5 (by simp [hpc, MainPc.pastPoll, MainPc.arrived])
    · intro _
      exact h7 (by simp [hpc, MainPc.released])
  next hpc =>
    simp only [Option.some.injEq] at hs
    subst hs
    refine ⟨h1, h2, ?_, h4, ?_, h6, ?_⟩
    · cases cfg.variant <;> simpa [hpc, MainPc.arrived] using h3
    · intro _
      exact h5 (by simp [hpc, MainPc.pastPoll, MainPc.arrived])
    · intro _
      exact h7 (by simp [hpc, MainPc.released])
  next hpc =>
    split at hs
    next hall =>
      simp only [Option.some.injEq] at hs
      subst hs
      refine ⟨h1, h2, ?_, h4, ?_, h6, ?_⟩
      · cases cfg.variant <;> simpa [hpc, MainPc.arrived] using h3
      · intro _
        exact h5 (by simp [hpc, MainPc.pastPoll, MainPc.arrived])
      · intro _
        exact h7 (by simp [hpc, MainPc.released])
    next hall => simp at hs
  next hpc => simp at hs

theorem inv_set_frame (cfg : Config) (s : State) (i : Nat) (w w' : Worker)
    (h : Inv cfg s) (hi : s.workers[i]? = some w)
    (hsig : w'.pc.signalled = w.pc.signalled) (harr : w'.pc.arrived = w.pc.arrived)
    (hpp : w'.pc.pastPoll = true → w.pc.pastPoll = true ∨ s.done.counter = 0)
    (hrel : w'.pc.released = true → w.pc.released = true ∨ s.exitlatch.counter = 0) :
    Inv cfg { s with workers := s.workers.set i w' } := by
  have hS := countP_set_balance (fun v => v.pc.signalled) s.workers i w w' hi
  have hA := countP_set_balance (fun v => v.pc.arrived) s.workers i w w' hi
  have hmem : w ∈ s.workers := List.getElem?_mem hi
  obtain ⟨h1, h2, h3, h4, h5, h6, h7⟩ := h
  simp only [hsig, harr] at hS hA
  refine ⟨?_, ?_, ?_, ?_, h5, ?_, h7⟩
  · simpa using h1
  · simp only [countPc] at h2 ⊢
    omega
  · simp only [countPc] at h3 ⊢
    omega
  · intro v hv hp
    rcases List.mem_or_eq_of_mem_set hv with hv | rfl
    · exact h4 v hv hp
    · rcases hpp hp with hq | hq
      · exact h4 w hmem hq
      · exact hq
  · intro v hv hp
    rcases List.mem_or_eq_of_mem_set hv with hv | rfl
    · exact h6 v hv hp
    · rcases hrel hp with hq | hq
      · exact h6 w hmem hq
      · exact hq

theorem inv_set_countDown (cfg : Config) (s : State) (i : Nat) (w w' : Worker)
    (h : Inv cfg s) (hi : s.workers[i]? = some w)
    (hpc : w.pc = WorkerPc.countDown) (hpc' : w'.pc = WorkerPc.poll) :
    Inv cfg { s with done := s.done.count_down, workers := s.workers.set i w' } := by
  have hS := countP_set_balance (fun v => v.pc.signalled) s.workers i w w' hi
  have hA := countP_set_balance (fun v => v.pc.arrived) s.workers i w w' hi
  have hle : (s.workers.set i w').countP (fun v => v.pc.signalled) ≤ (s.workers.set i w').length :=
    List.countP_le_length _
  obtain ⟨h1, h2, h3, h4, h5, h6, h7⟩ := h
  have e1 : w.pc.signalled = false := by rw [hpc]; rfl
  have e2 : w'.pc.signalled = true := by rw [hpc']; rfl
  have e3 : w.pc.arrived = false := by rw [hpc]; rfl
  have e4 : w'.pc.arrived = false := by rw [hpc']; rfl
  simp only [e1, e2, e3, e4, List.length_set, if_true, Bool.false_eq_true, if_false,
    Nat.add_zero] at hS hA hle
  simp only [countPc] at h2 h3
  have hpos : s.done.counter ≥ 1 := by omega
  refine ⟨?_, ?_, ?_, ?_, ?_, ?_, h7⟩
  · simpa using h1
  · simp only [countPc, Latch.count_down]
    omega
  · simp only [countPc]
    omega
  · intro v hv hp
    rcases List.mem_or_eq_of_mem_set hv with hv | rfl
    · have := h4 v hv hp
      omega
    · simp [hpc', WorkerPc.pastPoll] at hp
  · intro hp
    have := h5 hp
    omega
  · intro v hv hp
    rcases List.mem_or_eq_of_mem_set hv with hv | rfl
    · exact h6 v hv hp
    · simp [hpc', WorkerPc.released] at hp

theorem inv_set_arrive (cfg : Config) (s : State) (i : Nat) (w w' : Worker)
    (h : Inv cfg s) (hi : s.workers[i]? = some w)
    (hpc : w.pc = WorkerPc.arrive) (hpc' : w'.pc = WorkerPc.waiting) :
    Inv cfg { s with exitlatch := s.exitlatch.count_down, workers := s.workers.set i w' } := by
  have hS := countP_set_balance (fun v => v.pc.signalled) s.workers i w w' hi
  have hA := countP_set_balance (fun v => v.pc.arrived) s.workers i w w' hi
  have hle : (s.workers.set i w').countP (fun v => v.pc.arrived) ≤ (s.workers.set i w').length :=
    List.countP_le_length _
  have hmem : w ∈ s.workers := List.getElem?_mem hi
  obtain ⟨h1, h2, h3, h4, h5, h6, h7⟩ := h
  have e1 : w.pc.signalled = true := by rw [hpc]; rfl
  have e2 : w'.pc.signalled = true := by rw [hpc']; rfl
  have e3 : w.pc.arrived = false := by rw [hpc]; rfl
  have e4 : w'.pc.arrived = true := by rw [hpc']; rfl
  simp only [e1, e2, e3, e4, List.length_set, if_true, Bool.false_eq_true, if_false,
    Nat.add_zero] at hS hA hle
  simp only [countPc] at h2 h3
  have hd : s.done.counter = 0 := h4 w hmem (by simp [hpc, WorkerPc.pastPoll])
  have hpos : s.exitlatch.counter ≥ 1 := by
    split at h3 <;> omega
  refine ⟨?_, ?_, ?_, ?_, h5, ?_, ?_⟩
  · simpa using h1
  · simp only [countPc]
    omega
  · simp only [countPc, Latch.count_down]
    omega
  · intro v hv hp
    exact hd
  · intro v hv hp
    rcases List.mem_or_eq_of_mem_set hv with hv | rfl
    · have := h6 v hv hp
      omega
    · simp [hpc', WorkerPc.released] at hp
  · intro hp
    have := h7 hp
    omega

theorem inv_workerStep (cfg : Config) (s : State) (i : Nat) (w w' : Worker) (d e : Latch)
    (h : Inv cfg s) (hi : s.workers[i]? = some w)
    (hw : workerStep s.done s.exitlatch w = some (w', d, e)) :
    Inv cfg { s with done := d, exitlatch := e, workers := s.workers.set i w' } := by
  unfold workerStep at hw
  split at hw
  next hpc =>
    simp only [Option.some.injEq, Prod.mk.injEq] at hw
    obtain ⟨rfl, rfl, rfl⟩ := hw
    exact inv_set_frame cfg s i w _ h hi (by simp [hpc, WorkerPc.signalled])
      (by simp [hpc, WorkerPc.arrived]) (by simp [WorkerPc.pastPoll])
      (by simp [WorkerPc.released])
  next hpc =>
    split at hw
    next => simp at hw
    next b rest hin =>
      split at hw
      all_goals
        simp only [Option.some.injEq, Prod.mk.injEq] at hw
        obtain ⟨rfl, rfl, rfl⟩ := hw
        exact inv_set_frame cfg s i w _ h hi (by simp [hpc, WorkerPc.signalled])
          (by simp [hpc, WorkerPc.arrived]) (by simp [WorkerPc.pastPoll])
          (by simp [WorkerPc.released])
  next hpc =>
    simp only [Option.some.injEq, Prod.mk.injEq] at hw
    obtain ⟨rfl, rfl, rfl⟩ := hw
    exact inv_set_countDown cfg s i w _ h hi hpc rfl
  next hpc =>
    split at hw
    next hd =>
      simp only [Option.some.injEq, Prod.mk.injEq] at hw
      obtain ⟨rfl, rfl, rfl⟩ := hw
      have hd0 : s.done.counter = 0 := by simpa [Latch.try_wait] using hd
      exact inv_set_frame cfg s i w _ h hi (by simp [hpc, WorkerPc.signalled])
        (by simp [hpc, WorkerPc.arrived]) (fun _ => Or.inr hd0)
        (by simp [WorkerPc.released])
    next hd =>
      simp only [Option.some.injEq, Prod.mk.injEq] at hw
      obtain ⟨rfl, rfl, rfl⟩ := hw
      exact inv_set_frame cfg s i w _ h hi (by simp [hpc, WorkerPc.signalled])
        (by simp [hpc, WorkerPc.arrived]) (by simp [WorkerPc.pastPoll])
        (by simp [WorkerPc.released])
  next hpc =>
    simp only [Option.some.injEq, Prod.mk.injEq] at hw
    obtain ⟨rfl, rfl, rfl⟩ := hw
    exact inv_set_frame cfg s i w _ h hi (by simp [hpc, WorkerPc.signalled])
      (by simp [hpc, WorkerPc.arrived]) (by simp [WorkerPc.pastPoll])
      (by simp [WorkerPc.released])
  next hpc =>
    simp only [Option.some.injEq, Prod.mk.injEq] at hw
    obtain ⟨rfl, rfl, rfl⟩ := hw
    exact inv_set_arrive cfg s i w _ h hi hpc rfl
  next hpc =>
    split at hw
    next he =>
      simp only [Option.some.injEq, Prod.mk.injEq] at hw
      obtain ⟨rfl, rfl, rfl⟩ := hw
      have he0 : s.exitlatch.counter = 0 := by simpa [Latch.try_wait] using he
      exact inv_set_frame cfg s i w _ h hi (by simp [hpc, WorkerPc.signalled])
        (by simp [hpc, WorkerPc.arrived]) (by simp [hpc, WorkerPc.pastPoll])
        (fun _ => Or.inr he0)
    next he => simp at hw
  next hpc =>
    simp only [Option.some.injEq, Prod.mk.injEq] at hw
    obtain ⟨rfl, rfl, rfl⟩ := hw
    exact inv_set_frame cfg s i w _ h hi (by simp [hpc, WorkerPc.signalled])
      (by simp [hpc, WorkerPc.arrived]) (by simp [hpc, WorkerPc.pastPoll])
      (by simp [hpc, WorkerPc.released])
  next hpc => simp at hw

theorem inv_step (cfg : Config) (s s' : State) (a : Action)
    (h : Inv cfg s) (hs : step cfg s a = some s') : Inv cfg s' := by
  cases a with
  | main dest => exact inv_mainStep cfg dest s s' h hs
  | worker i =>
    simp only [step] at hs
    split at hs
    next => simp at hs
    next w hi =>
      split at hs
      next => simp at hs
      next w' d e hw =>
        simp only [Option.some.injEq] at hs
        subst hs
        exact inv_workerStep cfg s i w w' d e h hi hw

theorem inv_run (cfg : Config) :
    ∀ (sched : List Action) (s s' : State), Inv cfg s → run cfg s sched = some s' → Inv cfg s'
  | [], s, s', h, hr => by
    simp only [run, Option.some.injEq] at hr
    exact hr ▸ h
  | a :: as, s, s', h, hr => by
    simp only [run] at hr
    split at hr
    next => simp at hr
    next t ht => exact inv_run cfg as t s' (inv_step cfg s t a h ht) hr

theorem inv_reachable (cfg : Config) (s : State) (h : Reachable cfg s) : Inv cfg s := by
  obtain ⟨sched, hs⟩ := h
  exact inv_run cfg sched (init cfg) s (inv_init cfg) hs

/-! ### The two latches in a run (C1, C2, C8) -/

/-- C1: in a run of a timing program with `numclients` workers, every
reachable state in which the exit latch (release barrier) has reached zero
has the done latch (stop barrier) at zero. -/
theorem C1_no_premature_release (cfg : Config) (s : State) (h : Reachable cfg s)
    (hexit : s.exitlatch.try_wait = true) : s.done.try_wait = true := by
  have hinv := inv_reachable cfg s h
  have hA : countPc WorkerPc.arrived s ≤ s.workers.length := List.countP_le_length _
  have he : s.exitlatch.counter = 0 := by simpa [Latch.try_wait] using hexit
  have h3 := hinv.exit_eq
  have h1 := hinv.len
  cases hm : s.mainPc.arrived with
  | true =>
    have hp : s.mainPc.pastPoll = true := by
      cases hpc : s.mainPc <;> simp [hpc, MainPc.arrived, MainPc.pastPoll] at hm ⊢
    simpa [Latch.try_wait] using hinv.m_past hp
  | false =>
    simp only [hm] at h3
    simp at h3
    omega

/-- C1 at the schedule `scheduleToRelease`: the state it reaches has both
latches at zero. -/
theorem C1_no_premature_release_witness :
    run sampleCfg (init sampleCfg) scheduleToRelease
        = some ⟨⟨0⟩, ⟨0⟩, MainPc.waiting, 2, [⟨WorkerPc.waiting, 1, []⟩]⟩
      ∧ (⟨0⟩ : Latch).try_wait = true :=
  ⟨by decide,
   C1_no_premature_release sampleCfg
     ⟨⟨0⟩, ⟨0⟩, MainPc.waiting, 2, [⟨WorkerPc.waiting, 1, []⟩]⟩
     ⟨scheduleToRelease, by decide⟩ (by decide)⟩

theorem allArrived_of_exit_zero (cfg : Config) (s : State) (hinv : Inv cfg s)
    (he : s.exitlatch.counter = 0) : allArrived cfg s := by
  have hA : countPc WorkerPc.arrived s ≤ s.workers.length := List.countP_le_length _
  have h3 := hinv.exit_eq
  have h1 := hinv.len
  have hlen : countPc WorkerPc.arrived s = s.workers.length
      ∧ s.workers.length = cfg.numclients ∧ s.mainPc.arrived = true := by
    cases hm : s.mainPc.arrived with
    | true =>
      rw [hm, he] at h3
      simp only [if_true] at h3
      refine ⟨?_, ?_, rfl⟩ <;> omega
    | false =>
      rw [hm, he] at h3
      simp only [Bool.false_eq_true, if_false] at h3
      omega
  refine ⟨hlen.2.1, ?_, hlen.2.2⟩
  have := List.countP_eq_length.mp hlen.1
  intro w hw
  simpa using this w hw

/-- C2: in a run of a timing program, whenever some participant (a worker or
`main`) is at the close of its own socket or has executed it, the exit latch
is at zero and all `numclients + 1` participants have arrived at it. -/
theorem C2_close_after_release (cfg : Config) (s : State) (h : Reachable cfg s)
    (hc : someClosing cfg s) : s.exitlatch.try_wait = true ∧ allArrived cfg s := by
  have hinv := inv_reachable cfg s h
  have he : s.exitlatch.counter = 0 := by
    rcases hc with ⟨w, hw, hpc⟩ | hm
    · apply hinv.w_rel w hw
      rcases hpc with hpc | hpc <;> simp [hpc, WorkerPc.released]
    · apply hinv.m_rel
      cases hv : cfg.variant <;> cases hpc : s.mainPc <;>
        simp [hv, hpc, MainPc.closing, MainPc.released] at hm ⊢
  exact ⟨by simp [Latch.try_wait, he], allArrived_of_exit_zero cfg s hinv he⟩

/-- C2 at the schedule `scheduleToClose`: the puller has closed its socket,
`main` has closed its own, and the exit latch is at zero. -/
theorem C2_close_after_release_witness :
    run sampleCfg (init sampleCfg) scheduleToClose
        = some ⟨⟨0⟩, ⟨0⟩, MainPc.term, 2, [⟨WorkerPc.closed, 1, []⟩]⟩
      ∧ (⟨0⟩ : Latch).try_wait = true
      ∧ allArrived sampleCfg ⟨⟨0⟩, ⟨0⟩, MainPc.term, 2, [⟨WorkerPc.closed, 1, []⟩]⟩ :=
  ⟨by decide,
   C2_close_after_release sampleCfg
     ⟨⟨0⟩, ⟨0⟩, MainPc.term, 2, [⟨WorkerPc.closed, 1, []⟩]⟩
     ⟨scheduleToClose, by decide⟩ (Or.inr (by decide))⟩

/-- C8 as stated fails: `scheduleToWait` reaches a state in which the puller
has stopped receiving and waits at the exit latch while the exit latch
(release barrier) is still unsatisfied. -/
theorem C8_waits_before_release :
    Reachable sampleCfg ⟨⟨0⟩, ⟨1⟩, MainPc.pollDone, 2, [⟨WorkerPc.waiting, 1, []⟩]⟩
      ∧ (∃ w ∈ (⟨⟨0⟩, ⟨1⟩, MainPc.pollDone, 2, [⟨WorkerPc.waiting, 1, []⟩]⟩ : State).workers,
          w.pc.idleWaiting = true)
      ∧ (⟨⟨0⟩, ⟨1⟩, MainPc.pollDone, 2, [⟨WorkerPc.waiting, 1, []⟩]⟩ : State).exitlatch.try_wait
          = false :=
  ⟨⟨scheduleToWait, by decide⟩, ⟨⟨WorkerPc.waiting, 1, []⟩, by decide, by decide⟩, by decide⟩

/-- C8 amended: the polling stage runs against the done latch (stop
barrier). A worker at the head of its polling loop goes on to a non-blocking
receive exactly when the done latch is unsatisfied and leaves the loop when
it is satisfied, and in every reachable state a worker that has stopped
receiving sees the done latch satisfied. -/
theorem C8_polls_until_stop (cfg : Config) (s : State) (h : Reachable cfg s) :
    (∀ w ∈ s.workers, w.pc = WorkerPc.poll →
        ∃ w', workerStep s.done s.exitlatch w = some (w', s.done, s.exitlatch)
          ∧ w'.pc = (if s.done.try_wait then WorkerPc.arrive else WorkerPc.drain))
      ∧ (∀ w ∈ s.workers, w.pc = WorkerPc.drain →
        ∃ w', workerStep s.done s.exitlatch w = some (w', s.done, s.exitlatch)
          ∧ w'.pc = WorkerPc.poll)
      ∧ (∀ w ∈ s.workers, w.pc.idleWaiting = true → s.done.try_wait = true) := by
  have hinv := inv_reachable cfg s h
  refine ⟨?_, ?_, ?_⟩
  · intro w _ hpc
    cases hd : s.done.try_wait <;> simp [workerStep, hpc, hd]
  · intro w _ hpc
    simp [workerStep, hpc]
  · intro w hw hp
    have : w.pc.pastPoll = true := by
      cases hpc : w.pc <;> simp [hpc, WorkerPc.idleWaiting, WorkerPc.pastPoll] at hp ⊢
    simpa [Latch.try_wait] using hinv.w_past w hw this

/-- C8 amended, at the schedule `scheduleToWait`: the puller that waits at
the exit latch sees the done latch at zero. -/
theorem C8_polls_until_stop_witness :
    Reachable sampleCfg ⟨⟨0⟩, ⟨1⟩, MainPc.pollDone, 2, [⟨WorkerPc.waiting, 1, []⟩]⟩
      ∧ WorkerPc.waiting.idleWaiting = true
      ∧ (⟨0⟩ : Latch).try_wait = true :=
  ⟨⟨scheduleToWait, by decide⟩, by decide,
   (C8_polls_until_stop sampleCfg
      ⟨⟨0⟩, ⟨1⟩, MainPc.pollDone, 2, [⟨WorkerPc.waiting, 1, []⟩]⟩
      ⟨scheduleToWait, by decide⟩).2.2 ⟨WorkerPc.waiting, 1, []⟩ (by decide) (by decide)⟩

/-! ### The latch as a barrier (C3) -/

theorem execAll_latch : ∀ (ops : List LatchOp) (l : Latch),
    (execAll l ops).1 = ⟨l.counter - arrivals ops⟩
  | [], l => by simp [execAll, arrivals]
  | LatchOp.signalArrival :: ops, l => by
    simp only [execAll, LatchOp.exec, execAll_latch ops, Latch.count_down, arrivals,
      List.count_cons_self, Latch.mk.injEq]
    push_cast
    omega
  | LatchOp.isSatisfied :: ops, l => by
    simp [execAll, LatchOp.exec, execAll_latch ops, arrivals]

theorem execAll_append : ∀ (pre post : List LatchOp) (l : Latch),
    execAll l (pre ++ post)
      = ((execAll (execAll l pre).1 post).1, (execAll l pre).2 ++ (execAll (execAll l pre).1 post).2)
  | [], post, l => by simp [execAll]
  | op :: pre, post, l => by
    simp [execAll, execAll_append pre post]

theorem execAll_all_true : ∀ (ops : List LatchOp), arrivals ops = 0 →
    ∀ b ∈ (execAll ⟨0⟩ ops).2, b = true
  | [], _ => by simp [execAll]
  | LatchOp.signalArrival :: ops, h => by simp [arrivals] at h
  | LatchOp.isSatisfied :: ops, h => by
    have h' : arrivals ops = 0 := by simpa [arrivals] using h
    have ih := execAll_all_true ops h'
    intro b hb
    simp only [execAll, LatchOp.exec, Option.toList, List.singleton_append,
      List.mem_cons] at hb
    rcases hb with hb | hb
    · simp [hb, Latch.try_wait]
    · exact ih b hb

theorem execAll_sticky : ∀ (ops : List LatchOp) (k : Nat), arrivals ops ≤ k →
    List.Pairwise (fun a b => a = true → b = true) (execAll ⟨(k : Int)⟩ ops).2
  | [], _, _ => by simp [execAll]
  | LatchOp.signalArrival :: ops, k, h => by
    have hk : arrivals ops + 1 ≤ k := by simpa [arrivals] using h
    obtain ⟨k', rfl⟩ : ∃ k', k = k' + 1 := ⟨k - 1, by omega⟩
    have ih := execAll_sticky ops k' (by omega)
    simpa [execAll, LatchOp.exec, Latch.count_down] using ih
  | LatchOp.isSatisfied :: ops, k, h => by
    have hk : arrivals ops ≤ k := by simpa [arrivals] using h
    have ih := execAll_sticky ops k hk
    simp only [execAll, LatchOp.exec, Option.toList, List.singleton_append,
      List.pairwise_cons]
    refine ⟨?_, ih⟩
    intro b hb htrue
    have hk0 : k = 0 := by simpa [Latch.try_wait] using htrue
    subst hk0
    exact execAll_all_true ops (by omega) b (by simpa using hb)

/-- C3: for a latch of size `K` and a sequence of `count_down` and `try_wait`
operations with at most `K` arrivals, each query answers true exactly when
`K` arrivals precede it, a query leaves the latch as it was, and every answer
that follows a true answer is true. -/
theorem C3_barrier_monotone (K : Nat) (ops : List LatchOp) (hK : arrivals ops ≤ K) :
    (∀ pre post, ops = pre ++ LatchOp.isSatisfied :: post →
        (execAll (Latch.mk0 K) (pre ++ [LatchOp.isSatisfied])).2
            = (execAll (Latch.mk0 K) pre).2 ++ [decide (arrivals pre = K)]
          ∧ (execAll (Latch.mk0 K) (pre ++ [LatchOp.isSatisfied])).1
            = (execAll (Latch.mk0 K) pre).1)
      ∧ List.Pairwise (fun a b => a = true → b = true) (execAll (Latch.mk0 K) ops).2 := by
  refine ⟨?_, execAll_sticky ops K hK⟩
  intro pre post hops
  have hpre : arrivals pre ≤ K := by
    subst hops
    simp only [arrivals, List.count_append] at hK ⊢
    omega
  rw [execAll_append]
  refine ⟨?_, ?_⟩
  · simp only [execAll, LatchOp.exec, Option.toList, List.append_nil, execAll_latch,
      Latch.try_wait, Latch.mk0]
    congr 2
    by_cases h : arrivals pre = K
    · simp [h]
    · have : ¬ ((K : Int) - (arrivals pre : Int) = 0) := by omega
      simp [h, this]
  · simp [execAll, LatchOp.exec]

/-- C3 on a latch of size two, two arrivals and three queries: the answers
are false, false, true. -/
theorem C3_barrier_monotone_witness :
    (execAll (Latch.mk0 2) [LatchOp.isSatisfied, LatchOp.signalArrival, LatchOp.isSatisfied,
        LatchOp.signalArrival, LatchOp.isSatisfied]).2 = [false, false, true]
      ∧ List.Pairwise (fun a b => a = true → b = true)
        (execAll (Latch.mk0 ((2 : Nat) : Int)) [LatchOp.isSatisfied, LatchOp.signalArrival,
          LatchOp.isSatisfied, LatchOp.signalArrival, LatchOp.isSatisfied]).2 :=
  ⟨by decide,
   (C3_barrier_monotone 2 [LatchOp.isSatisfied, LatchOp.signalArrival, LatchOp.isSatisfied,
      LatchOp.signalArrival, LatchOp.isSatisfied] (by decide)).2⟩

/-! ### The done flag of a message (C4) -/

theorem ignore_delivered (flags : Int) (b : Nat) (rest : List Nat) :
    ignore flags (delivered (b :: rest)) = Outcome.ret ((b % 256 : Nat) : Int) := by
  have h : ¬ ((rest.length : Int) + 1 < 0) := by omega
  simp [ignore, delivered, checkError, checkErrorPtr, Outcome.bind, h]

/-- C4: for a buffer of at least one byte and both values of `isEnd`, the
message `main` builds is received by `ignore` as 0 (ordinary) or 255 (done),
and the test of the worker's loop on that value yields `isEnd`. -/
theorem C4_flag_roundtrip (isEnd : Bool) (buf : List Nat) (flags : Int)
    (hsize : 1 ≤ buf.length) :
    ignore flags (delivered (encode isEnd buf))
        = Outcome.ret (if isEnd then 255 else 0)
      ∧ (ignore flags (delivered (encode isEnd buf))).map sawEnd = Outcome.ret isEnd := by
  cases buf with
  | nil => simp at hsize
  | cons b rest =>
    cases isEnd <;>
      simp [encode, ignore_delivered, storeChar, Outcome.map, Outcome.bind, sawEnd]

/-- C4 on a three byte buffer holding a done message. -/
theorem C4_flag_roundtrip_witness :
    ignore 0 (delivered (encode true [7, 8, 9])) = Outcome.ret 255
      ∧ (ignore 0 (delivered (encode true [7, 8, 9]))).map sawEnd = Outcome.ret true :=
  C4_flag_roundtrip true [7, 8, 9] 0 (by decide)

/-! ### The blocking stage of a worker (C5, C6) -/

theorem wrapInt_succ (g : Int) : wrapInt (wrapInt g + 1) = wrapInt (g + 1) := by
  unfold wrapInt
  omega

theorem wrapInt_of_range (g : Int) (h0 : -2147483648 ≤ g) (h1 : g ≤ INT_MAX) :
    wrapInt g = g := by
  unfold wrapInt
  unfold INT_MAX at h1
  omega

theorem wrapInt_le (g : Int) (h0 : -2147483648 ≤ g) :
    wrapInt g ≤ g ∧ -2147483648 ≤ wrapInt g := by
  unfold wrapInt
  omega

theorem recvLoop_cons_ordinary (m : List Nat) (rest : List RecvOutcome) (g : Int)
    (h : isOrdinary m = true) :
    recvLoop (delivered m :: rest) g
      = (recvLoop rest (wrapInt (g + 1))).cons (WEvent.recv 0) := by
  cases m with
  | nil => simp [isOrdinary] at h
  | cons b m =>
    have hb : b % 256 = 0 := by simpa [isOrdinary] using h
    simp only [recvLoop, ignore_delivered, hb, sawEnd]
    rfl

theorem recvLoop_sentinel (m : List Nat) (rest : List RecvOutcome) (g : Int)
    (h : isSentinel m = true) :
    recvLoop (delivered m :: rest) g = ⟨[WEvent.recv 0], g, rest, Status.finished⟩ := by
  cases m with
  | nil => simp [isSentinel] at h
  | cons b m =>
    have hb : ¬ (b % 256 = 0) := by simpa [isSentinel] using h
    have hb' : sawEnd ((b % 256 : Nat) : Int) = true := by
      simp only [sawEnd, bne_iff_ne, ne_eq]
      exact_mod_cast hb
    simp only [recvLoop, ignore_delivered, hb', if_true]

theorem recvLoop_ordinary : ∀ (pre : List (List Nat)) (rest : List RecvOutcome) (g : Int),
    (∀ m ∈ pre, isOrdinary m = true) →
    recvLoop (pre.map delivered ++ rest) (wrapInt g)
      = (recvLoop rest (wrapInt (g + pre.length))).prepend
          (List.replicate pre.length (WEvent.recv 0))
  | [], rest, g, _ => by simp [Run.prepend]
  | m :: pre, rest, g, h => by
    have ih := recvLoop_ordinary pre rest (g + 1) (fun x hx => h x (List.mem_cons_of_mem _ hx))
    have hg : g + 1 + (pre.length : Int) = g + ((pre.length + 1 : Nat) : Int) := by
      push_cast
      ring
    rw [List.map_cons, List.cons_append,
      recvLoop_cons_ordinary m _ _ (h m (List.mem_cons_self _ _)), wrapInt_succ, ih, hg]
    simp [Run.cons, Run.prepend, List.replicate_succ]

theorem recvLoop_to_sentinel (pre : List (List Nat)) (m : List Nat) (rest : List RecvOutcome)
    (hpre : ∀ x ∈ pre, isOrdinary x = true) (hm : isSentinel m = true) :
    recvLoop (pre.map delivered ++ delivered m :: rest) 0
      = ⟨List.replicate (pre.length + 1) (WEvent.recv 0), wrapInt pre.length, rest,
          Status.finished⟩ := by
  have h := recvLoop_ordinary pre (delivered m :: rest) 0 hpre
  have h0 : wrapInt 0 = 0 := by decide
  rw [h0, recvLoop_sentinel m rest _ hm, Int.zero_add] at h
  rw [h]
  simp [Run.prepend, List.replicate_succ']

theorem pollLoop_afterStop : ∀ (polls : List Bool) (recvs : List RecvOutcome) (g : Int),
    ∀ e ∈ (pollLoop polls recvs g).trace, e.afterStop = true
  | [], _, _ => by simp [pollLoop]
  | true :: _, _, _ => by simp [pollLoop, WEvent.afterStop]
  | false :: _, [], _ => by simp [pollLoop, WEvent.afterStop]
  | false :: polls, o :: recvs, g => by
    have ih := pollLoop_afterStop polls recvs g
    simp only [pollLoop]
    split
    · intro e he
      simp only [Run.prepend, List.cons_append, List.nil_append, List.mem_cons] at he
      rcases he with rfl | rfl | he
      · rfl
      · simp [WEvent.afterStop]
      · exact ih e he
    · simp [WEvent.afterStop]
    · simp [WEvent.afterStop]

theorem pollLoop_got : ∀ (polls : List Bool) (recvs : List RecvOutcome) (g : Int),
    (pollLoop polls recvs g).got = g
  | [], _, _ => by simp [pollLoop]
  | true :: _, _, _ => by simp [pollLoop]
  | false :: _, [], _ => by simp [pollLoop]
  | false :: polls, o :: recvs, g => by
    have ih := pollLoop_got polls recvs g
    simp only [pollLoop]
    split <;> simp [Run.prepend, ih]

theorem teardown_afterStop (released : Bool) (cs : Int) (g : Int) (rest : List RecvOutcome) :
    ∀ e ∈ (teardown released cs g rest).trace, e.afterStop = true := by
  unfold teardown
  split
  · split <;> simp [WEvent.afterStop]
  · simp [WEvent.afterStop]

theorem teardown_got (released : Bool) (cs : Int) (g : Int) (rest : List RecvOutcome) :
    (teardown released cs g rest).got = g := by
  unfold teardown
  split
  · split <;> rfl
  · rfl

theorem subscriber_shape (recvs : List RecvOutcome) (polls : List Bool) (released : Bool)
    (cs : Int) :
    (subscriber recvs polls released cs).got = (recvLoop recvs 0).got
      ∧ ∃ tail, (∀ e ∈ tail, e.afterStop = true)
        ∧ (subscriber recvs polls released cs).trace
          = (recvLoop recvs 0).trace
            ++ (if (recvLoop recvs 0).status = Status.finished
                then WEvent.countDown Barrier.stop :: tail else []) := by
  cases h1 : (recvLoop recvs 0).status
  case finished =>
    simp only [if_true]
    cases h2 : (pollLoop polls (recvLoop recvs 0).rest (recvLoop recvs 0).got).status
    case finished =>
      refine ⟨by simp [subscriber, h1, h2, Run.prepend, teardown_got, pollLoop_got],
        (pollLoop polls (recvLoop recvs 0).rest (recvLoop recvs 0).got).trace
          ++ (teardown released cs
              (pollLoop polls (recvLoop recvs 0).rest (recvLoop recvs 0).got).got
              (pollLoop polls (recvLoop recvs 0).rest (recvLoop recvs 0).got).rest).trace,
        ?_, ?_⟩
      · intro e he
        rcases List.mem_append.mp he with he | he
        · exact pollLoop_afterStop _ _ _ e he
        · exact teardown_afterStop _ _ _ _ e he
      · simp [subscriber, h1, h2, Run.prepend]
    all_goals
      refine ⟨by simp [subscriber, h1, h2, Run.prepend, pollLoop_got],
        (pollLoop polls (recvLoop recvs 0).rest (recvLoop recvs 0).got).trace,
        pollLoop_afterStop polls _ _, ?_⟩
      simp [subscriber, h1, h2, Run.prepend]
  all_goals
    refine ⟨by simp [subscriber, h1], [], by simp, by simp [subscriber, h1]⟩

theorem count_countDown_afterStop : ∀ (tail : List WEvent),
    (∀ e ∈ tail, e.afterStop = true) → tail.count (WEvent.countDown Barrier.stop) = 0 := by
  intro tail h
  rw [List.count_eq_zero]
  intro hmem
  have := h _ hmem
  simp [WEvent.afterStop] at this

theorem blocking_stage_split (pre : List (List Nat)) (m : List Nat) (later : List RecvOutcome)
    (polls : List Bool) (released : Bool) (cs : Int)
    (hpre : ∀ x ∈ pre, isOrdinary x = true) (hm : isSentinel m = true) :
    recvLoop (pre.map delivered ++ delivered m :: later) 0
        = ⟨List.replicate (pre.length + 1) (WEvent.recv 0), wrapInt pre.length, later,
            Status.finished⟩
      ∧ (subscriber (pre.map delivered ++ delivered m :: later) polls released cs).got
          = wrapInt pre.length
      ∧ (subscriber (pre.map delivered ++ delivered m :: later) polls released cs).trace.count
          (WEvent.countDown Barrier.stop) = 1
      ∧ (subscriber (pre.map delivered ++ delivered m :: later) polls released cs).trace.take
          (pre.length + 2)
          = List.replicate (pre.length + 1) (WEvent.recv 0) ++ [WEvent.countDown Barrier.stop] := by
  have hloop := recvLoop_to_sentinel pre m later hpre hm
  obtain ⟨hgot, tail, htail, htrace⟩ :=
    subscriber_shape (pre.map delivered ++ delivered m :: later) polls released cs
  rw [hloop] at hgot htrace
  simp only [if_true] at htrace
  refine ⟨hloop, hgot, ?_, ?_⟩
  · rw [htrace, List.count_append, List.count_cons_self, count_countDown_afterStop tail htail,
      List.count_replicate]
    simp
  · rw [htrace]
    have hlen : (List.replicate (pre.length + 1) (WEvent.recv 0)).length = pre.length + 1 := by
      simp
    rw [List.take_append_eq_append_take, hlen]
    simp

theorem first_sentinel_split : ∀ (msgs : List (List Nat)), (∀ m ∈ msgs, m ≠ []) →
    (∃ m ∈ msgs, isSentinel m = true) →
    ∃ m post, msgs = msgs.takeWhile isOrdinary ++ m :: post ∧ isSentinel m = true
  | [], _, h => by simp at h
  | [] :: _, hne, _ => absurd rfl (hne [] (List.mem_cons_self _ _))
  | (b :: x) :: msgs, hne, h => by
    by_cases hb : b % 256 = 0
    · have hs : ∃ m ∈ msgs, isSentinel m = true := by
        obtain ⟨m, hm, hsm⟩ := h
        rcases List.mem_cons.mp hm with rfl | hm
        · simp [isSentinel, hb] at hsm
        · exact ⟨m, hm, hsm⟩
      obtain ⟨m, post, hsplit, hm⟩ :=
        first_sentinel_split msgs (fun y hy => hne y (List.mem_cons_of_mem _ hy)) hs
      refine ⟨m, post, ?_, hm⟩
      have ho : isOrdinary (b :: x) = true := by simp [isOrdinary, hb]
      rw [List.takeWhile_cons, if_pos ho, List.cons_append, ← hsplit]
    · refine ⟨b :: x, msgs, ?_, by simp [isSentinel, hb]⟩
      have ho : ¬ (isOrdinary (b :: x) = true) := by simp [isOrdinary, hb]
      rw [List.takeWhile_cons, if_neg ho, List.nil_append]

/-- C5: for every sequence `msgs` of non-empty single-part messages delivered
to a subscriber that holds a message with a non-zero first byte, with `k` the
number of messages before the first such one: the blocking stage ends after
`k + 1` receives, leaving the messages after the first `k + 1`; `got` is the
32 bit value of `k`, which is `k` when `k` fits an `int`; and the subscriber
counts down the done latch exactly once, right after these receives. -/
theorem C5_blocking_stage (msgs : List (List Nat)) (later : List RecvOutcome)
    (polls : List Bool) (released : Bool) (cs : Int)
    (hne : ∀ m ∈ msgs, m ≠ []) (hs : ∃ m ∈ msgs, isSentinel m = true) :
    recvLoop (msgs.map delivered ++ later) 0
        = ⟨List.replicate ((msgs.takeWhile isOrdinary).length + 1) (WEvent.recv 0),
            wrapInt (msgs.takeWhile isOrdinary).length,
            (msgs.drop ((msgs.takeWhile isOrdinary).length + 1)).map delivered ++ later,
            Status.finished⟩
      ∧ (((msgs.takeWhile isOrdinary).length : Int) ≤ INT_MAX →
          (subscriber (msgs.map delivered ++ later) polls released cs).got
            = (msgs.takeWhile isOrdinary).length)
      ∧ (subscriber (msgs.map delivered ++ later) polls released cs).trace.count
          (WEvent.countDown Barrier.stop) = 1
      ∧ (subscriber (msgs.map delivered ++ later) polls released cs).trace.take
          ((msgs.takeWhile isOrdinary).length + 2)
          = List.replicate ((msgs.takeWhile isOrdinary).length + 1) (WEvent.recv 0)
            ++ [WEvent.countDown Barrier.stop] := by
  obtain ⟨m, post, hsplit, hm⟩ := first_sentinel_split msgs hne hs
  have hpre : ∀ x ∈ msgs.takeWhile isOrdinary, isOrdinary x = true :=
    fun x hx => List.mem_takeWhile_imp hx
  generalize msgs.takeWhile isOrdinary = pre at hsplit hpre ⊢
  subst hsplit
  have hdrop : List.drop (pre.length + 1) (pre ++ m :: post) = post := by
    rw [List.drop_append_eq_append_drop]
    simp
  have hrecvs : (pre ++ m :: post).map delivered ++ later
      = pre.map delivered ++ delivered m :: (post.map delivered ++ later) := by
    simp
  rw [hdrop, hrecvs]
  obtain ⟨h1, h2, h3, h4⟩ :=
    blocking_stage_split pre m (post.map delivered ++ later) polls released cs hpre hm
  refine ⟨h1, ?_, h3, h4⟩
  intro hk
  rw [h2]
  exact wrapInt_of_range _ (by omega) hk

/-- C5 on an ordinary message followed by a done message and a further
message: two receives, `got` is one, one message is left. -/
theorem C5_blocking_stage_witness :
    recvLoop (List.map delivered [[0, 1], [255, 1], [0, 1]] ++ [nothingAvailable]) 0
        = ⟨[WEvent.recv 0, WEvent.recv 0], 1, [delivered [0, 1], nothingAvailable],
            Status.finished⟩ := by
  have h := (C5_blocking_stage [[0, 1], [255, 1], [0, 1]] [nothingAvailable] [true] true 0
    (by decide) ⟨[255, 1], by decide, by decide⟩).1
  simpa [isOrdinary, wrapInt] using h

/-- The zero-iteration case of C5: a done message received first ends the
blocking stage after one receive with `got` zero, and the latch is counted
down next. -/
theorem C5_sentinel_first :
    (subscriber [delivered [255, 1]] [true] true 0).trace
        = [WEvent.recv 0, WEvent.countDown Barrier.stop, WEvent.tryWait Barrier.stop true,
            WEvent.arriveAndWait Barrier.release, WEvent.close]
      ∧ (subscriber [delivered [255, 1]] [true] true 0).got = 0 := by
  decide

theorem recvLoop_got_le : ∀ (msgs : List (List Nat)) (g : Int), -2147483648 ≤ g →
    (recvLoop (msgs.map delivered) g).got ≤ g + (msgs.countP isOrdinary : Nat)
  | [], g, _ => by simp [recvLoop]
  | [] :: msgs, g, _ => by
    have : (0 : Int) ≤ (List.countP isOrdinary msgs : Nat) := Int.natCast_nonneg _
    simp only [List.map_cons, recvLoop, ignore, delivered, checkError, checkErrorPtr,
      Outcome.bind, List.countP_cons, isOrdinary]
    simp
  | (b :: x) :: msgs, g, hg => by
    by_cases hb : b % 256 = 0
    · have ho : isOrdinary (b :: x) = true := by simp [isOrdinary, hb]
      have hw := wrapInt_le (g + 1) (by omega)
      have ih := recvLoop_got_le msgs (wrapInt (g + 1)) hw.2
      have hc : List.countP isOrdinary ((b :: x) :: msgs)
          = List.countP isOrdinary msgs + 1 := by
        simp [List.countP_cons, ho]
      rw [List.map_cons, recvLoop_cons_ordinary _ _ _ ho, hc]
      simp only [Run.cons]
      push_cast
      omega
    · have hs : isSentinel (b :: x) = true := by simp [isSentinel, hb]
      have : (0 : Int) ≤ (List.countP isOrdinary ((b :: x) :: msgs) : Nat) :=
        Int.natCast_nonneg _
      rw [List.map_cons, recvLoop_sentinel _ _ _ hs]
      simp only
      omega

/-- C6: when the messages a subscriber receives are a subsequence of the
messages sent (any loss, order kept), the `got` its blocking stage computes is
at most the number of sent messages with first byte zero; this holds whether
or not a done message is among those received. -/
theorem C6_got_le_sent (sent rcvd : List (List Nat)) (polls : List Bool) (released : Bool)
    (cs : Int) (hsub : rcvd.Sublist sent) :
    (recvLoop (rcvd.map delivered) 0).got ≤ (sent.countP isOrdinary : Nat)
      ∧ (subscriber (rcvd.map delivered) polls released cs).got
          ≤ (sent.countP isOrdinary : Nat) := by
  have h := recvLoop_got_le rcvd 0 (by omega)
  have hle : rcvd.countP isOrdinary ≤ sent.countP isOrdinary := hsub.countP_le _
  have hgot := (subscriber_shape (rcvd.map delivered) polls released cs).1
  refine ⟨?_, ?_⟩
  · omega
  · rw [hgot]
    omega

/-- C6 on three ordinary messages and a done message sent, of which the
second ordinary message is lost. -/
theorem C6_got_le_sent_witness :
    (subscriber (List.map delivered [[0], [0], [255]]) [true] true 0).got
      ≤ (List.countP isOrdinary [[0], [0], [0], [255]] : Nat) :=
  (C6_got_le_sent [[0], [0], [0], [255]] [[0], [0], [255]] [true] true 0
    (by decide)).2

/-! ### No blocking receive after the stop arrival (C7) -/

theorem dontWait_true : ∀ (t : List WEvent), dontWaitAfterStop true t = true →
    ∀ flags, WEvent.recv flags ∈ t → flags = ZMQ_DONTWAIT
  | [], _, _, hm => by simp at hm
  | e :: t, h, flags, hm => by
    cases e with
    | recv f =>
      simp only [dontWaitAfterStop, Bool.not_true, Bool.false_or, Bool.and_eq_true,
        beq_iff_eq] at h
      rcases List.mem_cons.mp hm with heq | hm
      · cases heq
        exact h.1
      · exact dontWait_true t h.2 flags hm
    | countDown b | tryWait b r | arriveAndWait b | close =>
      simp only [dontWaitAfterStop, Bool.true_or] at h
      rcases List.mem_cons.mp hm with heq | hm
      · cases heq
      · exact dontWait_true t h flags hm

theorem dontWait_sound : ∀ (pre : List WEvent) (seen : Bool) (t post : List WEvent)
    (e : WEvent) (flags : Int), dontWaitAfterStop seen t = true → t = pre ++ e :: post →
    e.isStopArrival = true → WEvent.recv flags ∈ post → flags = ZMQ_DONTWAIT
  | [], seen, t, post, e, flags, h, ht, he, hm => by
    subst ht
    cases e with
    | recv f => simp [WEvent.isStopArrival] at he
    | countDown b | tryWait b r | arriveAndWait b | close =>
      simp only [List.nil_append, dontWaitAfterStop, he, Bool.or_true] at h
      exact dontWait_true post h flags hm
  | x :: pre, seen, t, post, e, flags, h, ht, he, hm => by
    subst ht
    cases x with
    | recv f =>
      simp only [List.cons_append, dontWaitAfterStop, Bool.and_eq_true] at h
      exact dontWait_sound pre seen _ post e flags h.2 rfl he hm
    | countDown b | tryWait b r | arriveAndWait b | close =>
      simp only [List.cons_append, dontWaitAfterStop] at h
      exact dontWait_sound pre _ _ post e flags h rfl he hm

theorem dontWait_tail : ∀ (tail : List WEvent), (∀ e ∈ tail, e.afterStop = true) →
    dontWaitAfterStop true tail = true
  | [], _ => rfl
  | e :: tail, h => by
    have ih := dontWait_tail tail (fun x hx => h x (List.mem_cons_of_mem _ hx))
    have he := h e (List.mem_cons_self _ _)
    cases e with
    | recv f =>
      simp only [WEvent.afterStop] at he
      simp [dontWaitAfterStop, he, ih]
    | countDown b | tryWait b r | arriveAndWait b | close =>
      simp [dontWaitAfterStop, ih]

theorem dontWait_shape : ∀ (A : List WEvent) (c : WEvent) (tail : List WEvent) (b : Bool),
    (∀ e ∈ A, e = WEvent.recv 0) → c.isStopArrival = true →
    (∀ e ∈ tail, e.afterStop = true) →
    dontWaitAfterStop false (A ++ (if b = true then c :: tail else [])) = true
  | [], c, tail, b, _, hc, ht => by
    cases b
    · simp [dontWaitAfterStop]
    · cases c with
      | recv f => simp [WEvent.isStopArrival] at hc
      | countDown b | tryWait b r | arriveAndWait b | close =>
        simp [dontWaitAfterStop, hc, dontWait_tail tail ht]
  | a :: A, c, tail, b, hA, hc, ht => by
    have ha := hA a (List.mem_cons_self _ _)
    subst ha
    have ih := dontWait_shape A c tail b (fun x hx => hA x (List.mem_cons_of_mem _ hx)) hc ht
    simpa [dontWaitAfterStop] using ih

theorem recvLoop_trace : ∀ (recvs : List RecvOutcome) (g : Int),
    ∀ e ∈ (recvLoop recvs g).trace, e = WEvent.recv 0
  | [], g => by simp [recvLoop]
  | o :: recvs, g => by
    have ih := recvLoop_trace recvs (wrapInt (g + 1))
    simp only [recvLoop]
    split
    · split
      · simp
      · intro e he
        simp only [Run.cons, List.mem_cons] at he
        rcases he with rfl | he
        · rfl
        · exact ih e he
    · simp
    · simp

theorem demoRecvLoop_trace : ∀ (recvs : List RecvOutcome),
    ∀ e ∈ (demoRecvLoop recvs).trace, e = WEvent.recv 0
  | [] => by simp [demoRecvLoop]
  | o :: recvs => by
    have ih := demoRecvLoop_trace recvs
    simp only [demoRecvLoop]
    split
    · split
      · simp
      · intro e he
        simp only [Run.cons, List.mem_cons] at he
        rcases he with rfl | he
        · rfl
        · exact ih e he
    · simp
    · simp

theorem demoPuller_shape (recvs : List RecvOutcome) (stopped released : Bool) (cs : Int) :
    ∃ tail, (∀ e ∈ tail, e.afterStop = true)
      ∧ (demoPuller recvs stopped released cs).trace
        = (demoRecvLoop recvs).trace
          ++ (if decide ((demoRecvLoop recvs).status = Status.finished) = true
              then WEvent.arriveAndWait Barrier.stop :: tail else []) := by
  cases h1 : (demoRecvLoop recvs).status
  case finished =>
    cases stopped
    · exact ⟨[], by simp, by simp [demoPuller, h1]⟩
    · exact ⟨(teardown released cs 0 (demoRecvLoop recvs).rest).trace,
        teardown_afterStop _ _ _ _, by simp [demoPuller, h1, Run.prepend]⟩
  all_goals
    exact ⟨[], by simp, by simp [demoPuller, h1]⟩

/-- C7: in every run of `subscriber` and `puller` of the timing programs and
of `puller` of `push.cpp`, whatever the environment answers, each receive
issued after the worker's arrival at the stop barrier carries
`ZMQ_DONTWAIT`; no blocking receive follows the arrival. -/
theorem C7_no_blocking_recv_after_stop (recvs : List RecvOutcome) (polls : List Bool)
    (stopped released : Bool) (cs : Int) :
    NoBlockingRecvAfterStop (subscriber recvs polls released cs).trace
      ∧ NoBlockingRecvAfterStop (puller recvs polls released cs).1
      ∧ NoBlockingRecvAfterStop (demoPuller recvs stopped released cs).trace := by
  have hsub : NoBlockingRecvAfterStop (subscriber recvs polls released cs).trace := by
    obtain ⟨_, tail, htail, htrace⟩ := subscriber_shape recvs polls released cs
    intro pre post e flags ht he hm
    have hchk := dontWait_shape (recvLoop recvs 0).trace (WEvent.countDown Barrier.stop) tail
      (decide ((recvLoop recvs 0).status = Status.finished)) (recvLoop_trace recvs 0) rfl htail
    simp only [decide_eq_true_eq] at hchk
    rw [← htrace] at hchk
    exact dontWait_sound pre false _ post e flags hchk ht he hm
  refine ⟨hsub, hsub, ?_⟩
  obtain ⟨tail, htail, htrace⟩ := demoPuller_shape recvs stopped released cs
  intro pre post e flags ht he hm
  have hchk := dontWait_shape (demoRecvLoop recvs).trace (WEvent.arriveAndWait Barrier.stop)
    tail (decide ((demoRecvLoop recvs).status = Status.finished)) (demoRecvLoop_trace recvs)
    rfl htail
  rw [← htrace] at hchk
  exact dontWait_sound pre false _ post e flags hchk ht he hm

/-- C7 on a run of `subscriber` with two receives after the count down:
both are issued with `ZMQ_DONTWAIT`. -/
theorem C7_no_blocking_recv_after_stop_witness :
    (subscriber [delivered [255], delivered [255], nothingAvailable] [false, false, true]
        true 0).trace
        = [WEvent.recv 0, WEvent.countDown Barrier.stop,
            WEvent.tryWait Barrier.stop false, WEvent.recv 1,
            WEvent.tryWait Barrier.stop false, WEvent.recv 1,
            WEvent.tryWait Barrier.stop true,
            WEvent.arriveAndWait Barrier.release, WEvent.close]
      ∧ (1 : Int) = ZMQ_DONTWAIT :=
  ⟨by decide,
   (C7_no_blocking_recv_after_stop [delivered [255], delivered [255], nothingAvailable]
      [false, false, true] true true 0).1
     [WEvent.recv 0]
     [WEvent.tryWait Barrier.stop false, WEvent.recv 1,
       WEvent.tryWait Barrier.stop false, WEvent.recv 1,
       WEvent.tryWait Barrier.stop true,
       WEvent.arriveAndWait Barrier.release, WEvent.close]
     (WEvent.countDown Barrier.stop) 1 (by decide) rfl (by decide)⟩

/-! ### The coordinator's loops (C9, C10) -/

theorem signalLoop_trace : ∀ (polls : List Bool) (sent : Int),
    (signalLoop polls sent).1
        = signalRounds (unsatisfiedPolls polls)
          ++ (if unsatisfiedPolls polls < polls.length then [MEvent.tryWait true] else [])
      ∧ (signalLoop polls sent).2.2 = decide (unsatisfiedPolls polls < polls.length)
  | [], sent => by simp [signalLoop, unsatisfiedPolls, signalRounds]
  | true :: polls, sent => by simp [signalLoop, unsatisfiedPolls, signalRounds]
  | false :: polls, sent => by
    have ih := signalLoop_trace polls (wrapInt (sent + 1))
    simp only [unsatisfiedPolls] at ih
    simp [signalLoop, unsatisfiedPolls, signalRounds, List.takeWhile_cons, ih.1, ih.2]

theorem signalLoop_sent : ∀ (polls : List Bool) (sent : Int), -2147483648 ≤ sent →
    sent + (unsatisfiedPolls polls : Nat) ≤ INT_MAX →
    (signalLoop polls sent).2.1 = sent + (unsatisfiedPolls polls : Nat)
  | [], sent, _, _ => by simp [signalLoop, unsatisfiedPolls]
  | true :: polls, sent, _, _ => by simp [signalLoop, unsatisfiedPolls]
  | false :: polls, sent, h0, h1 => by
    have hk : unsatisfiedPolls (false :: polls) = unsatisfiedPolls polls + 1 := by
      simp [unsatisfiedPolls, List.takeWhile_cons]
    rw [hk] at h1 ⊢
    push_cast at h1 ⊢
    have hw : wrapInt (sent + 1) = sent + 1 :=
      wrapInt_of_range _ (by omega) (by unfold INT_MAX at h1 ⊢; omega)
    have ih := signalLoop_sent polls (sent + 1) (by omega) (by omega)
    simp only [signalLoop, hw, ih]
    ring

theorem signalRounds_counts : ∀ (k : Nat),
    (signalRounds k).count (MEvent.send doneByte) = k
      ∧ (signalRounds k).count (MEvent.tryWait false) = k
      ∧ (signalRounds k).count (MEvent.tryWait true) = 0
      ∧ sends (signalRounds k) = List.replicate k doneByte
  | 0 => by simp [signalRounds, sends]
  | k + 1 => by
    obtain ⟨h1, h2, h3, h4⟩ := signalRounds_counts k
    refine ⟨?_, ?_, ?_, ?_⟩
    · simp [signalRounds, List.count_cons, h1]
    · simp [signalRounds, List.count_cons, h2]
    · simp [signalRounds, List.count_cons, h3]
    · simp [signalRounds, sends, h4, List.replicate_succ]

theorem signalRounds_before_send : ∀ (k : Nat) (pre post : List MEvent) (b : Nat),
    signalRounds k = pre ++ MEvent.send b :: post →
    ∃ pre', pre = pre' ++ [MEvent.tryWait false]
  | 0, pre, post, b, h => by simp [signalRounds] at h
  | k + 1, [], post, b, h => by simp [signalRounds] at h
  | k + 1, [e], post, b, h => by
    simp only [signalRounds, List.cons_append, List.nil_append, List.cons.injEq] at h
    exact ⟨[], by simp [h.1]⟩
  | k + 1, e1 :: e2 :: pre, post, b, h => by
    simp only [signalRounds, List.cons_append, List.cons.injEq] at h
    obtain ⟨pre', hpre⟩ := signalRounds_before_send k pre post b h.2.2
    exact ⟨e1 :: e2 :: pre', by simp [hpre]⟩

theorem sends_append : ∀ (a b : List MEvent), sends (a ++ b) = sends a ++ sends b
  | [], b => rfl
  | e :: a, b => by
    cases e <;> simp [sends, sends_append a b]

theorem sends_replicate_of_not_send (e : MEvent) (h : sends [e] = []) :
    ∀ (n : Nat), sends (List.replicate n e) = []
  | 0 => rfl
  | n + 1 => by
    have ih := sends_replicate_of_not_send e h n
    rw [List.replicate_succ, ← List.singleton_append, sends_append, h, ih]
    rfl

theorem sends_afterSignal (v : Variant) (numclients : Nat) (sent : Int) :
    sends (afterSignal v numclients sent) = [] := by
  cases v <;>
    simp [afterSignal, sends_append, sends, sends_replicate_of_not_send MEvent.join rfl]

theorem split_at_satisfied (X tail pre post : List MEvent) (b : Bool)
    (hX : MEvent.tryWait true ∉ X) (ht : MEvent.tryWait true ∉ tail)
    (h : X ++ (if b = true then MEvent.tryWait true :: tail else [])
      = pre ++ MEvent.tryWait true :: post) : post = tail := by
  cases b
  · exfalso
    simp only [Bool.false_eq_true, if_false, List.append_nil] at h
    exact hX (h ▸ List.mem_append_right _ (List.mem_cons_self _ _))
  · simp only [if_true] at h
    exact ((List.append_cons_inj_of_not_mem hX ht).mp h).2.2.symm

theorem pushDataLoop_shape : ∀ (fuel : Nat) (n s : Int) (data : List MEvent) (s' : Int),
    pushDataLoop fuel n s = some (data, s') →
    ∃ d, data = List.replicate d (MEvent.send ordinaryByte)
  | 0, n, s, data, s', h => by
    simp only [pushDataLoop] at h
    split at h
    · simp at h
    · simp only [Option.some.injEq, Prod.mk.injEq] at h
      exact ⟨0, by simp [← h.1]⟩
  | fuel + 1, n, s, data, s', h => by
    simp only [pushDataLoop] at h
    split at h
    · cases hr : pushDataLoop fuel n (wrapInt (s + 1)) with
      | none => simp [hr] at h
      | some r =>
        obtain ⟨d, hd⟩ := pushDataLoop_shape fuel n _ r.1 r.2 hr
        simp only [hr, Option.map_some', Option.some.injEq, Prod.mk.injEq] at h
        exact ⟨d + 1, by rw [← h.1, hd, List.replicate_succ]⟩
    · simp only [Option.some.injEq, Prod.mk.injEq] at h
      exact ⟨0, by simp [← h.1]⟩

theorem pubsubDataLoop_shape : ∀ (fuel : Nat) (n i s : Int) (data : List MEvent) (s' : Int),
    pubsubDataLoop fuel n i s = some (data, s') →
    ∃ d, data = List.replicate d (MEvent.send ordinaryByte)
  | 0, n, i, s, data, s', h => by
    simp only [pubsubDataLoop] at h
    split at h
    · simp at h
    · simp only [Option.some.injEq, Prod.mk.injEq] at h
      exact ⟨0, by simp [← h.1]⟩
  | fuel + 1, n, i, s, data, s', h => by
    simp only [pubsubDataLoop] at h
    split at h
    · cases hr : pubsubDataLoop fuel n (wrapInt (i + 1)) (wrapInt (s + 1)) with
      | none => simp [hr] at h
      | some r =>
        obtain ⟨d, hd⟩ := pubsubDataLoop_shape fuel n _ _ r.1 r.2 hr
        simp only [hr, Option.map_some', Option.some.injEq, Prod.mk.injEq] at h
        exact ⟨d + 1, by rw [← h.1, hd, List.replicate_succ]⟩
    · simp only [Option.some.injEq, Prod.mk.injEq] at h
      exact ⟨0, by simp [← h.1]⟩

theorem main_trace_of_loops (v : Variant) (numclients : Nat) (polls : List Bool)
    (released : Bool) (data : List MEvent) (sent : Int) (r : MainRun)
    (hr : (if (signalLoop polls sent).2.2 = true then
        if released = true then
          some (⟨List.replicate numclients MEvent.spawn ++ MEvent.start :: data
              ++ (signalLoop polls sent).1 ++ afterSignal v numclients (signalLoop polls sent).2.1,
            (signalLoop polls sent).2.1, Status.finished⟩ : MainRun)
        else some ⟨List.replicate numclients MEvent.spawn ++ MEvent.start :: data
              ++ (signalLoop polls sent).1 ++ [MEvent.stop, MEvent.arriveAndWait],
            (signalLoop polls sent).2.1, Status.pending⟩
      else some ⟨List.replicate numclients MEvent.spawn ++ MEvent.start :: data
              ++ (signalLoop polls sent).1, (signalLoop polls sent).2.1, Status.pending⟩)
        = some r) :
    r.sent = (signalLoop polls sent).2.1
      ∧ ∃ tail, sends tail = [] ∧ MEvent.tryWait true ∉ tail
        ∧ (released = true → tail = afterSignal v numclients r.sent)
        ∧ r.trace = (List.replicate numclients MEvent.spawn ++ MEvent.start :: data
              ++ signalRounds (unsatisfiedPolls polls))
            ++ (if decide (unsatisfiedPolls polls < polls.length) = true
                then MEvent.tryWait true :: tail else []) := by
  obtain ⟨htrace, hexit⟩ := signalLoop_trace polls sent
  have hafter : MEvent.tryWait true ∉ afterSignal v numclients (signalLoop polls sent).2.1 := by
    cases v <;> simp [afterSignal]
  by_cases hk : unsatisfiedPolls polls < polls.length
  · simp only [hexit, hk, decide_True, if_true] at hr htrace ⊢
    cases released
    · simp only [Bool.false_eq_true, if_false, Option.some.injEq] at hr
      subst hr
      exact ⟨rfl, [MEvent.stop, MEvent.arriveAndWait], rfl, by simp, by simp,
        by simp [htrace]⟩
    · simp only [if_true, Option.some.injEq] at hr
      subst hr
      exact ⟨rfl, _, sends_afterSignal v numclients _, hafter, fun _ => rfl,
        by simp [htrace]⟩
  · simp only [hexit, hk, decide_False, Bool.false_eq_true, if_false,
      Option.some.injEq] at hr htrace ⊢
    subst hr
    exact ⟨rfl, afterSignal v numclients (signalLoop polls sent).2.1,
      sends_afterSignal v numclients _, hafter, fun _ => rfl, by simp [htrace]⟩

theorem timedMain_shape (v : Variant) (fuel : Nat) (nummsgs : Int) (numclients : Nat)
    (polls : List Bool) (released : Bool) (r : MainRun)
    (h : timedMain v fuel nummsgs numclients polls released = some r) :
    ∃ d tail, sends tail = [] ∧ MEvent.tryWait true ∉ tail
      ∧ r.trace = (List.replicate numclients MEvent.spawn ++ MEvent.start
              :: List.replicate d (MEvent.send ordinaryByte)
              ++ signalRounds (unsatisfiedPolls polls))
          ++ (if decide (unsatisfiedPolls polls < polls.length) = true
              then MEvent.tryWait true :: tail else []) := by
  cases v
  · simp only [timedMain, pushMain] at h
    split at h
    · simp at h
    · rename_i data sent hdata
      obtain ⟨d, rfl⟩ := pushDataLoop_shape _ _ _ _ _ hdata
      obtain ⟨_, tail, h1, h2, _, h4⟩ :=
        main_trace_of_loops Variant.push numclients polls released _ sent r
          (by simpa [afterSignal] using h)
      exact ⟨d, tail, h1, h2, h4⟩
  · simp only [timedMain, pubsubMain] at h
    split at h
    · simp at h
    · rename_i data sent hdata
      obtain ⟨d, rfl⟩ := pubsubDataLoop_shape _ _ _ _ _ _ hdata
      obtain ⟨_, tail, h1, h2, _, h4⟩ :=
        main_trace_of_loops Variant.pubsub numclients polls released _ sent r
          (by simpa [afterSignal] using h)
      exact ⟨d, tail, h1, h2, h4⟩

/-- C9: the calls of the signalling loop are rounds of one poll answered
"not satisfied" followed by one done message, closed by the first poll
answered "satisfied" when there is one. So every done message comes right
after a poll that answered false, the number of done messages equals the
number of polls answered false, at most one poll answers true and it is the
last call of the loop, and `main` of either program sends nothing after
it. -/
theorem C9_signalling_loop (polls : List Bool) (sent : Int) :
    (signalLoop polls sent).1
        = signalRounds (unsatisfiedPolls polls)
          ++ (if unsatisfiedPolls polls < polls.length then [MEvent.tryWait true] else [])
      ∧ (signalLoop polls sent).2.2 = decide (unsatisfiedPolls polls < polls.length)
      ∧ (∀ pre post b, (signalLoop polls sent).1 = pre ++ MEvent.send b :: post →
          ∃ pre', pre = pre' ++ [MEvent.tryWait false])
      ∧ (signalLoop polls sent).1.count (MEvent.send doneByte)
          = (signalLoop polls sent).1.count (MEvent.tryWait false)
      ∧ (∀ pre post, (signalLoop polls sent).1 = pre ++ MEvent.tryWait true :: post →
          post = [])
      ∧ (∀ v fuel nummsgs numclients released r pre post,
          timedMain v fuel nummsgs numclients polls released = some r →
          r.trace = pre ++ MEvent.tryWait true :: post → sends post = []) := by
  obtain ⟨htrace, hexit⟩ := signalLoop_trace polls sent
  obtain ⟨hc1, hc2, hc3, _⟩ := signalRounds_counts (unsatisfiedPolls polls)
  have hlast : ∀ (t : List MEvent) (pre post : List MEvent),
      signalRounds (unsatisfiedPolls polls)
          ++ (if unsatisfiedPolls polls < polls.length then [MEvent.tryWait true] else []) ++ t
        = pre ++ MEvent.tryWait true :: post →
      MEvent.tryWait true ∉ t → post = t := by
    intro t pre post h ht
    by_cases hk : unsatisfiedPolls polls < polls.length
    · simp only [hk, if_true, List.append_assoc, List.singleton_append] at h
      have hnot : MEvent.tryWait true ∉ signalRounds (unsatisfiedPolls polls) :=
        List.count_eq_zero.mp hc3
      exact ((List.append_cons_inj_of_not_mem hnot ht).mp h).2.2.symm
    · exfalso
      simp only [hk, if_false, List.append_nil] at h
      have h1 : (pre ++ MEvent.tryWait true :: post).count (MEvent.tryWait true) ≥ 1 := by
        simp only [List.count_append, List.count_cons_self]
        omega
      rw [← h] at h1
      simp only [List.count_append, hc3, List.count_eq_zero.mpr ht] at h1
      omega
  refine ⟨htrace, hexit, ?_, ?_, ?_, ?_⟩
  · intro pre post b h
    rw [htrace] at h
    by_cases hk : unsatisfiedPolls polls < polls.length
    · simp only [hk, if_true] at h
      rcases List.append_eq_append_iff.mp h with ⟨a', h1, h2⟩ | ⟨c', h1, h2⟩
      · rcases a' with _ | ⟨x, a'⟩
        · simp at h2
        · simp only [List.cons_append, List.cons.injEq] at h2
          obtain ⟨rfl, h2⟩ := h2
          simp at h2
      · rcases c' with _ | ⟨x, c'⟩
        · simp at h2
        · simp only [List.cons_append, List.cons.injEq] at h2
          obtain ⟨rfl, h2⟩ := h2
          exact signalRounds_before_send _ pre c' b h1
    · simp only [hk, if_false, List.append_nil] at h
      exact signalRounds_before_send _ pre post b h
  · rw [htrace]
    have hne : MEvent.send doneByte ≠ MEvent.tryWait true := by simp
    have hne' : MEvent.tryWait false ≠ MEvent.tryWait true := by simp
    by_cases hk : unsatisfiedPolls polls < polls.length
    · simp [hk, List.count_append, hc1, hc2, List.count_cons, hne, hne']
    · simp [hk, hc1, hc2]
  · intro pre post h
    rw [htrace] at h
    have := hlast [] pre post (by simpa using h) (by simp)
    exact this
  · intro v fuel nummsgs numclients released r pre post hr ht
    obtain ⟨d, tail, hs, hnot, htr⟩ := timedMain_shape v fuel nummsgs numclients polls released r hr
    rw [htr] at ht
    have hX : MEvent.tryWait true ∉ List.replicate numclients MEvent.spawn ++ MEvent.start
        :: List.replicate d (MEvent.send ordinaryByte)
        ++ signalRounds (unsatisfiedPolls polls) := by
      have := List.count_eq_zero.mp hc3
      simp [List.mem_replicate, this]
    rw [split_at_satisfied _ tail pre post _ hX hnot ht]
    exact hs

/-- C9 on two polls answered false and a third answered true. -/
theorem C9_signalling_loop_witness :
    (signalLoop [false, false, true] 0).1
        = [MEvent.tryWait false, MEvent.send 255, MEvent.tryWait false, MEvent.send 255,
            MEvent.tryWait true]
      ∧ (signalLoop [false, false, true] 0).1.count (MEvent.send doneByte)
          = (signalLoop [false, false, true] 0).1.count (MEvent.tryWait false) :=
  ⟨by decide, (C9_signalling_loop [false, false, true] 0).2.2.2.1⟩

theorem pushDataLoop_run (n : Int) (hn : n ≤ INT_MAX) : ∀ (d fuel : Nat) (s : Int),
    (n - s).toNat = d → d ≤ fuel → -2147483648 ≤ s →
    pushDataLoop fuel n s = some (List.replicate d (MEvent.send ordinaryByte), max n s)
  | 0, fuel, s, hd, _, _ => by
    have hlt : ¬ (s < n) := by omega
    have hmax : max n s = s := by omega
    cases fuel <;> simp [pushDataLoop, hlt, hmax]
  | d + 1, 0, s, _, hf, _ => by omega
  | d + 1, fuel + 1, s, hd, hf, hs => by
    have hlt : s < n := by omega
    have hw : wrapInt (s + 1) = s + 1 :=
      wrapInt_of_range _ (by omega) (by unfold INT_MAX at hn ⊢; omega)
    have ih := pushDataLoop_run n hn d fuel (s + 1) (by omega) (by omega) (by omega)
    have hmax : max n (s + 1) = max n s := by omega
    simp [pushDataLoop, hlt, hw, ih, hmax, List.replicate_succ]

theorem pubsubDataLoop_run (n : Int) (hn : n ≤ INT_MAX) : ∀ (d fuel : Nat) (i s : Int),
    (n - i).toNat = d → d ≤ fuel → -2147483648 ≤ i → -2147483648 ≤ s → s + d ≤ INT_MAX →
    pubsubDataLoop fuel n i s = some (List.replicate d (MEvent.send ordinaryByte), s + d)
  | 0, fuel, i, s, hd, _, _, _, _ => by
    have hlt : ¬ (i < n) := by omega
    cases fuel <;> simp [pubsubDataLoop, hlt]
  | d + 1, 0, i, s, _, hf, _, _, _ => by omega
  | d + 1, fuel + 1, i, s, hd, hf, hi, hs, hsd => by
    have hlt : i < n := by omega
    have hwi : wrapInt (i + 1) = i + 1 :=
      wrapInt_of_range _ (by omega) (by unfold INT_MAX at hn ⊢; omega)
    have hws : wrapInt (s + 1) = s + 1 :=
      wrapInt_of_range _ (by omega) (by unfold INT_MAX at hsd ⊢; push_cast at hsd; omega)
    have ih := pubsubDataLoop_run n hn d fuel (i + 1) (s + 1) (by omega) (by omega) (by omega)
      (by omega) (by push_cast at hsd; omega)
    have hsum : s + 1 + (d : Int) = s + ((d + 1 : Nat) : Int) := by
      push_cast
      ring
    simp [pubsubDataLoop, hlt, hwi, hws, ih, hsum, List.replicate_succ]

/-- C10: for a message count `n`, polls of which one answers true after `k`
answered false, and `max n 0 + k` within `int`: the coordinator of either
timing program runs to its end and reports `sent = max n 0 + k`, which is at
least `n`; it sends `max n 0` messages with first byte 0 and then `k`
messages with first byte 255, in this order. -/
theorem C10_sent_total (v : Variant) (fuel : Nat) (n : Int) (numclients : Nat)
    (polls : List Bool) (hfuel : n.toNat ≤ fuel)
    (hexit : unsatisfiedPolls polls < polls.length)
    (hrange : (n.toNat : Int) + (unsatisfiedPolls polls : Nat) ≤ INT_MAX) :
    ∃ r, timedMain v fuel n numclients polls true = some r
      ∧ r.status = Status.finished
      ∧ r.sent = max n 0 + (unsatisfiedPolls polls : Nat)
      ∧ n ≤ r.sent
      ∧ r.trace = List.replicate numclients MEvent.spawn ++ MEvent.start
            :: List.replicate n.toNat (MEvent.send ordinaryByte)
            ++ signalRounds (unsatisfiedPolls polls)
            ++ MEvent.tryWait true :: afterSignal v numclients r.sent
      ∧ r.trace.getLast? = some (MEvent.report r.sent)
      ∧ sends r.trace = List.replicate n.toNat 0 ++ List.replicate (unsatisfiedPolls polls) 255 := by
  have hn : n ≤ INT_MAX := by omega
  have hmax : max n 0 = (n.toNat : Int) := by omega
  have hdata : ∃ data sent, data = List.replicate n.toNat (MEvent.send ordinaryByte)
      ∧ sent = max n 0
      ∧ timedMain v fuel n numclients polls true
        = (if (signalLoop polls sent).2.2 = true then
            some (⟨List.replicate numclients MEvent.spawn ++ MEvent.start :: data
                ++ (signalLoop polls sent).1
                ++ afterSignal v numclients (signalLoop polls sent).2.1,
              (signalLoop polls sent).2.1, Status.finished⟩ : MainRun)
          else some ⟨List.replicate numclients MEvent.spawn ++ MEvent.start :: data
                ++ (signalLoop polls sent).1, (signalLoop polls sent).2.1, Status.pending⟩) := by
    refine ⟨_, _, rfl, rfl, ?_⟩
    cases v
    · have h := pushDataLoop_run n hn n.toNat fuel 0 (by simp) hfuel (by omega)
      simp [timedMain, pushMain, h, afterSignal]
    · have h := pubsubDataLoop_run n hn n.toNat fuel 0 0 (by simp) hfuel (by omega) (by omega)
        (by omega)
      rw [Int.zero_add, ← hmax] at h
      simp [timedMain, pubsubMain, h, afterSignal]
  obtain ⟨data, sent, hd, hsent, hmain⟩ := hdata
  subst hd
  subst hsent
  have hsig := signalLoop_sent polls (max n 0) (by omega) (by omega)
  obtain ⟨_, hexit'⟩ := signalLoop_trace polls (max n 0)
  have hex : (signalLoop polls (max n 0)).2.2 = true := by simp [hexit', hexit]
  rw [hex, if_pos rfl] at hmain
  obtain ⟨hrs, tail, _, _, htail, htrace⟩ :=
    main_trace_of_loops v numclients polls true
      (List.replicate n.toNat (MEvent.send ordinaryByte)) (max n 0) _
      (by rw [hex, if_pos rfl, if_pos rfl])
  have htail' : tail = afterSignal v numclients (signalLoop polls (max n 0)).2.1 := htail rfl
  have htrace' : List.replicate numclients MEvent.spawn ++ MEvent.start
        :: List.replicate n.toNat (MEvent.send ordinaryByte) ++ (signalLoop polls (max n 0)).1
        ++ afterSignal v numclients (signalLoop polls (max n 0)).2.1
      = List.replicate numclients MEvent.spawn ++ MEvent.start
        :: List.replicate n.toNat (MEvent.send ordinaryByte)
        ++ signalRounds (unsatisfiedPolls polls)
        ++ MEvent.tryWait true :: afterSignal v numclients (signalLoop polls (max n 0)).2.1 := by
    have := htrace
    simp only [hexit, decide_True, if_true, htail'] at this
    exact this
  have hlast : ∃ front, afterSignal v numclients (signalLoop polls (max n 0)).2.1
      = front ++ [MEvent.report (signalLoop polls (max n 0)).2.1] := by
    cases v
    · exact ⟨[MEvent.stop, MEvent.arriveAndWait, MEvent.close, MEvent.term]
        ++ List.replicate numclients MEvent.join, rfl⟩
    · exact ⟨[MEvent.stop, MEvent.arriveAndWait] ++ List.replicate numclients MEvent.join
        ++ [MEvent.close, MEvent.term], by simp [afterSignal]⟩
  refine ⟨_, hmain, rfl, hsig, ?_, htrace', ?_, ?_⟩
  · show n ≤ (signalLoop polls (max n 0)).2.1
    rw [hsig]
    omega
  · obtain ⟨front, hfront⟩ := hlast
    show (_ ++ afterSignal v numclients (signalLoop polls (max n 0)).2.1).getLast? = _
    rw [hfront, ← List.append_assoc, List.getLast?_concat]
  · show sends (List.replicate numclients MEvent.spawn ++ MEvent.start
        :: List.replicate n.toNat (MEvent.send ordinaryByte) ++ (signalLoop polls (max n 0)).1
        ++ afterSignal v numclients (signalLoop polls (max n 0)).2.1) = _
    rw [htrace']
    obtain ⟨_, _, _, hsr⟩ := signalRounds_counts (unsatisfiedPolls polls)
    have ho : ordinaryByte = 0 := by decide
    have hdb : doneByte = 255 := by decide
    have hrep : ∀ (m : Nat) (b : Nat), sends (List.replicate m (MEvent.send b))
        = List.replicate m b := by
      intro m b
      induction m with
      | zero => rfl
      | succ m ih => simp [List.replicate_succ, sends, ih]
    simp [sends_append, sends, hsr, hrep, ho, hdb,
      sends_replicate_of_not_send MEvent.spawn rfl, sends_afterSignal]

/-- C10 on the push program with three messages, two pullers, and the done
latch satisfied at the third poll: five messages are reported. -/
theorem C10_sent_total_witness :
    ∃ r, timedMain Variant.push 3 3 2 [false, false, true] true = some r
      ∧ r.status = Status.finished
      ∧ r.sent = max 3 0 + (unsatisfiedPolls [false, false, true] : Nat)
      ∧ (3 : Int) ≤ r.sent
      ∧ r.trace = List.replicate 2 MEvent.spawn ++ MEvent.start
            :: List.replicate (3 : Int).toNat (MEvent.send ordinaryByte)
            ++ signalRounds (unsatisfiedPolls [false, false, true])
            ++ MEvent.tryWait true :: afterSignal Variant.push 2 r.sent
      ∧ r.trace.getLast? = some (MEvent.report r.sent)
      ∧ sends r.trace = List.replicate (3 : Int).toNat 0
          ++ List.replicate (unsatisfiedPolls [false, false, true]) 255 :=
  C10_sent_total Variant.push 3 3 2 [false, false, true] (by decide) (by decide) (by decide)

/-! ### No worker, no message (C11, C12) -/

theorem run_preserves (cfg : Config) (Q : State → Prop)
    (hstep : ∀ s a s', Q s → step cfg s a = some s' → Q s') :
    ∀ (sched : List Action) (s s' : State), Q s → run cfg s sched = some s' → Q s'
  | [], s, s', h, hr => by
    simp only [run, Option.some.injEq] at hr
    exact hr ▸ h
  | a :: as, s, s', h, hr => by
    simp only [run] at hr
    split at hr
    next => simp at hr
    next t ht => exact run_preserves cfg Q hstep as t s' (hstep s a t h ht) hr

theorem done_zero_of_no_worker (cfg : Config) (s : State) (hK : cfg.numclients = 0)
    (h : Inv cfg s) : s.done.counter = 0 ∧ s.workers = [] := by
  have hS : countPc WorkerPc.signalled s ≤ s.workers.length := List.countP_le_length _
  have h1 := h.len
  have h2 := h.done_eq
  refine ⟨by omega, ?_⟩
  apply List.eq_nil_of_length_eq_zero
  omega

theorem mainStep_no_sentinel (cfg : Config) (dest : List Nat) (s s' : State)
    (hd : s.done.try_wait = true) (hpc : s.mainPc ≠ MainPc.sendDone)
    (hs : mainStep cfg dest s = some s') : s'.mainPc ≠ MainPc.sendDone := by
  cases hm : s.mainPc
  case sendDone => exact absurd hm hpc
  all_goals
    simp only [mainStep, hm, hd, if_true] at hs
    try split at hs
    all_goals first
      | (simp only [Option.some.injEq] at hs
         subst hs
         first
           | (simp [hm]; done)
           | (cases cfg.variant <;> simp [hm]))
      | simp at hs

/-- C11 as stated fails: with no subscriber and a message count of one the
publisher sends one ordinary message before its first poll, in the trace of
`main` and in the run of the whole program. -/
theorem C11_sends_without_workers :
    timedMain Variant.pubsub 1 1 0 [true] true
        = some ⟨[MEvent.start, MEvent.send 0, MEvent.tryWait true, MEvent.stop,
            MEvent.arriveAndWait, MEvent.close, MEvent.term, MEvent.report 1], 1,
            Status.finished⟩
      ∧ run noWorkerCfg (init noWorkerCfg) [Action.main [], Action.main [], Action.main []]
        = some ⟨⟨0⟩, ⟨1⟩, MainPc.pollDone, 1, []⟩ := by
  refine ⟨by decide, by decide⟩

theorem timedMain_eq (v : Variant) (fuel : Nat) (n : Int) (numclients : Nat)
    (polls : List Bool) (released : Bool) (hfuel : n.toNat ≤ fuel) (hn : n ≤ INT_MAX) :
    timedMain v fuel n numclients polls released
      = (if (signalLoop polls (max n 0)).2.2 = true then
          if released = true then
            some (⟨List.replicate numclients MEvent.spawn ++ MEvent.start
                :: List.replicate n.toNat (MEvent.send ordinaryByte)
                ++ (signalLoop polls (max n 0)).1
                ++ afterSignal v numclients (signalLoop polls (max n 0)).2.1,
              (signalLoop polls (max n 0)).2.1, Status.finished⟩ : MainRun)
          else some ⟨List.replicate numclients MEvent.spawn ++ MEvent.start
                :: List.replicate n.toNat (MEvent.send ordinaryByte)
                ++ (signalLoop polls (max n 0)).1 ++ [MEvent.stop, MEvent.arriveAndWait],
              (signalLoop polls (max n 0)).2.1, Status.pending⟩
        else some ⟨List.replicate numclients MEvent.spawn ++ MEvent.start
                :: List.replicate n.toNat (MEvent.send ordinaryByte)
                ++ (signalLoop polls (max n 0)).1,
              (signalLoop polls (max n 0)).2.1, Status.pending⟩) := by
  have hmax : max n 0 = (n.toNat : Int) := by omega
  have hI : (n.toNat : Int) ≤ INT_MAX := by
    unfold INT_MAX at hn ⊢
    omega
  cases v
  · have h := pushDataLoop_run n hn n.toNat fuel 0 (by simp) hfuel (by omega)
    simp [timedMain, pushMain, h, afterSignal]
  · have h := pubsubDataLoop_run n hn n.toNat fuel 0 0 (by simp) hfuel (by omega) (by omega)
      (by omega)
    rw [Int.zero_add, ← hmax] at h
    simp [timedMain, pubsubMain, h, afterSignal]

theorem sends_replicate_send : ∀ (m : Nat) (b : Nat),
    sends (List.replicate m (MEvent.send b)) = List.replicate m b
  | 0, _ => rfl
  | m + 1, b => by simp [List.replicate_succ, sends, sends_replicate_send m b]

theorem timedMain_sends (v : Variant) (fuel : Nat) (n : Int) (numclients : Nat)
    (polls : List Bool) (released : Bool) (hfuel : n.toNat ≤ fuel) (hn : n ≤ INT_MAX) :
    ∃ r tail, timedMain v fuel n numclients polls released = some r
      ∧ sends tail = []
      ∧ r.trace = (List.replicate numclients MEvent.spawn ++ MEvent.start
            :: List.replicate n.toNat (MEvent.send ordinaryByte)
            ++ signalRounds (unsatisfiedPolls polls))
          ++ (if decide (unsatisfiedPolls polls < polls.length) = true
              then MEvent.tryWait true :: tail else [])
      ∧ sends r.trace
          = List.replicate n.toNat 0 ++ List.replicate (unsatisfiedPolls polls) 255 := by
  have heq := timedMain_eq v fuel n numclients polls released hfuel hn
  have hsome : ∃ r, timedMain v fuel n numclients polls released = some r := by
    rw [heq]
    split
    · split
      · exact ⟨_, rfl⟩
      · exact ⟨_, rfl⟩
    · exact ⟨_, rfl⟩
  obtain ⟨r, hr⟩ := hsome
  obtain ⟨_, tail, h1, _, _, h4⟩ :=
    main_trace_of_loops v numclients polls released _ (max n 0) r (heq ▸ hr)
  refine ⟨r, tail, hr, h1, h4, ?_⟩
  obtain ⟨_, _, _, hsr⟩ := signalRounds_counts (unsatisfiedPolls polls)
  have ho : ordinaryByte = 0 := by decide
  have hdb : doneByte = 255 := by decide
  rw [h4]
  by_cases hk : unsatisfiedPolls polls < polls.length
  · simp [hk, sends_append, sends, hsr, sends_replicate_send, ho, hdb, h1,
      sends_replicate_of_not_send MEvent.spawn rfl]
  · simp [hk, sends_append, sends, hsr, sends_replicate_send, ho, hdb,
      sends_replicate_of_not_send MEvent.spawn rfl]

/-- C11 amended: with no worker configured, every reachable state of a run
has the done latch (size 0) satisfied, so the first poll of `main` finds it
satisfied; `main` never reaches the send of a done message; and the messages
`main` sends are its `max n 0` ordinary ones, none at all when the message
count is at most zero. -/
theorem C11_no_sentinel_without_workers :
    (∀ (cfg : Config) (s : State), cfg.numclients = 0 → Reachable cfg s →
        s.done.try_wait = true ∧ s.mainPc ≠ MainPc.sendDone ∧ s.workers = [])
      ∧ (∀ (v : Variant) (fuel : Nat) (n : Int) (polls : List Bool) (released : Bool),
          n.toNat ≤ fuel → n ≤ INT_MAX →
          ∃ r, timedMain v fuel n 0 (true :: polls) released = some r
            ∧ sends r.trace = List.replicate n.toNat 0
            ∧ r.trace.take (n.toNat + 2)
                = MEvent.start :: List.replicate n.toNat (MEvent.send ordinaryByte)
                  ++ [MEvent.tryWait true]
            ∧ (n ≤ 0 → sends r.trace = [])) := by
  refine ⟨?_, ?_⟩
  · intro cfg s hK hreach
    obtain ⟨sched, hrun⟩ := hreach
    have hQ : Inv cfg s ∧ s.mainPc ≠ MainPc.sendDone := by
      refine run_preserves cfg (fun t => Inv cfg t ∧ t.mainPc ≠ MainPc.sendDone) ?_ sched
        (init cfg) s ⟨inv_init cfg, by simp [init]⟩ hrun
      intro t a t' ht hstep
      refine ⟨inv_step cfg t t' a ht.1 hstep, ?_⟩
      have hd := (done_zero_of_no_worker cfg t hK ht.1).1
      cases a with
      | main dest =>
        exact mainStep_no_sentinel cfg dest t t' (by simp [Latch.try_wait, hd]) ht.2 hstep
      | worker i =>
        simp only [step] at hstep
        split at hstep
        next => simp at hstep
        next w hi =>
          split at hstep
          next => simp at hstep
          next w' d e hw =>
            simp only [Option.some.injEq] at hstep
            subst hstep
            exact ht.2
    obtain ⟨hd, hw⟩ := done_zero_of_no_worker cfg s hK hQ.1
    exact ⟨by simp [Latch.try_wait, hd], hQ.2, hw⟩
  · intro v fuel n polls released hfuel hn
    obtain ⟨r, tail, hr, _, htrace, hsends⟩ :=
      timedMain_sends v fuel n 0 (true :: polls) released hfuel hn
    have hk : unsatisfiedPolls (true :: polls) = 0 := by simp [unsatisfiedPolls]
    rw [hk] at htrace hsends
    refine ⟨r, hr, by simpa using hsends, ?_, ?_⟩
    · rw [htrace]
      simp [signalRounds, List.take_append_eq_append_take]
    · intro hle
      have h0 : n.toNat = 0 := by omega
      simpa [h0] using hsends

/-- C11 amended, on a pubsub run without subscribers and on `main` with a
message count of zero: nothing is sent and the first poll is satisfied. -/
theorem C11_no_sentinel_without_workers_witness :
    (⟨0⟩ : Latch).try_wait = true
      ∧ ∃ r, timedMain Variant.push 0 0 0 [true] true = some r ∧ sends r.trace = [] :=
  ⟨(C11_no_sentinel_without_workers.1 noWorkerCfg ⟨⟨0⟩, ⟨1⟩, MainPc.pollDone, 1, []⟩ rfl
      ⟨[Action.main [], Action.main [], Action.main []], by decide⟩).1,
   by
     obtain ⟨r, hr, hs, _, _⟩ :=
       C11_no_sentinel_without_workers.2 Variant.push 0 0 [] true (by decide) (by decide)
     exact ⟨r, hr, by simpa using hs⟩⟩

/-- C12: with a message count of zero, the first loop of `main` sends
nothing and leaves `sent` at 0 for the signalling loop, and every message
`main` sends in a run is a done message (first byte 255), one per poll
answered false. -/
theorem C12_zero_count (v : Variant) (fuel : Nat) (numclients : Nat) (polls : List Bool)
    (released : Bool) :
    pushDataLoop fuel 0 0 = some ([], 0)
      ∧ pubsubDataLoop fuel 0 0 0 = some ([], 0)
      ∧ ∃ r tail, timedMain v fuel 0 numclients polls released = some r
        ∧ sends tail = []
        ∧ r.trace = (List.replicate numclients MEvent.spawn ++ MEvent.start
              :: signalRounds (unsatisfiedPolls polls))
            ++ (if decide (unsatisfiedPolls polls < polls.length) = true
                then MEvent.tryWait true :: tail else [])
        ∧ sends r.trace = List.replicate (unsatisfiedPolls polls) 255
        ∧ r.sent = (signalLoop polls 0).2.1 := by
  refine ⟨?_, ?_, ?_⟩
  · cases fuel <;> simp [pushDataLoop]
  · cases fuel <;> simp [pubsubDataLoop]
  · obtain ⟨r, tail, hr, h1, h2, h3⟩ :=
      timedMain_sends v fuel 0 numclients polls released (by simp) (by decide)
    refine ⟨r, tail, hr, h1, by simpa using h2, by simpa using h3, ?_⟩
    have heq := timedMain_eq v fuel 0 numclients polls released (by simp) (by decide)
    rw [hr] at heq
    have h0 : max (0 : Int) 0 = 0 := by simp
    rw [h0] at heq
    split at heq
    · split at heq <;> (simp only [Option.some.injEq] at heq; rw [heq])
    · simp only [Option.some.injEq] at heq
      rw [heq]

/-! ### What `ignore` returns and when it aborts (C13, C14) -/

theorem ignore_cases (flags : Int) (o : RecvOutcome) :
    ignore flags o
      = if o.initStatus < 0 then Outcome.fatal
        else if o.status < 0 ∧ o.errno = EAGAIN then Outcome.ret 0
        else if o.status < 0 then Outcome.fatal
        else if o.dataNull = true then Outcome.fatal
        else match o.data with
          | [] => Outcome.undef
          | b :: _ =>
            if o.closeStatus < 0 then Outcome.fatal
            else if o.optStatus < 0 then Outcome.fatal
            else if o.more ≠ 0 then Outcome.fatal
            else Outcome.ret ((b % 256 : Nat) : Int) := by
  unfold ignore checkError checkErrorPtr
  by_cases h1 : o.initStatus < 0
  · simp [h1, Outcome.bind]
  · by_cases h2 : o.status < 0 ∧ o.errno = EAGAIN
    · simp [h1, h2, Outcome.bind]
    · by_cases h3 : o.status < 0
      · simp [h1, h2, h3, Outcome.bind]
      · cases h4 : o.dataNull
        · cases h5 : o.data with
          | nil => simp [h1, h2, h3, Outcome.bind]
          | cons b rest =>
            by_cases h6 : o.closeStatus < 0
            · simp [h1, h2, h3, h6, Outcome.bind]
            · by_cases h7 : o.optStatus < 0
              · simp [h1, h2, h3, h6, h7, Outcome.bind]
              · simp [h1, h2, h3, h6, h7, Outcome.bind]
        · simp [h1, h2, h3, Outcome.bind]

theorem ignore_eagain (flags : Int) (o : RecvOutcome) :
    0 ≤ o.initStatus → o.status < 0 → o.errno = EAGAIN → ignore flags o = Outcome.ret 0 := by
  intro h1 h2 h3
  have h1' : ¬ o.initStatus < 0 := by omega
  rw [ignore_cases]
  simp [h1', h2, h3]

/-- C13: `ignore` ends the process exactly when `zmq_msg_init` failed, or
the receive failed with an error other than `EAGAIN`, or the receive
succeeded and a later call it makes failed (`zmq_msg_data`, `zmq_msg_close`,
`zmq_getsockopt`) or the more-parts flag is set. A received multi-part
message is fatal whatever its bytes, and a receive that reports `EAGAIN` is
never fatal: `ignore` returns 0. -/
theorem C13_ignore_fatal (flags : Int) (o : RecvOutcome) :
    (ignore flags o = Outcome.fatal ↔
        o.initStatus < 0
          ∨ (0 ≤ o.initStatus ∧ o.status < 0 ∧ o.errno ≠ EAGAIN)
          ∨ (0 ≤ o.initStatus ∧ 0 ≤ o.status ∧ o.dataNull = true)
          ∨ (0 ≤ o.initStatus ∧ 0 ≤ o.status ∧ o.dataNull = false ∧ o.data ≠ []
              ∧ (o.closeStatus < 0 ∨ o.optStatus < 0 ∨ o.more ≠ 0)))
      ∧ (0 ≤ o.initStatus → 0 ≤ o.status → o.dataNull = false → o.data ≠ [] →
          o.more ≠ 0 → ignore flags o = Outcome.fatal)
      ∧ (0 ≤ o.initStatus → o.status < 0 → o.errno = EAGAIN →
          ignore flags o = Outcome.ret 0) := by
  rw [ignore_cases]
  refine ⟨?_, ?_, ?_⟩
  · by_cases h1 : o.initStatus < 0
    · simp [h1]
    · by_cases h3 : o.status < 0
      · by_cases h2 : o.errno = EAGAIN
        · simp [h1, h2, h3]
        · simp [h1, h2, h3]
          omega
      · cases h4 : o.dataNull
        · cases h5 : o.data with
          | nil =>
            simp [h1, h3]
          | cons b rest =>
            by_cases h6 : o.closeStatus < 0
            · simp [h1, h3, h6]
              omega
            · by_cases h7 : o.optStatus < 0
              · simp [h1, h3, h6, h7]
                omega
              · by_cases h8 : o.more = 0
                · simp [h1, h3, h6, h7, h8]
                · simp [h1, h3, h6, h7, h8]
                  omega
        · simp [h1, h3]
          omega
  · intro h1 h2 h3 h4 h5
    have h1' : ¬ o.initStatus < 0 := by omega
    have h2' : ¬ o.status < 0 := by omega
    cases h6 : o.data with
    | nil => exact absurd h6 h4
    | cons b rest =>
      simp only [h1', h2', h3, h5, if_false, false_and, Bool.false_eq_true, ne_eq,
        not_false_eq_true, if_true]
      split <;> [rfl; (split <;> rfl)]
  · intro h1 h2 h3
    have h1' : ¬ o.initStatus < 0 := by omega
    simp [h1', h2, h3]

/-- C13 on a multi-part message with first byte zero and on an `EAGAIN`
answer. -/
theorem C13_ignore_fatal_witness :
    ignore 0 { delivered [0, 1] with more := 1 } = Outcome.fatal
      ∧ ignore ZMQ_DONTWAIT nothingAvailable = Outcome.ret 0 :=
  ⟨(C13_ignore_fatal 0 { delivered [0, 1] with more := 1 }).2.1 (by decide) (by decide) rfl
      (by decide) (by decide),
   (C13_ignore_fatal ZMQ_DONTWAIT nothingAvailable).2.2 (by decide) (by decide) rfl⟩

/-- C14: `ignore` returns 0 when the receive reports `EAGAIN`; on a
successful receive of a single-part message with at least one byte it returns
that byte read as `uint8_t`, the byte itself when it is below 256; and every
value it returns lies in 0..255. -/
theorem C14_ignore_value (flags : Int) (o : RecvOutcome) :
    (0 ≤ o.initStatus → o.status < 0 → o.errno = EAGAIN → ignore flags o = Outcome.ret 0)
      ∧ (∀ b rest, 0 ≤ o.initStatus → 0 ≤ o.status → o.dataNull = false →
          o.data = b :: rest → 0 ≤ o.closeStatus → 0 ≤ o.optStatus → o.more = 0 →
          ignore flags o = Outcome.ret ((b % 256 : Nat) : Int)
            ∧ (b < 256 → ignore flags o = Outcome.ret (b : Int)))
      ∧ (∀ v, ignore flags o = Outcome.ret v → 0 ≤ v ∧ v ≤ 255) := by
  refine ⟨ignore_eagain flags o, ?_, ?_⟩
  · intro b rest h1 h2 h3 h4 h5 h6 h7
    have hret : ignore flags o = Outcome.ret ((b % 256 : Nat) : Int) := by
      rw [ignore_cases]
      have h1' : ¬ o.initStatus < 0 := by omega
      have h2' : ¬ o.status < 0 := by omega
      have h5' : ¬ o.closeStatus < 0 := by omega
      have h6' : ¬ o.optStatus < 0 := by omega
      simp [h1', h2', h3, h4, h5', h6', h7]
    refine ⟨hret, ?_⟩
    intro hb
    rw [hret, Nat.mod_eq_of_lt hb]
  · intro v hv
    rw [ignore_cases] at hv
    split at hv
    · simp at hv
    · split at hv
      · simp only [Outcome.ret.injEq] at hv
        omega
      · split at hv
        · simp at hv
        · split at hv
          · simp at hv
          · split at hv
            · simp at hv
            · split at hv
              · simp at hv
              · split at hv
                · simp at hv
                · split at hv
                  · simp at hv
                  · simp only [Outcome.ret.injEq] at hv
                    omega

/-- C14 on an `EAGAIN` answer and on a message whose first byte is 7. -/
theorem C14_ignore_value_witness :
    ignore ZMQ_DONTWAIT nothingAvailable = Outcome.ret 0
      ∧ ignore 0 (delivered [7, 0]) = Outcome.ret 7 :=
  ⟨(C14_ignore_value ZMQ_DONTWAIT nothingAvailable).1 (by decide) (by decide) rfl,
   ((C14_ignore_value 0 (delivered [7, 0])).2.1 7 [0] (by decide) (by decide) rfl rfl
      (by decide) (by decide) rfl).2 (by decide)⟩

/-! ### Arrivals at the two latches (C15) -/

theorem pollLoop_no_arrive : ∀ (polls : List Bool) (recvs : List RecvOutcome) (g : Int)
    (b : Barrier), WEvent.arriveAndWait b ∉ (pollLoop polls recvs g).trace
  | [], _, _, _ => by simp [pollLoop]
  | true :: _, _, _, _ => by simp [pollLoop]
  | false :: _, [], _, _ => by simp [pollLoop]
  | false :: polls, o :: recvs, g, b => by
    have ih := pollLoop_no_arrive polls recvs g b
    simp only [pollLoop]
    split
    · simpa [Run.prepend] using ih
    · simp
    · simp

theorem subscriber_counts (recvs : List RecvOutcome) (polls : List Bool) (released : Bool)
    (cs : Int) :
    (subscriber recvs polls released cs).trace.count (WEvent.countDown Barrier.stop) ≤ 1
      ∧ (subscriber recvs polls released cs).trace.count
          (WEvent.arriveAndWait Barrier.release) ≤ 1
      ∧ (subscriber recvs polls released cs).trace.count
          (WEvent.arriveAndWait Barrier.stop) = 0
      ∧ ((subscriber recvs polls released cs).status = Status.finished →
          (subscriber recvs polls released cs).trace.count (WEvent.countDown Barrier.stop) = 1
            ∧ (subscriber recvs polls released cs).trace.count
                (WEvent.arriveAndWait Barrier.release) = 1) := by
  have hr1 : ∀ e, e ≠ WEvent.recv 0 → (recvLoop recvs 0).trace.count e = 0 := by
    intro e he
    rw [List.count_eq_zero]
    intro hmem
    exact he (recvLoop_trace recvs 0 e hmem)
  have hp1 := count_countDown_afterStop _
    (pollLoop_afterStop polls (recvLoop recvs 0).rest (recvLoop recvs 0).got)
  have hp2 : ∀ b, (pollLoop polls (recvLoop recvs 0).rest (recvLoop recvs 0).got).trace.count
      (WEvent.arriveAndWait b) = 0 := fun b =>
    List.count_eq_zero.mpr (pollLoop_no_arrive polls _ _ b)
  cases h1 : (recvLoop recvs 0).status
  case finished =>
    cases h2 : (pollLoop polls (recvLoop recvs 0).rest (recvLoop recvs 0).got).status
    case finished =>
      cases released
      · simp [subscriber, h1, h2, Run.prepend, teardown, List.count_append, List.count_cons,
          hr1, hp1, hp2]
      · cases h3 : checkError cs <;>
          simp [subscriber, h1, h2, Run.prepend, teardown, h3, List.count_append,
            List.count_cons, hr1, hp1, hp2]
    all_goals
      simp [subscriber, h1, h2, Run.prepend, List.count_append, List.count_cons, hr1, hp1, hp2]
  all_goals
    simp [subscriber, h1, hr1]

theorem timedMain_form (v : Variant) (fuel : Nat) (nummsgs : Int) (numclients : Nat)
    (polls : List Bool) (released : Bool) (r : MainRun)
    (h : timedMain v fuel nummsgs numclients polls released = some r) :
    ∃ d sent X, X = List.replicate numclients MEvent.spawn ++ MEvent.start
          :: List.replicate d (MEvent.send ordinaryByte) ++ (signalLoop polls sent).1
      ∧ ((signalLoop polls sent).2.2 = true ∧ released = true
            ∧ r = ⟨X ++ afterSignal v numclients (signalLoop polls sent).2.1,
                (signalLoop polls sent).2.1, Status.finished⟩
          ∨ (signalLoop polls sent).2.2 = true ∧ released = false
            ∧ r = ⟨X ++ [MEvent.stop, MEvent.arriveAndWait], (signalLoop polls sent).2.1,
                Status.pending⟩
          ∨ (signalLoop polls sent).2.2 = false
            ∧ r = ⟨X, (signalLoop polls sent).2.1, Status.pending⟩) := by
  have key : ∀ (data : List MEvent) (sent : Int) (d : Nat),
      data = List.replicate d (MEvent.send ordinaryByte) →
      (if (signalLoop polls sent).2.2 = true then
        if released = true then
          some (⟨List.replicate numclients MEvent.spawn ++ MEvent.start :: data
              ++ (signalLoop polls sent).1 ++ afterSignal v numclients (signalLoop polls sent).2.1,
            (signalLoop polls sent).2.1, Status.finished⟩ : MainRun)
        else some ⟨List.replicate numclients MEvent.spawn ++ MEvent.start :: data
              ++ (signalLoop polls sent).1 ++ [MEvent.stop, MEvent.arriveAndWait],
            (signalLoop polls sent).2.1, Status.pending⟩
      else some ⟨List.replicate numclients MEvent.spawn ++ MEvent.start :: data
              ++ (signalLoop polls sent).1, (signalLoop polls sent).2.1, Status.pending⟩)
        = some r →
      ∃ d sent X, X = List.replicate numclients MEvent.spawn ++ MEvent.start
          :: List.replicate d (MEvent.send ordinaryByte) ++ (signalLoop polls sent).1
        ∧ ((signalLoop polls sent).2.2 = true ∧ released = true
              ∧ r = ⟨X ++ afterSignal v numclients (signalLoop polls sent).2.1,
                  (signalLoop polls sent).2.1, Status.finished⟩
            ∨ (signalLoop polls sent).2.2 = true ∧ released = false
              ∧ r = ⟨X ++ [MEvent.stop, MEvent.arriveAndWait], (signalLoop polls sent).2.1,
                  Status.pending⟩
            ∨ (signalLoop polls sent).2.2 = false
              ∧ r = ⟨X, (signalLoop polls sent).2.1, Status.pending⟩) := by
    intro data sent d hd hr
    subst hd
    refine ⟨d, sent, _, rfl, ?_⟩
    cases hx : (signalLoop polls sent).2.2
    · simp only [hx, Bool.false_eq_true, if_false, Option.some.injEq] at hr
      exact Or.inr (Or.inr ⟨rfl, hr.symm⟩)
    · cases released
      · simp only [hx, if_true, Bool.false_eq_true, if_false, Option.some.injEq] at hr
        exact Or.inr (Or.inl ⟨rfl, rfl, hr.symm⟩)
      · simp only [hx, if_true, Option.some.injEq] at hr
        exact Or.inl ⟨rfl, rfl, hr.symm⟩
  cases v
  · simp only [timedMain, pushMain] at h
    split at h
    · simp at h
    · rename_i data sent hdata
      obtain ⟨d, hd⟩ := pushDataLoop_shape _ _ _ _ _ hdata
      exact key data sent d hd (by simpa [afterSignal] using h)
  · simp only [timedMain, pubsubMain] at h
    split at h
    · simp at h
    · rename_i data sent hdata
      obtain ⟨d, hd⟩ := pubsubDataLoop_shape _ _ _ _ _ _ hdata
      exact key data sent d hd (by simpa [afterSignal] using h)

theorem signalRounds_no_arrive : ∀ (k : Nat), MEvent.arriveAndWait ∉ signalRounds k
  | 0 => by simp [signalRounds]
  | k + 1 => by simpa [signalRounds] using signalRounds_no_arrive k

theorem timedMain_arrivals (v : Variant) (fuel : Nat) (nummsgs : Int) (numclients : Nat)
    (polls : List Bool) (released : Bool) (r : MainRun)
    (h : timedMain v fuel nummsgs numclients polls released = some r) :
    r.trace.count MEvent.arriveAndWait ≤ 1
      ∧ (r.status = Status.finished → r.trace.count MEvent.arriveAndWait = 1) := by
  obtain ⟨d, sent, X, hX, hcase⟩ := timedMain_form v fuel nummsgs numclients polls released r h
  have hsig : (signalLoop polls sent).1.count MEvent.arriveAndWait = 0 := by
    rw [(signalLoop_trace polls sent).1, List.count_append,
      List.count_eq_zero.mpr (signalRounds_no_arrive _)]
    split <;> simp
  have hXc : X.count MEvent.arriveAndWait = 0 := by
    rw [hX]
    simp [List.count_append, List.count_cons, hsig, List.count_replicate]
  have hafter : ∀ s, (afterSignal v numclients s).count MEvent.arriveAndWait = 1 := by
    intro s
    cases v <;> simp [afterSignal, List.count_append, List.count_cons, List.count_replicate]
  rcases hcase with ⟨_, _, rfl⟩ | ⟨_, _, rfl⟩ | ⟨_, rfl⟩
  · simp [List.count_append, hXc, hafter]
  · simp [List.count_append, hXc, List.count_cons]
  · simp [hXc]

/-- C15: in every reachable state of a run, the done latch holds
`numclients` minus the number of workers that have counted it down and the
exit latch holds `numclients + 1` minus the number of participants that have
arrived at it, and neither is below zero. In every run of a worker the done
latch is counted down at most once and the exit latch is arrived at at most
once, exactly once each when the worker returns; `main` arrives at the exit
latch at most once, exactly once when it returns. No step of `main` changes
the done latch; a step changes a latch only by one `count_down`, made by a
worker at its `count_down` statement (done latch) or by a participant at its
`arrive_and_wait` (exit latch). -/
theorem C15_latch_counts :
    (∀ (cfg : Config) (s : State), Reachable cfg s →
        s.done.counter = (cfg.numclients : Int) - (countPc WorkerPc.signalled s : Int)
          ∧ s.exitlatch.counter = (cfg.numclients : Int) + 1
              - (countPc WorkerPc.arrived s : Int) - (if s.mainPc.arrived then 1 else 0)
          ∧ 0 ≤ s.done.counter ∧ 0 ≤ s.exitlatch.counter)
      ∧ (∀ (recvs : List RecvOutcome) (polls : List Bool) (released : Bool) (cs : Int),
          (subscriber recvs polls released cs).trace.count (WEvent.countDown Barrier.stop) ≤ 1
            ∧ (subscriber recvs polls released cs).trace.count
                (WEvent.arriveAndWait Barrier.release) ≤ 1
            ∧ ((subscriber recvs polls released cs).status = Status.finished →
                (subscriber recvs polls released cs).trace.count
                    (WEvent.countDown Barrier.stop) = 1
                  ∧ (subscriber recvs polls released cs).trace.count
                      (WEvent.arriveAndWait Barrier.release) = 1))
      ∧ (∀ (v : Variant) (fuel : Nat) (n : Int) (numclients : Nat) (polls : List Bool)
          (released : Bool) (r : MainRun),
          timedMain v fuel n numclients polls released = some r →
          r.trace.count MEvent.arriveAndWait ≤ 1
            ∧ (r.status = Status.finished → r.trace.count MEvent.arriveAndWait = 1))
      ∧ (∀ (cfg : Config) (dest : List Nat) (s s' : State),
          mainStep cfg dest s = some s' →
          s'.done = s.done
            ∧ (s'.exitlatch = s.exitlatch
                ∨ (s.mainPc = MainPc.arrive ∧ s'.mainPc = MainPc.waiting
                    ∧ s'.exitlatch = s.exitlatch.count_down)))
      ∧ (∀ (d e : Latch) (w w' : Worker) (d' e' : Latch),
          workerStep d e w = some (w', d', e') →
          (d' = d ∨ (w.pc = WorkerPc.countDown ∧ w'.pc = WorkerPc.poll ∧ d' = d.count_down))
            ∧ (e' = e
                ∨ (w.pc = WorkerPc.arrive ∧ w'.pc = WorkerPc.waiting
                    ∧ e' = e.count_down))) := by
  refine ⟨?_, ?_, ?_, ?_, ?_⟩
  · intro cfg s hreach
    have hinv := inv_reachable cfg s hreach
    have hS : countPc WorkerPc.signalled s ≤ s.workers.length := List.countP_le_length _
    have hA : countPc WorkerPc.arrived s ≤ s.workers.length := List.countP_le_length _
    have h1 := hinv.len
    have h2 := hinv.done_eq
    have h3 := hinv.exit_eq
    refine ⟨h2, h3, by omega, ?_⟩
    split at h3 <;> omega
  · intro recvs polls released cs
    obtain ⟨h1, h2, _, h4⟩ := subscriber_counts recvs polls released cs
    exact ⟨h1, h2, h4⟩
  · intro v fuel n numclients polls released r h
    exact timedMain_arrivals v fuel n numclients polls released r h
  · intro cfg dest s s' hs
    cases hm : s.mainPc
    all_goals
      simp only [mainStep, hm] at hs
      try split at hs
      all_goals first
        | (simp only [Option.some.injEq] at hs
           subst hs
           simp)
        | simp at hs
  · intro d e w w' d' e' hw
    cases hpc : w.pc
    all_goals
      simp only [workerStep, hpc] at hw
      (try split at hw) <;> (try split at hw) <;> first
        | (simp only [Option.some.injEq, Prod.mk.injEq] at hw
           obtain ⟨rfl, rfl, rfl⟩ := hw
           simp)
        | simp at hw

/-- C15 on the state reached by `scheduleToWait` (one puller has counted
down and arrived: done latch 0, exit latch 1) and on a complete run of a
subscriber. -/
theorem C15_latch_counts_witness :
    (0 : Int) = ((1 : Nat) : Int)
        - (countPc WorkerPc.signalled
            ⟨⟨0⟩, ⟨1⟩, MainPc.pollDone, 2, [⟨WorkerPc.waiting, 1, []⟩]⟩ : Int)
      ∧ (subscriber [delivered [255]] [true] true 0).trace.count
          (WEvent.countDown Barrier.stop) = 1 :=
  ⟨(C15_latch_counts.1 sampleCfg ⟨⟨0⟩, ⟨1⟩, MainPc.pollDone, 2, [⟨WorkerPc.waiting, 1, []⟩]⟩
      ⟨scheduleToWait, by decide⟩).1,
   ((C15_latch_counts.2.1 [delivered [255]] [true] true 0).2.2 (by decide)).1⟩

/-! ### The end marker of the request/reply program (C17) -/

/-- C17 at `nreq = 1`: the only request is sent with first byte zero, since
`i == nreq-2` never holds; the replier answers it and then waits for a
request that never comes, and the requestor stays in `join`. -/
theorem C17_single_request_unmarked :
    requestsSent (requestor 1 [delivered [7]] false).trace = [0]
      ∧ (requestor 1 [delivered [7]] false).trace
          = [QEvent.start, QEvent.send 0, QEvent.recv, QEvent.join]
      ∧ replier 7 [delivered [0]] = ⟨[QEvent.recv, QEvent.send 7], Status.pending⟩ := by
  decide

theorem requestLoop_marks_last (nreq : Int) (h2 : 2 ≤ nreq) (hmax : nreq ≤ INT_MAX) :
    ∀ (m : Nat) (replies : List RecvOutcome) (i : Int),
      i = nreq - 1 - m → 0 ≤ i → replies.length = m + 1 →
      (∀ o ∈ replies, ∃ v, ignore 0 o = Outcome.ret v) →
      (requestLoop nreq replies i (if m = 0 then 255 else 0)).status = Status.finished
        ∧ requestsSent (requestLoop nreq replies i (if m = 0 then 255 else 0)).trace
            = List.replicate m 0 ++ [255]
  | 0, replies, i, hi, _, hlen, hok => by
    obtain ⟨o, rfl⟩ : ∃ o, replies = [o] := by
      match replies, hlen with
      | [o], _ => exact ⟨o, rfl⟩
    obtain ⟨v, hv⟩ := hok o (List.mem_singleton.mpr rfl)
    have hlt : i < nreq := by omega
    have hw : wrapInt (i + 1) = nreq := by
      rw [wrapInt_of_range _ (by omega) (by unfold INT_MAX at hmax ⊢; omega)]
      omega
    simp [requestLoop, hlt, hv, hw, QRun.cons, requestsSent]
  | m + 1, replies, i, hi, h0, hlen, hok => by
    obtain ⟨o, rest, rfl⟩ : ∃ o rest, replies = o :: rest := by
      match replies, hlen with
      | o :: rest, _ => exact ⟨o, rest, rfl⟩
    obtain ⟨v, hv⟩ := hok o (List.mem_cons_self _ _)
    have hlt : i < nreq := by omega
    have hi' : i + 1 = nreq - 1 - (m : Int) := by
      push_cast at hi
      omega
    have hw : wrapInt (i + 1) = i + 1 :=
      wrapInt_of_range _ (by omega) (by unfold INT_MAX at hmax ⊢; omega)
    have hw2 : wrapInt (nreq - 2) = nreq - 2 :=
      wrapInt_of_range _ (by omega) (by unfold INT_MAX at hmax ⊢; omega)
    have hfirst : (if i = wrapInt (nreq - 2) then storeChar 0xff else 0)
        = (if m = 0 then 255 else 0) := by
      rw [hw2]
      by_cases hm : m = 0
      · subst hm
        have : i = nreq - 2 := by omega
        simp [this]
        decide
      · have : ¬ (i = nreq - 2) := by omega
        simp [this, hm]
    have ih := requestLoop_marks_last nreq h2 hmax m rest (i + 1) hi' (by omega)
      (by simpa using hlen) (fun x hx => hok x (List.mem_cons_of_mem _ hx))
    have hne : (m + 1 = 0) = False := by simp
    simp only [hne, if_false, requestLoop, hlt, if_true, hv, hw, hfirst, QRun.cons,
      requestsSent, ih.1, ih.2, List.replicate_succ, List.cons_append, and_self]

/-- The end marker for two or more requests: with `nreq` in 2..`INT_MAX` and
`nreq` replies received, `requestor` sends `nreq` requests of which the last
has first byte 255 and the earlier ones first byte 0. -/
theorem requestor_marks_last (nreq : Int) (replies : List RecvOutcome)
    (h2 : 2 ≤ nreq) (hmax : nreq ≤ INT_MAX) (hlen : (replies.length : Int) = nreq)
    (hok : ∀ o ∈ replies, ∃ v, ignore 0 o = Outcome.ret v) :
    (requestor nreq replies true).status = Status.finished
      ∧ requestsSent (requestor nreq replies true).trace
          = List.replicate (nreq.toNat - 1) 0 ++ [255] := by
  obtain ⟨m, hm⟩ : ∃ m : Nat, replies.length = m + 2 := ⟨replies.length - 2, by omega⟩
  have hne : (m + 1 = 0) = False := by simp
  have h := requestLoop_marks_last nreq h2 hmax (m + 1) replies 0 (by push_cast; omega)
    (by omega) hm hok
  simp only [hne, if_false] at h
  have hs : storeChar 0 = 0 := by decide
  have hN : nreq.toNat - 1 = m + 1 := by omega
  have happ : ∀ (t : List QEvent) (u : List QEvent), requestsSent u = [] →
      requestsSent (t ++ u) = requestsSent t := by
    intro t u hu
    induction t with
    | nil => simpa using hu
    | cons e t ih => cases e <;> simp [requestsSent, ih]
  have htr : (requestor nreq replies true).trace
      = QEvent.start :: ((requestLoop nreq replies 0 0).trace
          ++ [QEvent.join, QEvent.stop, QEvent.close, QEvent.term]) := by
    simp [requestor, hs, h.1]
  refine ⟨by simp [requestor, hs, h.1], ?_⟩
  rw [htr, hN]
  simp only [requestsSent]
  rw [happ _ _ (by rfl), h.2]

/-! ### The reported time (C20) -/

/-- C20 as stated fails: on a clock with nanosecond ticks, an end instant
999999 ticks after the start instant is strictly later and gives zero
milliseconds, so zero seconds are reported. -/
theorem C20_sub_millisecond_is_zero :
    (0 : Int) < 999999 ∧ elapsedSeconds 1 1000000000 0 999999 = 0 := by
  have h : durationCastMs 1 1000000000 (999999 - 0) = 0 := by decide
  exact ⟨by decide, by rw [elapsedSeconds, h]; simp⟩

/-- C20 amended: for a clock of period `num / den` seconds and an end
instant later than the start instant, the reported seconds are never
negative, and they are strictly positive exactly when the interval is at
least one whole millisecond. -/
theorem C20_elapsed_positive_iff (num den : Nat) (start stop : Int) (hden : 0 < den)
    (hlt : start < stop) :
    0 ≤ elapsedSeconds num den start stop
      ∧ (0 < elapsedSeconds num den start stop
          ↔ (den : Int) ≤ (stop - start) * num * 1000) := by
  have hint : 0 ≤ stop - start := by omega
  have hticks : 0 ≤ (stop - start) * (num : Int) * 1000 :=
    Int.mul_nonneg (Int.mul_nonneg hint (Int.natCast_nonneg _)) (by decide)
  have hd : (0 : Int) < den := by exact_mod_cast hden
  have hdiv : durationCastMs num den (stop - start)
      = (stop - start) * (num : Int) * 1000 / (den : Int) := by
    unfold durationCastMs
    exact Int.tdiv_eq_ediv hticks (le_of_lt hd)
  have hnn : 0 ≤ durationCastMs num den (stop - start) := by
    rw [hdiv]
    exact Int.ediv_nonneg hticks (le_of_lt hd)
  have hpos : 0 < durationCastMs num den (stop - start)
      ↔ (den : Int) ≤ (stop - start) * num * 1000 := by
    rw [hdiv]
    have := Int.le_ediv_iff_mul_le (a := 1) (b := (stop - start) * (num : Int) * 1000) hd
    rw [Int.one_mul] at this
    exact ⟨fun h => this.mp h, fun h => this.mpr h⟩
  unfold elapsedSeconds
  refine ⟨?_, ?_⟩
  · have : (0 : ℚ) ≤ (durationCastMs num den (stop - start) : ℚ) := by exact_mod_cast hnn
    positivity
  · rw [← hpos]
    constructor
    · intro h
      have h1 : (0 : ℚ) < (durationCastMs num den (stop - start) : ℚ) := by
        by_contra hc
        have hle : (durationCastMs num den (stop - start) : ℚ) ≤ 0 := not_lt.mp hc
        have : (durationCastMs num den (stop - start) : ℚ) / 1000 ≤ 0 :=
          div_nonpos_of_nonpos_of_nonneg hle (by norm_num)
        exact absurd h (not_lt.mpr this)
      exact_mod_cast h1
    · intro h
      have h1 : (0 : ℚ) < (durationCastMs num den (stop - start) : ℚ) := by exact_mod_cast h
      positivity

/-- C20 amended, on a nanosecond clock and an interval of two and a half
milliseconds: positive seconds are reported. -/
theorem C20_elapsed_positive_iff_witness :
    0 < elapsedSeconds 1 1000000000 0 2500000 :=
  (C20_elapsed_positive_iff 1 1000000000 0 2500000 (by decide) (by decide)).2.mpr
    (by decide)

/-! ### The termination word of the pubsub demonstration (C19) -/

/-- C19 as stated fails: a subscriber that receives "EVEN BYE" stays in its
loop although the second word is "BYE"; it leaves on "EVEN EXIT", whose
second word is not "BYE"; and the termination messages `main` sends carry
"EXIT", not "BYE", as their second word. -/
theorem C19_bye_does_not_end :
    (splitLine (bytes "EVEN BYE"))[1]? = some (bytes "BYE")
      ∧ demoSubLoop [delivered (cmessage "EVEN BYE")]
          = ⟨[WEvent.recv 0], 0, [], Status.pending⟩
      ∧ demoSubLoop [delivered (cmessage "EVEN EXIT"), delivered (cmessage "EVEN BYE")]
          = ⟨[WEvent.recv 0], 0, [delivered (cmessage "EVEN BYE")], Status.finished⟩
      ∧ terminationMessages.map (fun m => (splitLine (bytes m))[1]?)
          = [some (bytes "EXIT"), some (bytes "EXIT")] := by
  decide

theorem cstring_text : ∀ (x : List Nat), isText x → cstring (x ++ [0]) = some x
  | [], _ => by simp [cstring]
  | b :: x, h => by
    have hb := h b (List.mem_cons_self _ _)
    have ih := cstring_text x (fun c hc => h c (List.mem_cons_of_mem _ hc))
    have hmod : b % 256 = b := Nat.mod_eq_of_lt hb.2
    have hne : ¬ (b = 0) := by omega
    simp [cstring, hmod, hne, ih]

theorem rcvString_text (x : List Nat) (h : isText x) :
    rcvString (delivered (x ++ [0])) = Outcome.ret x := by
  have hlen : ¬ (((x ++ [0]).length : Int) < 0) := by omega
  simp only [rcvString, delivered, checkError, checkErrorPtr, Outcome.bind, hlen, if_false,
    cstring_text x h]
  simp

theorem demoSubLoop_skip (x : List Nat) (w : List Nat) (rest : List RecvOutcome)
    (hx : isText x) (hw : (splitLine x)[1]? = some w) (hne : w ≠ bytes "EXIT") :
    demoSubLoop (delivered (x ++ [0]) :: rest) = (demoSubLoop rest).cons (WEvent.recv 0) := by
  simp only [demoSubLoop, rcvString_text x hx, hw, hne, if_false]

theorem demoSubLoop_exit (x : List Nat) (rest : List RecvOutcome)
    (hx : isText x) (hw : (splitLine x)[1]? = some (bytes "EXIT")) :
    demoSubLoop (delivered (x ++ [0]) :: rest)
      = ⟨[WEvent.recv 0], 0, rest, Status.finished⟩ := by
  simp only [demoSubLoop, rcvString_text x hx, hw, if_true]

/-- C19 amended: when the messages a subscriber receives are texts `pre`,
each with a second word other than "EXIT", followed by a text `m` whose
second word is "EXIT", the subscriber leaves its loop at `m` and at no
earlier message, then closes its socket; and both termination messages `main`
sends carry "EXIT" as their second word. -/
theorem C19_leaves_on_exit (pre : List (List Nat)) (m : List Nat) (later : List RecvOutcome)
    (hpre : ∀ x ∈ pre, isText x ∧ ∃ w, (splitLine x)[1]? = some w ∧ w ≠ bytes "EXIT")
    (hm : isText m) (hexit : (splitLine m)[1]? = some (bytes "EXIT")) :
    demoSubLoop (pre.map (fun x => delivered (x ++ [0])) ++ delivered (m ++ [0]) :: later)
        = ⟨List.replicate (pre.length + 1) (WEvent.recv 0), 0, later, Status.finished⟩
      ∧ (∀ k, k < pre.length →
          (demoSubLoop ((pre.take (k + 1)).map (fun x => delivered (x ++ [0])))).status
            = Status.pending)
      ∧ (demoSubscriber
          (pre.map (fun x => delivered (x ++ [0])) ++ delivered (m ++ [0]) :: later) 0).trace
          = List.replicate (pre.length + 1) (WEvent.recv 0) ++ [WEvent.close]
      ∧ (∀ t ∈ terminationMessages, (splitLine (bytes t))[1]? = some (bytes "EXIT")) := by
  have hloop : ∀ (pre : List (List Nat)),
      (∀ x ∈ pre, isText x ∧ ∃ w, (splitLine x)[1]? = some w ∧ w ≠ bytes "EXIT") →
      ∀ rest, demoSubLoop (pre.map (fun x => delivered (x ++ [0])) ++ rest)
        = ⟨List.replicate pre.length (WEvent.recv 0) ++ (demoSubLoop rest).trace,
            (demoSubLoop rest).got, (demoSubLoop rest).rest, (demoSubLoop rest).status⟩ := by
    intro pre
    induction pre with
    | nil => intro _ rest; simp
    | cons x pre ih =>
      intro h rest
      obtain ⟨hx, w, hw, hne⟩ := h x (List.mem_cons_self _ _)
      have := ih (fun y hy => h y (List.mem_cons_of_mem _ hy)) rest
      simp only [List.map_cons, List.cons_append, demoSubLoop_skip x w _ hx hw hne, this,
        Run.cons, List.length_cons, List.replicate_succ]
  have hfull := hloop pre hpre (delivered (m ++ [0]) :: later)
  rw [demoSubLoop_exit m later hm hexit] at hfull
  have hfull' : demoSubLoop
      (pre.map (fun x => delivered (x ++ [0])) ++ delivered (m ++ [0]) :: later)
      = ⟨List.replicate (pre.length + 1) (WEvent.recv 0), 0, later, Status.finished⟩ := by
    rw [hfull]
    simp [List.replicate_succ']
  refine ⟨hfull', ?_, ?_, by decide⟩
  · intro k _
    have h := hloop (pre.take (k + 1)) (fun x hx => hpre x (List.mem_of_mem_take hx)) []
    simp only [List.append_nil] at h
    rw [h]
    simp [demoSubLoop]
  · simp [demoSubscriber, hfull', checkError]

/-- C19 amended, on an ordinary publication followed by "EVEN EXIT". -/
theorem C19_leaves_on_exit_witness :
    demoSubLoop (List.map (fun x => delivered (x ++ [0])) [bytes (publication 0)]
        ++ delivered (bytes "EVEN EXIT" ++ [0]) :: [])
      = ⟨List.replicate ([bytes (publication 0)].length + 1) (WEvent.recv 0), 0, [],
          Status.finished⟩ :=
  (C19_leaves_on_exit [bytes (publication 0)] (bytes "EVEN EXIT") []
    (by
      intro x hx
      rw [List.mem_singleton] at hx
      subst hx
      exact ⟨by decide, bytes "message", by decide, by decide⟩)
    (by decide) (by decide)).1

/-! ### A failed bind (C16) -/

theorem runCalls_bind_fails (timing : Bool) (a : SetupAnswers) (h : a.bind < 0) :
    (runCalls (setupCalls timing a)).2 = false := by
  have hb : checkError a.bind = Outcome.fatal := by simp [checkError, h]
  cases timing <;>
    cases h1 : checkErrorAddr a.ctx <;> cases h2 : checkErrorAddr a.sock <;>
    cases h3 : checkError a.sndbuf <;> cases h4 : checkError a.rcvbuf <;>
    cases h5 : checkError a.maxmsg <;>
    simp [setupCalls, runCalls, Outcome.map, Outcome.bind, h1, h2, h3, h4, h5, hb]

theorem program_failedInSetup {ε : Type} (calls : List (Call × Outcome Unit))
    (rest : Option (List ε × Status)) (h : (runCalls calls).2 = false) :
    ∃ r, program calls rest = some r ∧ r.failedInSetup := by
  unfold program
  split
  next made heq =>
    rw [heq] at h
    simp at h
  next made heq =>
    refine ⟨_, rfl, rfl, by simp, ?_⟩
    intro e he x
    simp only [List.mem_append, List.mem_map, List.mem_singleton] at he
    rcases he with ⟨c, _, rfl⟩ | rfl <;> simp

/-- C16: in `main` of the five coordinator programs, whatever the other
answers and parameters, a negative status of `zmq_bind` ends the run in
`exit(EXIT_FAILURE)` with no thread created and no message sent; when the
calls before the bind succeed the calls made are exactly those of the set
up. `checkError` returns its argument exactly when the status is not negative
(the pointer is not null) and ends the process otherwise. -/
theorem C16_bind_failure (a : SetupAnswers) (hbind : a.bind < 0) :
    (∀ fuel n k polls released,
        ∃ r, pushProgram a fuel n k polls released = some r ∧ r.failedInSetup)
      ∧ (∀ fuel n k polls released,
          ∃ r, pubsubProgram a fuel n k polls released = some r ∧ r.failedInSetup)
      ∧ (∀ fuel n m polls released joined,
          ∃ r, demoPushProgram a fuel n m polls released joined = some r ∧ r.failedInSetup)
      ∧ (∀ fuel n m joined,
          ∃ r, demoPubsubProgram a fuel n m joined = some r ∧ r.failedInSetup)
      ∧ (∀ fuel n m requests joined,
          ∃ r, reqrepProgram a fuel n m requests joined = some r ∧ r.failedInSetup)
      ∧ (a.ctx ≠ 0 → a.sock ≠ 0 →
          (runCalls (setupCalls false a)).1 = [Call.ctxNew, Call.socket, Call.bind]
            ∧ (0 ≤ a.sndbuf → 0 ≤ a.rcvbuf → 0 ≤ a.maxmsg →
              (runCalls (setupCalls true a)).1
                = [Call.ctxNew, Call.socket, Call.setsockopt, Call.setsockopt,
                    Call.setsockopt, Call.bind]))
      ∧ (∀ status : Int, (checkError status = Outcome.ret status ↔ 0 ≤ status)
          ∧ (checkError status = Outcome.fatal ↔ status < 0))
      ∧ (∀ p : Nat, (checkErrorAddr p = Outcome.ret p ↔ p ≠ 0)
          ∧ (checkErrorAddr p = Outcome.fatal ↔ p = 0)) := by
  have ht := runCalls_bind_fails true a hbind
  have hf := runCalls_bind_fails false a hbind
  refine ⟨?_, ?_, ?_, ?_, ?_, ?_, ?_, ?_⟩
  · intro fuel n k polls released
    exact program_failedInSetup _ _ ht
  · intro fuel n k polls released
    exact program_failedInSetup _ _ ht
  · intro fuel n m polls released joined
    exact program_failedInSetup _ _ hf
  · intro fuel n m joined
    exact program_failedInSetup _ _ hf
  · intro fuel n m requests joined
    exact program_failedInSetup _ _ hf
  · intro hc hs
    have hb : checkError a.bind = Outcome.fatal := by simp [checkError, hbind]
    refine ⟨by simp [setupCalls, runCalls, checkErrorAddr, hc, hs, hb, Outcome.map,
      Outcome.bind], ?_⟩
    intro h1 h2 h3
    have h1' : ¬ a.sndbuf < 0 := by omega
    have h2' : ¬ a.rcvbuf < 0 := by omega
    have h3' : ¬ a.maxmsg < 0 := by omega
    simp [setupCalls, runCalls, checkErrorAddr, checkError, hc, hs, hbind, h1', h2', h3',
      Outcome.map, Outcome.bind]
  · intro status
    by_cases h : status < 0
    · simp [checkError, h]
    · simp [checkError, h]
      omega
  · intro p
    by_cases h : p = 0 <;> simp [checkErrorAddr, h]

/-- C16 on `main` of `push.cpp` with a bind that fails: the calls are
`zmq_ctx_new`, `zmq_socket`, `zmq_bind`, then the exit; with a bind that
succeeds the first call after the set up creates a puller. -/
theorem C16_bind_failure_witness :
    (∃ r, demoPushProgram ⟨1, 2, 0, 0, 0, -1⟩ 5 2 3 [true] true true = some r
        ∧ r.failedInSetup)
      ∧ (demoPushProgram ⟨1, 2, 0, 0, 0, -1⟩ 5 2 3 [true] true true).map (fun r => r.trace)
          = some [PEvent.call Call.ctxNew, PEvent.call Call.socket, PEvent.call Call.bind,
              PEvent.exitFailure]
      ∧ (demoPushProgram ⟨1, 2, 0, 0, 0, 0⟩ 5 1 0 [true] true true).map
          (fun r => r.trace.take 5)
          = some [PEvent.call Call.ctxNew, PEvent.call Call.socket, PEvent.call Call.bind,
              PEvent.body (DEvent.spawn 0), PEvent.body (DEvent.tryWait true)] :=
  ⟨(C16_bind_failure ⟨1, 2, 0, 0, 0, -1⟩ (by decide)).2.2.1 5 2 3 [true] true true,
   by decide, by decide⟩

/-! ### The pullers of `push.cpp` close after the pusher stops sending (C18) -/

theorem demo_deliverFrom_length (m : List Nat) (dest : List Nat) :
    ∀ (ps : List DemoPush.Puller) (k : Nat),
      (DemoPush.deliverFrom m dest k ps).length = ps.length
  | [], _ => rfl
  | p :: ps, k => by
    simp [DemoPush.deliverFrom, demo_deliverFrom_length m dest ps (k + 1)]

theorem demo_deliverFrom_countP (m : List Nat) (dest : List Nat)
    (q : DemoPush.PullerPc → Bool) :
    ∀ (ps : List DemoPush.Puller) (k : Nat),
      (DemoPush.deliverFrom m dest k ps).countP (fun p => q p.pc)
        = ps.countP (fun p => q p.pc)
  | [], _ => rfl
  | p :: ps, k => by
    have ih := demo_deliverFrom_countP m dest q ps (k + 1)
    by_cases h : k ∈ dest <;> simp [DemoPush.deliverFrom, List.countP_cons, h, ih]

theorem demo_deliverFrom_mem (m : List Nat) (dest : List Nat) :
    ∀ (ps : List DemoPush.Puller) (k : Nat) (p : DemoPush.Puller),
      p ∈ DemoPush.deliverFrom m dest k ps → ∃ v ∈ ps, v.pc = p.pc
  | [], _, p, h => by simp [DemoPush.deliverFrom] at h
  | v :: ps, k, p, h => by
    simp only [DemoPush.deliverFrom, List.mem_cons] at h
    rcases h with h | h
    · refine ⟨v, List.mem_cons_self _ _, ?_⟩
      by_cases hk : k ∈ dest <;> simp [hk] at h <;> simp [h]
    · obtain ⟨u, hu, hpc⟩ := demo_deliverFrom_mem m dest ps (k + 1) p h
      exact ⟨u, List.mem_cons_of_mem _ hu, hpc⟩

theorem demo_inv_init (cfg : DemoPush.Config) : DemoPush.Inv cfg (DemoPush.init cfg) := by
  constructor <;> simp [DemoPush.init, Latch.mk0, DemoPush.PusherPc.arrived]

theorem demo_inv_deliver (cfg : DemoPush.Config) (s : DemoPush.State) (m : List Nat)
    (dest : List Nat) (pc : DemoPush.PusherPc) (x : Int)
    (hpc : pc.arrived = s.mainPc.arrived) (h : DemoPush.Inv cfg s) :
    DemoPush.Inv cfg
      { s with mainPc := pc, i := x, pullers := DemoPush.deliverFrom m dest 0 s.pullers } := by
  obtain ⟨h1, h2, h3⟩ := h
  refine ⟨?_, ?_, ?_⟩
  · simpa [demo_deliverFrom_length] using h1
  · simpa [demo_deliverFrom_countP, hpc] using h2
  · intro p hp hc
    obtain ⟨v, hv, hvp⟩ := demo_deliverFrom_mem m dest _ _ p hp
    exact h3 v hv (hvp ▸ hc)

theorem demo_inv_pusherStep (cfg : DemoPush.Config) (dest : List Nat) (s s' : DemoPush.State)
    (h : DemoPush.Inv cfg s) (hs : DemoPush.pusherStep cfg dest s = some s') :
    DemoPush.Inv cfg s' := by
  have hA : s.pullers.countP (fun p => p.pc.arrived) ≤ s.pullers.length :=
    List.countP_le_length _
  obtain ⟨h1, h2, h3⟩ := h
  cases hm : s.mainPc
  case spawn =>
    simp only [DemoPush.pusherStep, hm] at hs
    split at hs
    · simp only [Option.some.injEq] at hs
      subst hs
      refine ⟨by simp; omega, ?_, ?_⟩
      · simpa [DemoPush.PullerPc.arrived, hm] using h2
      · intro p hp hc
        simp only [List.mem_append, List.mem_singleton] at hp
        rcases hp with hp | rfl
        · exact h3 p hp hc
        · simp [DemoPush.PullerPc.closing] at hc
    · simp only [Option.some.injEq] at hs
      subst hs
      exact ⟨h1, by simpa [hm, DemoPush.PusherPc.arrived] using h2, h3⟩
  case push =>
    simp only [DemoPush.pusherStep, hm] at hs
    split at hs
    · simp only [Option.some.injEq] at hs
      subst hs
      have := demo_inv_deliver cfg s (bytes ("Push number " ++ toString s.i)) dest
        DemoPush.PusherPc.push (wrapInt (s.i + 1)) (by simp [hm]) ⟨h1, h2, h3⟩
      simpa [hm] using this
    · simp only [Option.some.injEq] at hs
      subst hs
      exact ⟨h1, by simpa [hm, DemoPush.PusherPc.arrived] using h2, h3⟩
  case pollExit =>
    simp only [DemoPush.pusherStep, hm] at hs
    split at hs <;>
      (simp only [Option.some.injEq] at hs
       subst hs
       exact ⟨h1, by simpa [hm, DemoPush.PusherPc.arrived] using h2, h3⟩)
  case sendExit =>
    simp only [DemoPush.pusherStep, hm, Option.some.injEq] at hs
    subst hs
    have := demo_inv_deliver cfg s (bytes "EXIT") dest DemoPush.PusherPc.pollExit s.i
      (by simp [hm, DemoPush.PusherPc.arrived]) ⟨h1, h2, h3⟩
    simpa using this
  case arriveDone =>
    simp only [DemoPush.pusherStep, hm, Option.some.injEq] at hs
    subst hs
    simp only [hm, DemoPush.PusherPc.arrived, Bool.false_eq_true, if_false] at h2
    refine ⟨h1, ?_, ?_⟩
    · simp only [DemoPush.PusherPc.arrived, Latch.count_down, if_true]
      omega
    · intro p hp hc
      have := h3 p hp hc
      omega
  case waitDone =>
    simp only [DemoPush.pusherStep, hm] at hs
    split at hs
    · simp only [Option.some.injEq] at hs
      subst hs
      exact ⟨h1, by simpa [hm, DemoPush.PusherPc.arrived] using h2, h3⟩
    · simp at hs
  case join =>
    simp only [DemoPush.pusherStep, hm] at hs
    split at hs
    · simp only [Option.some.injEq] at hs
      subst hs
      exact ⟨h1, by simpa [hm, DemoPush.PusherPc.arrived] using h2, h3⟩
    · simp at hs
  case closeSock =>
    simp only [DemoPush.pusherStep, hm, Option.some.injEq] at hs
    subst hs
    exact ⟨h1, by simpa [hm, DemoPush.PusherPc.arrived] using h2, h3⟩
  case term =>
    simp only [DemoPush.pusherStep, hm, Option.some.injEq] at hs
    subst hs
    exact ⟨h1, by simpa [hm, DemoPush.PusherPc.arrived] using h2, h3⟩
  case finished =>
    simp [DemoPush.pusherStep, hm] at hs

theorem demo_inv_frame (cfg : DemoPush.Config) (s : DemoPush.State) (k : Nat)
    (p p' : DemoPush.Puller) (e : Latch) (h : DemoPush.Inv cfg s)
    (hk : s.pullers[k]? = some p) (harr : p'.pc.arrived = p.pc.arrived)
    (hcl : p'.pc.closing = true → p.pc.closing = true ∨ s.donelatch.counter = 0) :
    DemoPush.Inv cfg { s with exitlatch := e, pullers := s.pullers.set k p' } := by
  have hA := countP_set_balance (fun v : DemoPush.Puller => v.pc.arrived) s.pullers k p p' hk
  have hmem : p ∈ s.pullers := List.getElem?_mem hk
  obtain ⟨h1, h2, h3⟩ := h
  simp only [harr] at hA
  refine ⟨by simpa using h1, ?_, ?_⟩
  · show s.donelatch.counter = _
    rw [h2]
    have : (s.pullers.set k p').countP (fun v => v.pc.arrived)
        = s.pullers.countP (fun v => v.pc.arrived) := by omega
    simp only [this]
  · intro q hq hc
    rcases List.mem_or_eq_of_mem_set hq with hq | rfl
    · exact h3 q hq hc
    · rcases hcl hc with hpc | h0
      · exact h3 p hmem hpc
      · exact h0

theorem demo_inv_arrive (cfg : DemoPush.Config) (s : DemoPush.State) (k : Nat)
    (p p' : DemoPush.Puller) (h : DemoPush.Inv cfg s) (hk : s.pullers[k]? = some p)
    (hpc : p.pc = DemoPush.PullerPc.arriveDone) (hpc' : p'.pc = DemoPush.PullerPc.waitDone) :
    DemoPush.Inv cfg
      { s with donelatch := s.donelatch.count_down, pullers := s.pullers.set k p' } := by
  have hA := countP_set_balance (fun v : DemoPush.Puller => v.pc.arrived) s.pullers k p p' hk
  have hle : (s.pullers.set k p').countP (fun v => v.pc.arrived) ≤ (s.pullers.set k p').length :=
    List.countP_le_length _
  obtain ⟨h1, h2, h3⟩ := h
  have e1 : p.pc.arrived = false := by rw [hpc]; rfl
  have e2 : p'.pc.arrived = true := by rw [hpc']; rfl
  simp only [e1, e2, List.length_set, if_true, Bool.false_eq_true, if_false,
    Nat.add_zero] at hA hle
  have hpos : s.donelatch.counter ≥ 1 := by
    split at h2 <;> omega
  refine ⟨by simpa using h1, ?_, ?_⟩
  · show (s.donelatch.count_down).counter = _
    simp only [Latch.count_down]
    rw [h2, hA]
    push_cast
    omega
  · intro q hq hc
    rcases List.mem_or_eq_of_mem_set hq with hq | rfl
    · have := h3 q hq hc
      omega
    · simp [hpc', DemoPush.PullerPc.closing] at hc

theorem demo_inv_pullerStep (cfg : DemoPush.Config) (s : DemoPush.State) (k : Nat)
    (p p' : DemoPush.Puller) (e d : Latch) (h : DemoPush.Inv cfg s)
    (hk : s.pullers[k]? = some p)
    (hp : DemoPush.pullerStep s.exitlatch s.donelatch p = some (p', e, d)) :
    DemoPush.Inv cfg { s with exitlatch := e, donelatch := d, pullers := s.pullers.set k p' } := by
  cases hpc : p.pc
  case arriveDone =>
    simp only [DemoPush.pullerStep, hpc, Option.some.injEq, Prod.mk.injEq] at hp
    obtain ⟨rfl, rfl, rfl⟩ := hp
    exact demo_inv_arrive cfg s k p _ h hk hpc rfl
  case waitDone =>
    simp only [DemoPush.pullerStep, hpc] at hp
    split at hp
    next hw =>
      simp only [Option.some.injEq, Prod.mk.injEq] at hp
      obtain ⟨rfl, rfl, rfl⟩ := hp
      have h0 : s.donelatch.counter = 0 := by simpa [Latch.try_wait] using hw
      exact demo_inv_frame cfg s k p _ _ h hk (by simp [hpc, DemoPush.PullerPc.arrived])
        (fun _ => Or.inr h0)
    next => simp at hp
  case closed => simp [DemoPush.pullerStep, hpc] at hp
  all_goals
    simp only [DemoPush.pullerStep, hpc] at hp
    (try split at hp) <;> (try split at hp) <;> first
      | (simp only [Option.some.injEq, Prod.mk.injEq] at hp
         obtain ⟨rfl, rfl, rfl⟩ := hp
         exact demo_inv_frame cfg s k p _ _ h hk (by simp [hpc, DemoPush.PullerPc.arrived])
           (by simp [hpc, DemoPush.PullerPc.closing]))
      | simp at hp

theorem demo_inv_reachable (cfg : DemoPush.Config) (s : DemoPush.State)
    (h : DemoPush.Reachable cfg s) : DemoPush.Inv cfg s := by
  obtain ⟨sched, hs⟩ := h
  have key : ∀ (sched : List DemoPush.Move) (t t' : DemoPush.State), DemoPush.Inv cfg t →
      DemoPush.run cfg t sched = some t' → DemoPush.Inv cfg t' := by
    intro sched
    induction sched with
    | nil =>
      intro t t' ht hr
      simp only [DemoPush.run, Option.some.injEq] at hr
      exact hr ▸ ht
    | cons a rest ih =>
      intro t t' ht hr
      simp only [DemoPush.run] at hr
      split at hr
      next => simp at hr
      next u hu =>
        refine ih u t' ?_ hr
        cases a with
        | main dest => exact demo_inv_pusherStep cfg dest t u ht hu
        | puller k =>
          simp only [DemoPush.step] at hu
          split at hu
          next => simp at hu
          next p hk =>
            split at hu
            next => simp at hu
            next p' e d hp =>
              simp only [Option.some.injEq] at hu
              subst hu
              exact demo_inv_pullerStep cfg t k p p' e d ht hk hp
  exact key sched (DemoPush.init cfg) s (demo_inv_init cfg) hs

/-- C18: in every reachable state of a run of `push.cpp`, a puller that is
at the close of its socket or has executed it implies that the latch of size
pullers+1 is complete and that the pusher has arrived at it, hence has left
its EXIT-sending loop; so while the pusher has not arrived at the second
latch, in particular while it is sending, no puller has closed its
socket. -/
theorem C18_pullers_close_after_pusher (cfg : DemoPush.Config) (s : DemoPush.State)
    (h : DemoPush.Reachable cfg s) :
    ((∃ p ∈ s.pullers, p.pc.closing = true) →
        s.donelatch.try_wait = true ∧ s.mainPc.arrived = true ∧ s.mainPc.sending = false)
      ∧ (s.mainPc.arrived = false → ∀ p ∈ s.pullers,
          p.pc ≠ DemoPush.PullerPc.close ∧ p.pc ≠ DemoPush.PullerPc.closed)
      ∧ (s.mainPc.sending = true → s.mainPc.arrived = false) := by
  have hinv := demo_inv_reachable cfg s h
  have hA : s.pullers.countP (fun p => p.pc.arrived) ≤ s.pullers.length :=
    List.countP_le_length _
  have key : (∃ p ∈ s.pullers, p.pc.closing = true) →
      s.donelatch.counter = 0 ∧ s.mainPc.arrived = true := by
    rintro ⟨p, hp, hc⟩
    have h0 := hinv.p_rel p hp hc
    have h2 := hinv.done_eq
    have h1 := hinv.len
    refine ⟨h0, ?_⟩
    rw [h0] at h2
    cases hm : s.mainPc.arrived
    · simp only [hm, Bool.false_eq_true, if_false] at h2
      omega
    · rfl
  refine ⟨?_, ?_, ?_⟩
  · intro hex
    obtain ⟨h0, hm⟩ := key hex
    refine ⟨by simp [Latch.try_wait, h0], hm, ?_⟩
    cases hpc : s.mainPc <;> simp [hpc, DemoPush.PusherPc.arrived, DemoPush.PusherPc.sending] at hm ⊢
  · intro hm p hp
    have hnc : p.pc.closing = false := by
      cases hc : p.pc.closing
      · rfl
      · have := (key ⟨p, hp, hc⟩).2
        rw [hm] at this
        cases this
    cases hpc : p.pc <;> simp [hpc, DemoPush.PullerPc.closing] at hnc ⊢
  · intro hsend
    cases hpc : s.mainPc <;>
      simp [hpc, DemoPush.PusherPc.arrived, DemoPush.PusherPc.sending] at hsend ⊢

/-- C18 on the schedule `scheduleToClose`: the puller has closed its socket,
the second latch is complete and the pusher waits past its arrival. -/
theorem C18_pullers_close_after_pusher_witness :
    DemoPush.run DemoPush.sampleCfg (DemoPush.init DemoPush.sampleCfg)
        DemoPush.scheduleToClose
        = some ⟨⟨0⟩, ⟨0⟩, DemoPush.PusherPc.waitDone, 0, [⟨DemoPush.PullerPc.closed, []⟩]⟩
      ∧ (⟨0⟩ : Latch).try_wait = true
      ∧ DemoPush.PusherPc.waitDone.arrived = true
      ∧ DemoPush.PusherPc.waitDone.sending = false :=
  ⟨by decide,
   (C18_pullers_close_after_pusher DemoPush.sampleCfg
      ⟨⟨0⟩, ⟨0⟩, DemoPush.PusherPc.waitDone, 0, [⟨DemoPush.PullerPc.closed, []⟩]⟩
      ⟨DemoPush.scheduleToClose, by decide⟩).1
     ⟨⟨DemoPush.PullerPc.closed, []⟩, by decide, by decide⟩⟩

/-! ### The timed interval (C21) -/

theorem signalRounds_timed : ∀ (k : Nat), ∀ e ∈ signalRounds k, e.isTimed = true
  | 0 => by simp [signalRounds]
  | k + 1 => by
    have ih := signalRounds_timed k
    intro e he
    simp only [signalRounds, List.mem_cons] at he
    rcases he with rfl | rfl | he
    · rfl
    · rfl
    · exact ih e he

theorem signalLoop_timed (polls : List Bool) (sent : Int) :
    ∀ e ∈ (signalLoop polls sent).1, e.isTimed = true := by
  rw [(signalLoop_trace polls sent).1]
  intro e he
  rcases List.mem_append.mp he with he | he
  · exact signalRounds_timed _ e he
  · split at he
    · simp only [List.mem_singleton] at he
      subst he
      rfl
    · simp at he

theorem signalLoop_last (polls : List Bool) (sent : Int)
    (h : (signalLoop polls sent).2.2 = true) :
    (signalLoop polls sent).1.getLast? = some (MEvent.tryWait true) := by
  obtain ⟨h1, h2⟩ := signalLoop_trace polls sent
  rw [h] at h2
  have hk : unsatisfiedPolls polls < polls.length := by simpa using h2.symm
  rw [h1, if_pos hk, List.getLast?_concat]

theorem sends_of_timed_free : ∀ (t : List MEvent), (∀ e ∈ t, e.isTimed = false) →
    sends t = []
  | [], _ => rfl
  | e :: t, h => by
    have he := h e (List.mem_cons_self _ _)
    have ih := sends_of_timed_free t (fun x hx => h x (List.mem_cons_of_mem _ hx))
    cases e <;> simp [MEvent.isTimed] at he <;> simp [sends, ih]

/-- C21: in every run of `main` of either timing program, the start instant
is taken once, after the thread creations and before every send; the end
instant is taken at most once, right after the poll that found the done latch
satisfied; every send and the start lie before it and no teardown call does;
after it come the arrival at the exit latch and then the closes, with no
send; and a run that returns has taken it. -/
theorem C21_timed_interval (v : Variant) (fuel : Nat) (n : Int) (numclients : Nat)
    (polls : List Bool) (released : Bool) (r : MainRun)
    (h : timedMain v fuel n numclients polls released = some r) :
    (∀ pre post, r.trace = pre ++ MEvent.start :: post →
        pre = List.replicate numclients MEvent.spawn ∧ sends pre = []
          ∧ MEvent.start ∉ post)
      ∧ MEvent.start ∈ r.trace
      ∧ (∀ pre post, r.trace = pre ++ MEvent.stop :: post →
          sends post = [] ∧ sends pre = sends r.trace
            ∧ pre.getLast? = some (MEvent.tryWait true)
            ∧ MEvent.start ∈ pre
            ∧ (∀ e ∈ pre, e.isTeardown = false)
            ∧ MEvent.stop ∉ pre ∧ MEvent.stop ∉ post
            ∧ post.head? = some MEvent.arriveAndWait
            ∧ (∀ e ∈ post, e.isTeardown = true)
            ∧ (r.status = Status.finished → MEvent.close ∈ post ∧ MEvent.term ∈ post))
      ∧ (r.status = Status.finished → MEvent.stop ∈ r.trace) := by
  obtain ⟨d, sent, X, hX, hcase⟩ := timedMain_form v fuel n numclients polls released r h
  have hbody : ∀ e ∈ List.replicate d (MEvent.send ordinaryByte) ++ (signalLoop polls sent).1,
      e.isTimed = true := by
    intro e he
    rcases List.mem_append.mp he with he | he
    · rw [List.eq_of_mem_replicate he]
      rfl
    · exact signalLoop_timed polls sent e he
  have hXmem : ∀ e ∈ X, e = MEvent.spawn ∨ e = MEvent.start ∨ e.isTimed = true := by
    intro e he
    rw [hX] at he
    simp only [List.append_assoc, List.mem_append, List.mem_cons] at he
    rcases he with he | (rfl | he) | he
    · exact Or.inl (List.eq_of_mem_replicate he)
    · exact Or.inr (Or.inl rfl)
    · exact Or.inr (Or.inr (hbody e (List.mem_append_left _ he)))
    · exact Or.inr (Or.inr (hbody e (List.mem_append_right _ he)))
  have hXstop : MEvent.stop ∉ X := by
    intro he
    rcases hXmem _ he with h1 | h1 | h1 <;> simp [MEvent.isTimed] at h1
  have hXtear : ∀ e ∈ X, e.isTeardown = false := by
    intro e he
    rcases hXmem e he with rfl | rfl | h1
    · rfl
    · rfl
    · cases e <;> simp [MEvent.isTimed] at h1 <;> rfl
  have hXstart : MEvent.start ∈ X := by
    rw [hX]
    simp
  have htail : ∀ (T : List MEvent) (s : Int),
      (T = afterSignal v numclients s ∨ T = [MEvent.stop, MEvent.arriveAndWait]) →
      ∃ T', T = MEvent.stop :: T' ∧ MEvent.stop ∉ T' ∧ sends T' = []
        ∧ T'.head? = some MEvent.arriveAndWait ∧ (∀ e ∈ T', e.isTeardown = true)
        ∧ MEvent.start ∉ T'
        ∧ (T = afterSignal v numclients s → MEvent.close ∈ T' ∧ MEvent.term ∈ T') := by
    intro T s hT
    rcases hT with rfl | rfl
    · cases v
      · refine ⟨[MEvent.arriveAndWait, MEvent.close, MEvent.term]
            ++ List.replicate numclients MEvent.join ++ [MEvent.report s], rfl, ?_, ?_, rfl,
            ?_, ?_, ?_⟩
        · simp [List.mem_replicate]
        · simp [sends_append, sends, sends_replicate_of_not_send MEvent.join rfl]
        · intro e he
          simp only [List.mem_cons, List.mem_append, List.mem_replicate, List.mem_singleton,
            List.not_mem_nil, or_false] at he
          rcases he with ((rfl | rfl | rfl) | ⟨_, rfl⟩) | rfl <;> rfl
        · simp [List.mem_replicate]
        · intro _
          simp
      · refine ⟨[MEvent.arriveAndWait] ++ List.replicate numclients MEvent.join
            ++ [MEvent.close, MEvent.term, MEvent.report s], rfl, ?_, ?_, rfl, ?_, ?_, ?_⟩
        · simp [List.mem_replicate]
        · simp [sends_append, sends, sends_replicate_of_not_send MEvent.join rfl]
        · intro e he
          simp only [List.mem_cons, List.mem_append, List.mem_replicate, List.mem_singleton,
            List.not_mem_nil, or_false] at he
          rcases he with (rfl | ⟨_, rfl⟩) | rfl | rfl | rfl <;> rfl
        · simp [List.mem_replicate]
        · intro _
          simp
    · exact ⟨[MEvent.arriveAndWait], rfl, by simp, rfl, rfl, by simp [MEvent.isTeardown],
        by simp, by
          intro hEq
          cases v <;> simp [afterSignal] at hEq⟩
  have hsendsX : ∀ (T : List MEvent), sends T = [] → sends (X ++ MEvent.stop :: T) = sends X := by
    intro T hT
    rw [sends_append]
    simp [sends, hT]
  have hstart : ∀ (T : List MEvent), MEvent.start ∉ T → ∀ pre post,
      X ++ T = pre ++ MEvent.start :: post →
      pre = List.replicate numclients MEvent.spawn ∧ sends pre = [] ∧ MEvent.start ∉ post := by
    intro T hT pre post hsplit
    have hnot1 : MEvent.start ∉ List.replicate numclients MEvent.spawn := by
      simp [List.mem_replicate]
    have hnot2 : MEvent.start ∉ List.replicate d (MEvent.send ordinaryByte)
        ++ (signalLoop polls sent).1 ++ T := by
      intro hm
      rcases List.mem_append.mp hm with hm | hm
      · have := hbody _ hm
        simp [MEvent.isTimed] at this
      · exact hT hm
    rw [hX] at hsplit
    have hsplit' : List.replicate numclients MEvent.spawn ++ MEvent.start
        :: (List.replicate d (MEvent.send ordinaryByte) ++ (signalLoop polls sent).1 ++ T)
        = pre ++ MEvent.start :: post := by
      simpa using hsplit
    obtain ⟨h1, -, h3⟩ := (List.append_cons_inj_of_not_mem hnot1 hnot2).mp hsplit'
    refine ⟨h1.symm, ?_, h3 ▸ hnot2⟩
    rw [← h1]
    exact sends_replicate_of_not_send MEvent.spawn rfl numclients
  have hsig : ∀ s' : Int, (signalLoop polls sent).2.2 = true →
      X.getLast? = some (MEvent.tryWait true) := by
    intro _ hx
    have hl := signalLoop_last polls sent hx
    rw [hX, List.getLast?_append, hl]
    rfl
  have hstopcase : ∀ (T : List MEvent) (s : Int), (signalLoop polls sent).2.2 = true →
      (T = afterSignal v numclients s ∨ T = [MEvent.stop, MEvent.arriveAndWait]) →
      ∀ pre post, X ++ T = pre ++ MEvent.stop :: post →
        sends post = [] ∧ sends pre = sends (X ++ T)
          ∧ pre.getLast? = some (MEvent.tryWait true)
          ∧ MEvent.start ∈ pre
          ∧ (∀ e ∈ pre, e.isTeardown = false)
          ∧ MEvent.stop ∉ pre ∧ MEvent.stop ∉ post
          ∧ post.head? = some MEvent.arriveAndWait
          ∧ (∀ e ∈ post, e.isTeardown = true)
          ∧ (T = afterSignal v numclients s → MEvent.close ∈ post ∧ MEvent.term ∈ post) := by
    intro T s hx hT pre post hsplit
    obtain ⟨T', rfl, h1, h2, h3, h4, _, h6⟩ := htail T s hT
    obtain ⟨hpre, -, hpost⟩ := (List.append_cons_inj_of_not_mem hXstop h1).mp hsplit
    subst hpre
    subst hpost
    exact ⟨h2, (hsendsX T' h2).symm, hsig 0 hx, hXstart, hXtear, hXstop, h1, h3, h4, h6⟩
  rcases hcase with ⟨hx, _, rfl⟩ | ⟨hx, _, rfl⟩ | ⟨hx, rfl⟩
  · obtain ⟨T', hT', _, _, _, _, hs', _⟩ :=
      htail (afterSignal v numclients (signalLoop polls sent).2.1) _ (Or.inl rfl)
    refine ⟨?_, ?_, ?_, ?_⟩
    · exact hstart _ (by
        rw [hT']
        simpa using hs')
    · exact List.mem_append_left _ hXstart
    · intro pre post hsplit
      obtain ⟨a1, a2, a3, a4, a5, a6, a7, a8, a9, a10⟩ :=
        hstopcase _ _ hx (Or.inl rfl) pre post hsplit
      exact ⟨a1, a2, a3, a4, a5, a6, a7, a8, a9, fun _ => a10 rfl⟩
    · intro _
      rw [hT']
      simp
  · refine ⟨?_, ?_, ?_, ?_⟩
    · exact hstart _ (by simp)
    · exact List.mem_append_left _ hXstart
    · intro pre post hsplit
      obtain ⟨a1, a2, a3, a4, a5, a6, a7, a8, a9, _⟩ :=
        hstopcase _ 0 hx (Or.inr rfl) pre post hsplit
      exact ⟨a1, a2, a3, a4, a5, a6, a7, a8, a9, fun hst => by simp at hst⟩
    · intro hst
      simp at hst
  · refine ⟨?_, hXstart, ?_, ?_⟩
    · intro pre post hsplit
      exact hstart [] (by simp) pre post (by simpa using hsplit)
    · intro pre post hsplit
      exfalso
      apply hXstop
      show MEvent.stop ∈ X
      have : X = pre ++ MEvent.stop :: post := hsplit
      rw [this]
      simp
    · intro hst
      simp at hst

/-- C21 on a push run with two ordinary messages and one done message. -/
theorem C21_timed_interval_witness :
    timedMain Variant.push 2 2 1 [false, true] true
        = some ⟨[MEvent.spawn, MEvent.start, MEvent.send 0, MEvent.send 0]
              ++ MEvent.tryWait false :: MEvent.send 255 :: MEvent.tryWait true
              :: MEvent.stop
              :: [MEvent.arriveAndWait, MEvent.close, MEvent.term, MEvent.join,
                  MEvent.report 3], 3, Status.finished⟩
      ∧ sends [MEvent.arriveAndWait, MEvent.close, MEvent.term, MEvent.join,
          MEvent.report 3] = [] :=
  ⟨by decide,
   ((C21_timed_interval Variant.push 2 2 1 [false, true] true
      ⟨[MEvent.spawn, MEvent.start, MEvent.send 0, MEvent.send 0]
          ++ MEvent.tryWait false :: MEvent.send 255 :: MEvent.tryWait true
          :: MEvent.stop
          :: [MEvent.arriveAndWait, MEvent.close, MEvent.term, MEvent.join,
              MEvent.report 3], 3, Status.finished⟩ (by decide)).2.2.1
      ([MEvent.spawn, MEvent.start, MEvent.send 0, MEvent.send 0]
          ++ [MEvent.tryWait false, MEvent.send 255, MEvent.tryWait true])
      [MEvent.arriveAndWait, MEvent.close, MEvent.term, MEvent.join, MEvent.report 3]
      (by decide)).1⟩

/-! ### The replies of `replier` (C23) -/

theorem replyLoop_ordinary (f : Nat) (x : List Nat) (rest : List RecvOutcome)
    (hx : isOrdinary x = true) :
    replyLoop f (delivered x :: rest)
      = ((replyLoop f rest).cons (QEvent.send f)).cons QEvent.recv := by
  cases x with
  | nil => simp [isOrdinary] at hx
  | cons b x =>
    have hb : b % 256 = 0 := by simpa [isOrdinary] using hx
    simp [replyLoop, ignore_delivered, sawEnd, hb]

theorem replyLoop_sentinel (f : Nat) (m : List Nat) (later : List RecvOutcome)
    (hm : isSentinel m = true) :
    replyLoop f (delivered m :: later) = ⟨[QEvent.recv], Status.finished⟩ := by
  cases m with
  | nil => simp [isSentinel] at hm
  | cons b x =>
    have hb : ¬ (b % 256 = 0) := by simpa [isSentinel] using hm
    have hb' : sawEnd ((b % 256 : Nat) : Int) = true := by
      simp only [sawEnd, bne_iff_ne, ne_eq]
      exact_mod_cast hb
    simp only [replyLoop, ignore_delivered, hb', if_true]

theorem replyLoop_until_sentinel (f : Nat) (m : List Nat) (later : List RecvOutcome)
    (hm : isSentinel m = true) : ∀ (pre : List (List Nat)),
    (∀ x ∈ pre, isOrdinary x = true) →
    replyLoop f (pre.map delivered ++ delivered m :: later)
      = ⟨(List.replicate pre.length [QEvent.recv, QEvent.send f]).flatten ++ [QEvent.recv],
          Status.finished⟩
  | [], _ => by simpa using replyLoop_sentinel f m later hm
  | x :: pre, h => by
    have ih := replyLoop_until_sentinel f m later hm pre
      (fun y hy => h y (List.mem_cons_of_mem _ hy))
    have hx := h x (List.mem_cons_self _ _)
    simp only [List.map_cons, List.cons_append, replyLoop_ordinary f x _ hx, ih]
    simp [QRun.cons, List.replicate_succ]

/-- C23: when the requests delivered to `replier` are `k` messages with a
zero first byte followed by a message with a non-zero first byte, the replier
makes exactly `k + 1` rounds of one receive and one reply, the last round
being that of the terminating request, then closes its socket and returns; it
does not receive whatever follows the terminating request. -/
theorem C23_one_reply_per_request (f : Nat) (pre : List (List Nat)) (m : List Nat)
    (later : List RecvOutcome) (hpre : ∀ x ∈ pre, isOrdinary x = true)
    (hm : isSentinel m = true) :
    replier f (pre.map delivered ++ delivered m :: later)
        = ⟨(List.replicate (pre.length + 1) [QEvent.recv, QEvent.send f]).flatten
            ++ [QEvent.close], Status.finished⟩
      ∧ (replier f (pre.map delivered ++ delivered m :: later)).trace.count (QEvent.send f)
          = pre.length + 1
      ∧ (replier f (pre.map delivered ++ delivered m :: later)).trace.count QEvent.recv
          = pre.length + 1
      ∧ (pre ++ m :: []).takeWhile isOrdinary = pre := by
  have hrun : replier f (pre.map delivered ++ delivered m :: later)
      = ⟨(List.replicate (pre.length + 1) [QEvent.recv, QEvent.send f]).flatten
          ++ [QEvent.close], Status.finished⟩ := by
    simp only [replier, replyLoop_until_sentinel f m later hm pre hpre]
    simp [List.replicate_succ']
  have hcount : ∀ (k : Nat) (e : QEvent),
      ((List.replicate k [QEvent.recv, QEvent.send f]).flatten ++ [QEvent.close]).count e
        = k * [QEvent.recv, QEvent.send f].count e + [QEvent.close].count e := by
    intro k e
    induction k with
    | zero => simp
    | succ k ih =>
      simp only [List.replicate_succ, List.flatten_cons, List.append_assoc, List.count_append]
        at ih ⊢
      rw [ih]
      ring
  have hm' : isOrdinary m = false := by
    cases m with
    | nil => rfl
    | cons b x =>
      have hb : ¬ (b % 256 = 0) := by simpa [isSentinel] using hm
      simp [isOrdinary, hb]
  refine ⟨hrun, ?_, ?_, ?_⟩
  · rw [hrun]
    simp only [hcount]
    simp [List.count_cons]
  · rw [hrun]
    simp only [hcount]
    simp [List.count_cons]
  · rw [List.takeWhile_append_of_pos hpre]
    simp [List.takeWhile, hm']

/-- C23 on two ordinary requests, the terminating request and one more. -/
theorem C23_one_reply_per_request_witness :
    replier 1 ([[0], [0, 5]].map delivered ++ delivered [255] :: [delivered [0]])
      = ⟨[QEvent.recv, QEvent.send 1, QEvent.recv, QEvent.send 1, QEvent.recv, QEvent.send 1,
          QEvent.close], Status.finished⟩ :=
  (C23_one_reply_per_request 1 [[0], [0, 5]] [255] [delivered [0]] (by decide)
    (by decide)).1

/-! ### Subscriptions and publications of `pubsub.cpp` (C25, C26, C27) -/

theorem bytes_append (a b : String) : bytes (a ++ b) = bytes a ++ bytes b := by
  simp [bytes]

theorem subscription_of_nonneg (id : Int) (hid : 0 ≤ id) :
    subscription id
      = some (if id % 3 = 0 then "" else if id % 3 = 1 then "ODD" else "EVEN") := by
  have ht : id.tmod 3 = id % 3 := Int.tmod_eq_emod hid (by decide)
  have h3 : id % 3 = 0 ∨ id % 3 = 1 ∨ id % 3 = 2 := by omega
  rcases h3 with h | h | h <;> simp [subscription, subscriptions, ht, h]

theorem tmod_two_eq_zero (i : Int) : i.tmod 2 = 0 ↔ i % 2 = 0 := by
  rw [← Int.dvd_iff_tmod_eq_zero]
  omega

theorem publication_even (i : Int) (h : i % 2 = 0) :
    bytes (publication i)
      = [69, 86, 69, 78, 32, 109, 101, 115, 115, 97, 103, 101, 32]
          ++ (bytes "number " ++ bytes (toString i)) := by
  have ht : i.tmod 2 = 0 := (tmod_two_eq_zero i).mpr h
  have hb : bytes ("EVEN" ++ " message number ")
      = [69, 86, 69, 78, 32, 109, 101, 115, 115, 97, 103, 101, 32] ++ bytes "number " := by
    decide
  simp only [publication, ht, if_true, bytes_append _ (toString i), hb, List.append_assoc]

theorem publication_odd (i : Int) (h : i % 2 = 1) :
    bytes (publication i)
      = [79, 68, 68, 32, 109, 101, 115, 115, 97, 103, 101, 32]
          ++ (bytes "number " ++ bytes (toString i)) := by
  have ht : ¬ (i.tmod 2 = 0) := by
    rw [tmod_two_eq_zero]
    omega
  have hb : bytes ("ODD" ++ " message number ")
      = [79, 68, 68, 32, 109, 101, 115, 115, 97, 103, 101, 32] ++ bytes "number " := by
    decide
  simp only [publication, ht, if_false, bytes_append _ (toString i), hb, List.append_assoc]

/-- C25: a subscriber `id ≥ 0` reads the table inside its bounds and
subscribes to the empty prefix, to "ODD" or to "EVEN" as `id % 3` is 0, 1 or
2; the `i`-th publication is "EVEN message number i" for even `i` and "ODD
message number i" for odd `i`; and the message published matches the
subscription exactly when `id % 3 = 0`, or `id % 3 = 1` and `i` is odd, or
`id % 3 = 2` and `i` is even. -/
theorem C25_subscription_matching (id i : Int) (hid : 0 ≤ id) :
    subscription id
        = some (if id % 3 = 0 then "" else if id % 3 = 1 then "ODD" else "EVEN")
      ∧ publication i
        = (if i % 2 = 0 then "EVEN message number " else "ODD message number ")
            ++ toString i
      ∧ ∃ sub, subscription id = some sub
          ∧ (matchesSubscription sub (cmessage (publication i)) = true
              ↔ (id % 3 = 0 ∨ (id % 3 = 1 ∧ i % 2 = 1) ∨ (id % 3 = 2 ∧ i % 2 = 0))) := by
  have hsub := subscription_of_nonneg id hid
  have h3 : id % 3 = 0 ∨ id % 3 = 1 ∨ id % 3 = 2 := by omega
  have h2 : i % 2 = 0 ∨ i % 2 = 1 := by omega
  refine ⟨hsub, ?_, _, hsub, ?_⟩
  · rcases h2 with h | h
    · have ht : i.tmod 2 = 0 := (tmod_two_eq_zero i).mpr h
      simp only [publication, ht, h, if_true]
      rfl
    · have ht : ¬ (i.tmod 2 = 0) := by
        rw [tmod_two_eq_zero]
        omega
      have hne : ¬ (i % 2 = 0) := by omega
      simp only [publication, ht, hne, if_false]
      rfl
  · have e1 : bytes "" = [] := by decide
    have e2 : bytes "ODD" = [79, 68, 68] := by decide
    have e3 : bytes "EVEN" = [69, 86, 69, 78] := by decide
    rcases h3 with h | h | h <;> rcases h2 with h' | h' <;>
      simp [h, h', matchesSubscription, cmessage, publication_even i, publication_odd i,
        e1, e2, e3, List.isPrefixOf]

/-- C25 on subscriber 4 and publication 3. -/
theorem C25_subscription_matching_witness :
    subscription 4 = some "ODD" ∧ publication 3 = "ODD message number 3"
      ∧ matchesSubscription "ODD" (cmessage (publication 3)) = true :=
  ⟨(C25_subscription_matching 4 3 (by decide)).1,
   by decide, by decide⟩

/-- C26: for every subscriber `id ≥ 0` one of the two termination messages
`main` sends begins with the subscriber's subscription and has "EXIT" as its
second word, so that the subscriber leaves its loop on receiving it. -/
theorem C26_termination_reaches_all (id : Int) (rest : List RecvOutcome) (hid : 0 ≤ id) :
    ∃ sub, subscription id = some sub ∧ ∃ m ∈ terminationMessages,
      matchesSubscription sub (cmessage m) = true
        ∧ (splitLine (bytes m))[1]? = some (bytes "EXIT")
        ∧ demoSubLoop (delivered (cmessage m) :: rest)
            = ⟨[WEvent.recv 0], 0, rest, Status.finished⟩ := by
  have hsub := subscription_of_nonneg id hid
  have h3 : id % 3 = 0 ∨ id % 3 = 1 ∨ id % 3 = 2 := by omega
  have hEven : demoSubLoop (delivered (cmessage "EVEN EXIT") :: rest)
      = ⟨[WEvent.recv 0], 0, rest, Status.finished⟩ :=
    demoSubLoop_exit (bytes "EVEN EXIT") rest (by decide) (by decide)
  have hOdd : demoSubLoop (delivered (cmessage "ODD EXIT") :: rest)
      = ⟨[WEvent.recv 0], 0, rest, Status.finished⟩ :=
    demoSubLoop_exit (bytes "ODD EXIT") rest (by decide) (by decide)
  rcases h3 with h | h | h
  · refine ⟨"", ?_, "EVEN EXIT", by decide, by decide, by decide, hEven⟩
    rw [hsub]
    simp [h]
  · refine ⟨"ODD", ?_, "ODD EXIT", by decide, by decide, by decide, hOdd⟩
    rw [hsub]
    simp [h]
  · refine ⟨"EVEN", ?_, "EVEN EXIT", by decide, by decide, by decide, hEven⟩
    rw [hsub]
    simp [h]

/-- C26 on subscriber 7, which subscribes to "ODD". -/
theorem C26_termination_reaches_all_witness :
    ∃ sub, subscription 7 = some sub ∧ ∃ m ∈ terminationMessages,
      matchesSubscription sub (cmessage m) = true
        ∧ (splitLine (bytes m))[1]? = some (bytes "EXIT")
        ∧ demoSubLoop (delivered (cmessage m) :: [delivered (cmessage "EVEN EXIT")])
            = ⟨[WEvent.recv 0], 0, [delivered (cmessage "EVEN EXIT")], Status.finished⟩ :=
  C26_termination_reaches_all 7 [delivered (cmessage "EVEN EXIT")] (by decide)

theorem digitChar_text (n : Nat) (h : n < 10) :
    0 < (Nat.digitChar n).toNat ∧ (Nat.digitChar n).toNat < 256 := by
  interval_cases n <;> decide

theorem toDigitsCore_text : ∀ (fuel n : Nat) (ds : List Char),
    (∀ c ∈ ds, 0 < c.toNat ∧ c.toNat < 256) →
    ∀ c ∈ Nat.toDigitsCore 10 fuel n ds, 0 < c.toNat ∧ c.toNat < 256
  | 0, _, ds, h => by simpa [Nat.toDigitsCore] using h
  | fuel + 1, n, ds, h => by
    have hd := digitChar_text (n % 10) (Nat.mod_lt _ (by decide))
    have hds : ∀ c ∈ Nat.digitChar (n % 10) :: ds, 0 < c.toNat ∧ c.toNat < 256 := by
      intro c hc
      rcases List.mem_cons.mp hc with rfl | hc
      · exact hd
      · exact h c hc
    unfold Nat.toDigitsCore
    simp only
    split
    · exact hds
    · exact toDigitsCore_text fuel (n / 10) _ hds

theorem repr_text (n : Nat) : isText (bytes (Nat.repr n)) := by
  intro b hb
  simp only [bytes, Nat.repr, List.asString, List.mem_map] at hb
  obtain ⟨c, hc, rfl⟩ := hb
  exact toDigitsCore_text _ _ [] (by simp) c hc

theorem toString_text : ∀ (i : Int), isText (bytes (toString i))
  | Int.ofNat n => repr_text n
  | Int.negSucc n => by
    have h : toString (Int.negSucc n) = "-" ++ Nat.repr (n + 1) := rfl
    rw [h, bytes_append]
    intro b hb
    rcases List.mem_append.mp hb with hb | hb
    · have hb' : b = 45 := by simpa [bytes] using hb
      omega
    · exact repr_text (n + 1) b hb

theorem isText_append (x y : List Nat) (hx : isText x) (hy : isText y) : isText (x ++ y) := by
  intro b hb
  rcases List.mem_append.mp hb with hb | hb
  · exact hx b hb
  · exact hy b hb

theorem publication_text (i : Int) : isText (bytes (publication i)) := by
  have h2 : i % 2 = 0 ∨ i % 2 = 1 := by omega
  rcases h2 with h | h
  · rw [publication_even i h]
    exact isText_append _ _ (by decide)
      (isText_append _ _ (by decide) (toString_text i))
  · rw [publication_odd i h]
    exact isText_append _ _ (by decide)
      (isText_append _ _ (by decide) (toString_text i))

theorem publication_words (i : Int) :
    ∃ w0 tail, splitLine (bytes (publication i)) = w0 :: bytes "message" :: tail := by
  have h2 : i % 2 = 0 ∨ i % 2 = 1 := by omega
  have hm : bytes "message" = [109, 101, 115, 115, 97, 103, 101] := by decide
  rcases h2 with h | h
  · refine ⟨[69, 86, 69, 78], splitFrom (bytes "number " ++ bytes (toString i)) [], ?_⟩
    rw [publication_even i h, hm]
    simp [splitLine, splitFrom]
  · refine ⟨[79, 68, 68], splitFrom (bytes "number " ++ bytes (toString i)) [], ?_⟩
    rw [publication_odd i h, hm]
    simp [splitLine, splitFrom]

/-- C27: every message `main` of `pubsub.cpp` publishes splits into at
least two words, so the subscriber's read of `words[1]` is inside the vector;
the second word of the `i`-th publication is "message", and a subscriber that
receives that publication stays in its loop. -/
theorem C27_second_word_in_bounds (i : Int) (rest : List RecvOutcome) :
    2 ≤ (splitLine (bytes (publication i))).length
      ∧ (splitLine (bytes (publication i)))[1]? = some (bytes "message")
      ∧ (∀ m ∈ terminationMessages, 2 ≤ (splitLine (bytes m)).length)
      ∧ demoSubLoop (delivered (cmessage (publication i)) :: rest)
          = (demoSubLoop rest).cons (WEvent.recv 0) := by
  obtain ⟨w0, tail, hw⟩ := publication_words i
  have h1 : (splitLine (bytes (publication i)))[1]? = some (bytes "message") := by
    rw [hw]
    simp
  refine ⟨?_, h1, by decide, ?_⟩
  · rw [hw]
    simp
  · exact demoSubLoop_skip (bytes (publication i)) (bytes "message") rest
      (publication_text i) h1 (by decide)

/-! ### The two timed runs (C22) -/

theorem pair_sizes_append (l1 l2 : List Pair.Event) :
    Pair.sizes (l1 ++ l2) = Pair.sizes l1 ++ Pair.sizes l2 := by
  induction l1 with
  | nil => rfl
  | cons e l1 ih => cases e <;> simp [Pair.sizes, ih]

theorem pair_mem_sizes (l : List Pair.Event) (s : Int) :
    s ∈ Pair.sizes l ↔ Pair.Event.send s ∈ l := by
  induction l with
  | nil => simp [Pair.sizes]
  | cons e l ih => cases e <;> simp [Pair.sizes, ih]

theorem pair_peerLoop_only (n s : Int) : ∀ (recvs : List RecvOutcome) (i : Int),
    ∀ x ∈ (Pair.peerLoop n s recvs i).trace, x = Pair.Event.recv ∨ x = Pair.Event.send s
  | [], i => by
    intro x hx
    unfold Pair.peerLoop at hx
    split at hx <;> simp at hx
  | o :: recvs, i => by
    have ih := pair_peerLoop_only n s recvs (wrapInt (i + 1))
    intro x hx
    unfold Pair.peerLoop at hx
    split at hx
    · split at hx
      · simp only [Thread.cons, List.mem_cons] at hx
        rcases hx with rfl | rfl | hx
        · exact Or.inl rfl
        · exact Or.inr rfl
        · exact ih x hx
      · simp only [List.mem_singleton] at hx
        exact Or.inl hx
      · simp only [List.mem_singleton] at hx
        exact Or.inl hx
    · simp at hx

theorem pair_peerLoop_sizes (n s : Int) (hn : n ≤ INT_MAX) :
    ∀ (recvs : List RecvOutcome) (i : Int), -2147483648 ≤ i →
      (Pair.peerLoop n s recvs i).status = Status.finished →
      Pair.sizes (Pair.peerLoop n s recvs i).trace = List.replicate (n - i).toNat s
  | [], i, _, h => by
    unfold Pair.peerLoop at h ⊢
    split at h
    · simp at h
    · rename_i hlt
      have h0 : (n - i).toNat = 0 := by omega
      simp [Pair.sizes, h0, hlt]
  | o :: recvs, i, hi, h => by
    unfold Pair.peerLoop at h ⊢
    by_cases hlt : i < n
    · have hw : wrapInt (i + 1) = i + 1 :=
        wrapInt_of_range _ (by omega) (by unfold INT_MAX at hn ⊢; omega)
      simp only [hlt, if_true] at h ⊢
      split at h
      · simp only [Thread.cons] at h ⊢
        rw [hw] at h ⊢
        have ih := pair_peerLoop_sizes n s hn recvs (i + 1) (by omega) h
        have hk : (n - i).toNat = (n - (i + 1)).toNat + 1 := by omega
        simp only [Pair.sizes, ih, hk, List.replicate_succ]
      · simp at h
      · simp at h
    · have h0 : (n - i).toNat = 0 := by omega
      simp [hlt, Pair.sizes, h0]

theorem pair_exchangeLoop_only (n s : Int) : ∀ (recvs : List RecvOutcome) (i : Int),
    ∀ x ∈ (Pair.exchangeLoop n s recvs i).trace, x = Pair.Event.send s ∨ x = Pair.Event.recv
  | [], i => by
    intro x hx
    unfold Pair.exchangeLoop at hx
    split at hx
    · simp only [List.mem_singleton] at hx
      exact Or.inl hx
    · simp at hx
  | o :: recvs, i => by
    have ih := pair_exchangeLoop_only n s recvs (wrapInt (i + 1))
    intro x hx
    unfold Pair.exchangeLoop at hx
    split at hx
    · split at hx
      · simp only [Thread.cons, List.mem_cons] at hx
        rcases hx with rfl | rfl | hx
        · exact Or.inl rfl
        · exact Or.inr rfl
        · exact ih x hx
      · simp only [List.mem_cons, List.mem_singleton, List.not_mem_nil, or_false] at hx
        exact hx
      · simp only [List.mem_cons, List.mem_singleton, List.not_mem_nil, or_false] at hx
        exact hx
    · simp at hx

theorem pair_exchangeLoop_sizes (n s : Int) (hn : n ≤ INT_MAX) :
    ∀ (recvs : List RecvOutcome) (i : Int), -2147483648 ≤ i →
      (Pair.exchangeLoop n s recvs i).status = Status.finished →
      Pair.sizes (Pair.exchangeLoop n s recvs i).trace = List.replicate (n - i).toNat s
  | [], i, _, h => by
    unfold Pair.exchangeLoop at h ⊢
    split at h
    · simp at h
    · rename_i hlt
      have h0 : (n - i).toNat = 0 := by omega
      simp [Pair.sizes, h0, hlt]
  | o :: recvs, i, hi, h => by
    unfold Pair.exchangeLoop at h ⊢
    by_cases hlt : i < n
    · have hw : wrapInt (i + 1) = i + 1 :=
        wrapInt_of_range _ (by omega) (by unfold INT_MAX at hn ⊢; omega)
      simp only [hlt, if_true] at h ⊢
      split at h
      · simp only [Thread.cons] at h ⊢
        rw [hw] at h ⊢
        have ih := pair_exchangeLoop_sizes n s hn recvs (i + 1) (by omega) h
        have hk : (n - i).toNat = (n - (i + 1)).toNat + 1 := by omega
        simp only [Pair.sizes, ih, hk, List.replicate_succ]
      · simp at h
      · simp at h
    · have h0 : (n - i).toNat = 0 := by omega
      simp [hlt, Pair.sizes, h0]

theorem pair_peer_form (n b : Int) (hn : n ≤ INT_MAX) (p : List RecvOutcome) :
    (∀ x ∈ (Pair.peer n b p).trace, x = Pair.Event.socket ∨ x = Pair.Event.connect
        ∨ x = Pair.Event.recv ∨ x = Pair.Event.send b ∨ x = Pair.Event.close)
      ∧ ((Pair.peer n b p).status = Status.finished →
          ∃ T, (Pair.peer n b p).trace
                = [Pair.Event.socket, Pair.Event.connect] ++ T ++ [Pair.Event.close]
            ∧ (∀ x ∈ T, x = Pair.Event.recv ∨ x = Pair.Event.send b)
            ∧ Pair.sizes T = List.replicate n.toNat b) := by
  have honly := pair_peerLoop_only n b p 0
  have hsz := pair_peerLoop_sizes n b hn p 0 (by omega)
  have hmem : ∀ x ∈ [Pair.Event.socket, Pair.Event.connect] ++ (Pair.peerLoop n b p 0).trace
        ++ [Pair.Event.close],
      x = Pair.Event.socket ∨ x = Pair.Event.connect
        ∨ x = Pair.Event.recv ∨ x = Pair.Event.send b ∨ x = Pair.Event.close := by
    intro x hx
    simp only [List.mem_append, List.mem_cons, List.mem_singleton, List.not_mem_nil,
      or_false] at hx
    rcases hx with ((rfl | rfl) | hx) | rfl
    · exact Or.inl rfl
    · exact Or.inr (Or.inl rfl)
    · rcases honly x hx with rfl | rfl
      · exact Or.inr (Or.inr (Or.inl rfl))
      · exact Or.inr (Or.inr (Or.inr (Or.inl rfl)))
    · exact Or.inr (Or.inr (Or.inr (Or.inr rfl)))
  have hmem' : ∀ x ∈ [Pair.Event.socket, Pair.Event.connect] ++ (Pair.peerLoop n b p 0).trace,
      x = Pair.Event.socket ∨ x = Pair.Event.connect
        ∨ x = Pair.Event.recv ∨ x = Pair.Event.send b ∨ x = Pair.Event.close :=
    fun x hx => hmem x (List.mem_append_left _ hx)
  unfold Pair.peer
  by_cases hb : b < 0
  · simp [allocate, hb]
  · simp only [allocate, hb, if_false]
    cases hst : (Pair.peerLoop n b p 0).status
    · refine ⟨hmem, fun _ => ⟨_, rfl, honly, ?_⟩⟩
      simpa using hsz hst
    · exact ⟨hmem', fun h => by simp at h⟩
    · exact ⟨hmem', fun h => by simp at h⟩
    · exact ⟨hmem', fun h => by simp at h⟩

theorem pair_run_form (n a b : Int) (hn : n ≤ INT_MAX) (e p : List RecvOutcome) :
    (∀ s ∈ Pair.sizes (Pair.run n a b e p).main, s = a)
      ∧ (∀ s ∈ Pair.sizes (Pair.run n a b e p).thread, s = b)
      ∧ [Pair.Event.socket, Pair.Event.bind, Pair.Event.spawn n b]
          <+: (Pair.run n a b e p).main
      ∧ ((Pair.run n a b e p).status = Status.finished →
          ∃ L T, (Pair.run n a b e p).main
                = [Pair.Event.socket, Pair.Event.bind, Pair.Event.spawn n b, Pair.Event.start]
                    ++ L ++ [Pair.Event.join, Pair.Event.stop, Pair.Event.close]
            ∧ (∀ x ∈ L, x = Pair.Event.send a ∨ x = Pair.Event.recv)
            ∧ Pair.sizes L = List.replicate n.toNat a
            ∧ (Pair.run n a b e p).thread
                = [Pair.Event.socket, Pair.Event.connect] ++ T ++ [Pair.Event.close]
            ∧ (∀ x ∈ T, x = Pair.Event.recv ∨ x = Pair.Event.send b)
            ∧ Pair.sizes T = List.replicate n.toNat b) := by
  obtain ⟨hpo, hpf⟩ := pair_peer_form n b hn p
  have honly := pair_exchangeLoop_only n a e 0
  have hsz := pair_exchangeLoop_sizes n a hn e 0 (by omega)
  have hthread : ∀ s ∈ Pair.sizes (Pair.peer n b p).trace, s = b := by
    intro s hs
    rcases hpo _ ((pair_mem_sizes _ s).mp hs) with h | h | h | h | h <;> simp at h
    exact h
  have hloop : ∀ s, Pair.Event.send s ∈ (Pair.exchangeLoop n a e 0).trace → s = a := by
    intro s hs
    rcases honly _ hs with h | h <;> simp at h
    exact h
  have hmain : ∀ (tail : List Pair.Event), (∀ s, Pair.Event.send s ∉ tail) →
      ∀ s ∈ Pair.sizes ([Pair.Event.socket, Pair.Event.bind, Pair.Event.spawn n b]
        ++ Pair.Event.start :: (Pair.exchangeLoop n a e 0).trace ++ tail), s = a := by
    intro tail htail s hs
    have hs' := (pair_mem_sizes _ s).mp hs
    simp only [List.mem_append, List.mem_cons, List.mem_singleton, List.not_mem_nil,
      or_false] at hs'
    rcases hs' with ((h | h | h) | (h | h)) | h
    · simp at h
    · simp at h
    · simp at h
    · simp at h
    · exact hloop s h
    · exact absurd h (htail s)
  have hmain0 : ∀ s ∈ Pair.sizes ([Pair.Event.socket, Pair.Event.bind, Pair.Event.spawn n b]
        ++ Pair.Event.start :: (Pair.exchangeLoop n a e 0).trace), s = a := by
    intro s hs
    have := hmain [] (by simp) s
    simp only [List.append_nil] at this
    exact this hs
  unfold Pair.run
  by_cases ha : a < 0
  · simp only [allocate, ha, if_true]
    refine ⟨by simp [Pair.sizes], hthread, List.prefix_refl _, fun h => by simp at h⟩
  · simp only [allocate, ha, if_false]
    cases hr : (Pair.exchangeLoop n a e 0).status
    · cases ht : (Pair.peer n b p).status
      · obtain ⟨T, hT, hTo, hTs⟩ := hpf ht
        refine ⟨hmain _ (by simp), hthread, ?_, fun _ => ⟨_, T, ?_, honly, ?_, hT, hTo, hTs⟩⟩
        · simp
        · simp
        · simpa using hsz hr
      · exact ⟨hmain0, hthread, by simp, fun h => by simp at h⟩
      · exact ⟨hmain0, hthread, by simp, fun h => by simp at h⟩
      · exact ⟨hmain0, hthread, by simp, fun h => by simp at h⟩
    · exact ⟨hmain0, hthread, by simp, fun h => by simp at h⟩
    · exact ⟨hmain0, hthread, by simp, fun h => by simp at h⟩
    · exact ⟨hmain0, hthread, by simp, fun h => by simp at h⟩

theorem req_mem_sizes (l : List Req.Event) (s : Int) :
    s ∈ Req.sizes l ↔ ∃ g, Req.Event.send g s ∈ l := by
  induction l with
  | nil => simp [Req.sizes]
  | cons e l ih =>
    cases e with
    | send first size =>
      simp only [Req.sizes, List.mem_cons, ih, Req.Event.send.injEq]
      constructor
      · rintro (h | ⟨g, hg⟩)
        · exact ⟨first, Or.inl ⟨rfl, h⟩⟩
        · exact ⟨g, Or.inr hg⟩
      · rintro ⟨g, h | hg⟩
        · exact Or.inl h.2
        · exact Or.inr ⟨g, hg⟩
    | _ => simp [Req.sizes, ih]

theorem req_replyLoop_only (f : Nat) (s : Int) : ∀ (requests : List RecvOutcome),
    ∀ x ∈ (Req.replyLoop f s requests).trace, x = Req.Event.recv ∨ x = Req.Event.send f s
  | [] => by simp [Req.replyLoop]
  | o :: requests => by
    have ih := req_replyLoop_only f s requests
    intro x hx
    unfold Req.replyLoop at hx
    split at hx
    · split at hx
      · simp only [List.mem_singleton] at hx
        exact Or.inl hx
      · simp only [Thread.cons, List.mem_cons] at hx
        rcases hx with rfl | rfl | hx
        · exact Or.inl rfl
        · exact Or.inr rfl
        · exact ih x hx
    · simp only [List.mem_singleton] at hx
      exact Or.inl hx
    · simp only [List.mem_singleton] at hx
      exact Or.inl hx

theorem req_requestLoop_only (n s : Int) : ∀ (replies : List RecvOutcome) (i : Int)
    (first : Nat), ∀ x ∈ (Req.requestLoop n s replies i first).trace,
      x = Req.Event.recv ∨ ∃ g, x = Req.Event.send g s
  | [], i, first => by
    intro x hx
    unfold Req.requestLoop at hx
    split at hx
    · simp only [List.mem_singleton] at hx
      exact Or.inr ⟨first, hx⟩
    · simp at hx
  | o :: replies, i, first => by
    have ih := req_requestLoop_only n s replies (wrapInt (i + 1))
      (if i = wrapInt (n - 2) then storeChar 0xff else first)
    intro x hx
    unfold Req.requestLoop at hx
    split at hx
    · split at hx
      · simp only [Thread.cons, List.mem_cons] at hx
        rcases hx with rfl | rfl | hx
        · exact Or.inr ⟨first, rfl⟩
        · exact Or.inl rfl
        · exact ih x hx
      · simp only [List.mem_cons, List.mem_singleton, List.not_mem_nil, or_false] at hx
        rcases hx with rfl | rfl
        · exact Or.inr ⟨first, rfl⟩
        · exact Or.inl rfl
      · simp only [List.mem_cons, List.mem_singleton, List.not_mem_nil, or_false] at hx
        rcases hx with rfl | rfl
        · exact Or.inr ⟨first, rfl⟩
        · exact Or.inl rfl
    · simp at hx

theorem req_requestLoop_sizes (n s : Int) (hn : n ≤ INT_MAX) :
    ∀ (replies : List RecvOutcome) (i : Int) (first : Nat), -2147483648 ≤ i →
      (Req.requestLoop n s replies i first).status = Status.finished →
      Req.sizes (Req.requestLoop n s replies i first).trace = List.replicate (n - i).toNat s
  | [], i, first, _, h => by
    unfold Req.requestLoop at h ⊢
    split at h
    · simp at h
    · rename_i hlt
      have h0 : (n - i).toNat = 0 := by omega
      simp [Req.sizes, h0, hlt]
  | o :: replies, i, first, hi, h => by
    unfold Req.requestLoop at h ⊢
    by_cases hlt : i < n
    · have hw : wrapInt (i + 1) = i + 1 :=
        wrapInt_of_range _ (by omega) (by unfold INT_MAX at hn ⊢; omega)
      simp only [hlt, if_true] at h ⊢
      split at h
      · simp only [Thread.cons] at h ⊢
        rw [hw] at h ⊢
        have ih := req_requestLoop_sizes n s hn replies (i + 1) _ (by omega) h
        have hk : (n - i).toNat = (n - (i + 1)).toNat + 1 := by omega
        simp only [Req.sizes, ih, hk, List.replicate_succ]
      · simp at h
      · simp at h
    · have h0 : (n - i).toNat = 0 := by omega
      simp [hlt, Req.sizes, h0]

theorem req_replier_form (f : Nat) (b : Int) (q : List RecvOutcome) :
    (∀ x ∈ (Req.replier f b q).trace, x = Req.Event.socket ∨ x = Req.Event.setBuffering
        ∨ x = Req.Event.bind ∨ x = Req.Event.recv ∨ x = Req.Event.send f b
        ∨ x = Req.Event.close)
      ∧ ((Req.replier f b q).status = Status.finished →
          ∃ T, (Req.replier f b q).trace
                = [Req.Event.socket, Req.Event.setBuffering, Req.Event.bind] ++ T
                    ++ [Req.Event.close]
            ∧ (∀ x ∈ T, x = Req.Event.recv ∨ x = Req.Event.send f b)) := by
  have honly := req_replyLoop_only f b q
  have hmem : ∀ x ∈ [Req.Event.socket, Req.Event.setBuffering, Req.Event.bind]
        ++ (Req.replyLoop f b q).trace ++ [Req.Event.send f b, Req.Event.close],
      x = Req.Event.socket ∨ x = Req.Event.setBuffering
        ∨ x = Req.Event.bind ∨ x = Req.Event.recv ∨ x = Req.Event.send f b
        ∨ x = Req.Event.close := by
    intro x hx
    simp only [List.mem_append, List.mem_cons, List.mem_singleton, List.not_mem_nil,
      or_false] at hx
    rcases hx with ((rfl | rfl | rfl) | hx) | rfl | rfl
    · exact Or.inl rfl
    · exact Or.inr (Or.inl rfl)
    · exact Or.inr (Or.inr (Or.inl rfl))
    · rcases honly x hx with rfl | rfl
      · exact Or.inr (Or.inr (Or.inr (Or.inl rfl)))
      · exact Or.inr (Or.inr (Or.inr (Or.inr (Or.inl rfl))))
    · exact Or.inr (Or.inr (Or.inr (Or.inr (Or.inl rfl))))
    · exact Or.inr (Or.inr (Or.inr (Or.inr (Or.inr rfl))))
  have hmem' : ∀ x ∈ [Req.Event.socket, Req.Event.setBuffering, Req.Event.bind]
        ++ (Req.replyLoop f b q).trace,
      x = Req.Event.socket ∨ x = Req.Event.setBuffering
        ∨ x = Req.Event.bind ∨ x = Req.Event.recv ∨ x = Req.Event.send f b
        ∨ x = Req.Event.close :=
    fun x hx => hmem x (List.mem_append_left _ hx)
  unfold Req.replier
  by_cases hb : b < 0
  · simp [allocate, hb]
  · simp only [allocate, hb, if_false]
    cases hst : (Req.replyLoop f b q).status
    · refine ⟨hmem, fun _ => ⟨(Req.replyLoop f b q).trace ++ [Req.Event.send f b], ?_, ?_⟩⟩
      · simp
      · intro x hx
        rcases List.mem_append.mp hx with hx | hx
        · exact honly x hx
        · exact Or.inr (List.mem_singleton.mp hx)
    · exact ⟨hmem', fun h => by simp at h⟩
    · exact ⟨hmem', fun h => by simp at h⟩
    · exact ⟨hmem', fun h => by simp at h⟩

theorem req_requestor_form (n a b : Int) (f : Nat) (hn : n ≤ INT_MAX)
    (e q : List RecvOutcome) :
    (∀ s ∈ Req.sizes (Req.requestor n a b f e q).main, s = a)
      ∧ (∀ s ∈ Req.sizes (Req.requestor n a b f e q).thread, s = b)
      ∧ [Req.Event.ctxNew, Req.Event.spawn b, Req.Event.sleep, Req.Event.socket,
          Req.Event.connect] <+: (Req.requestor n a b f e q).main
      ∧ ((Req.requestor n a b f e q).status = Status.finished →
          ∃ L T, (Req.requestor n a b f e q).main
                = [Req.Event.ctxNew, Req.Event.spawn b, Req.Event.sleep, Req.Event.socket,
                    Req.Event.connect, Req.Event.start]
                    ++ L ++ [Req.Event.join, Req.Event.stop, Req.Event.close,
                      Req.Event.ctxTerm]
            ∧ (∀ x ∈ L, x = Req.Event.recv ∨ ∃ g, x = Req.Event.send g a)
            ∧ Req.sizes L = List.replicate n.toNat a
            ∧ (Req.requestor n a b f e q).thread
                = [Req.Event.socket, Req.Event.setBuffering, Req.Event.bind] ++ T
                    ++ [Req.Event.close]
            ∧ (∀ x ∈ T, x = Req.Event.recv ∨ x = Req.Event.send f b)) := by
  obtain ⟨hpo, hpf⟩ := req_replier_form f b q
  have honly := req_requestLoop_only n a e 0 (storeChar 0)
  have hsz := req_requestLoop_sizes n a hn e 0 (storeChar 0) (by omega)
  have hthread : ∀ s ∈ Req.sizes (Req.replier f b q).trace, s = b := by
    intro s hs
    obtain ⟨g, hg⟩ := (req_mem_sizes _ s).mp hs
    rcases hpo _ hg with h | h | h | h | h | h <;> simp at h
    exact h.2
  have hloop : ∀ g s, Req.Event.send g s ∈ (Req.requestLoop n a e 0 (storeChar 0)).trace →
      s = a := by
    intro g s hs
    rcases honly _ hs with h | ⟨g', h⟩ <;> simp at h
    exact h.2
  have hmain : ∀ (tail : List Req.Event), (∀ g s, Req.Event.send g s ∉ tail) →
      ∀ s ∈ Req.sizes ([Req.Event.ctxNew, Req.Event.spawn b, Req.Event.sleep,
          Req.Event.socket, Req.Event.connect]
        ++ Req.Event.start :: (Req.requestLoop n a e 0 (storeChar 0)).trace ++ tail),
        s = a := by
    intro tail htail s hs
    obtain ⟨g, hs'⟩ := (req_mem_sizes _ s).mp hs
    simp only [List.mem_append, List.mem_cons, List.mem_singleton, List.not_mem_nil,
      or_false] at hs'
    rcases hs' with ((h | h | h | h | h) | (h | h)) | h
    · simp at h
    · simp at h
    · simp at h
    · simp at h
    · simp at h
    · simp at h
    · exact hloop g s h
    · exact absurd h (htail g s)
  have hmain0 : ∀ s ∈ Req.sizes ([Req.Event.ctxNew, Req.Event.spawn b, Req.Event.sleep,
          Req.Event.socket, Req.Event.connect]
        ++ Req.Event.start :: (Req.requestLoop n a e 0 (storeChar 0)).trace), s = a := by
    intro s hs
    have := hmain [] (by simp) s
    simp only [List.append_nil] at this
    exact this hs
  unfold Req.requestor
  by_cases ha : a < 0
  · simp only [allocate, ha, if_true]
    refine ⟨by simp [Req.sizes], hthread, List.prefix_refl _, fun h => by simp at h⟩
  · simp only [allocate, ha, if_false]
    by_cases ha0 : a = 0
    · simp only [ha0, if_true]
      refine ⟨by simp [Req.sizes], hthread, List.prefix_refl _, fun h => by simp at h⟩
    · simp only [ha0, if_false]
      cases hr : (Req.requestLoop n a e 0 (storeChar 0)).status
      · cases ht : (Req.replier f b q).status
        · obtain ⟨T, hT, hTo⟩ := hpf ht
          refine ⟨hmain _ (by simp), hthread, ?_, fun _ => ⟨_, T, ?_, honly, ?_, hT, hTo⟩⟩
          · simp
          · simp
          · simpa using hsz hr
        · exact ⟨hmain0, hthread, by simp, fun h => by simp at h⟩
        · exact ⟨hmain0, hthread, by simp, fun h => by simp at h⟩
        · exact ⟨hmain0, hthread, by simp, fun h => by simp at h⟩
      · exact ⟨hmain0, hthread, by simp, fun h => by simp at h⟩
      · exact ⟨hmain0, hthread, by simp, fun h => by simp at h⟩
      · exact ⟨hmain0, hthread, by simp, fun h => by simp at h⟩

/-- C22: `main` of `performance/pair.cpp` and of `performance/req.cpp`
make `run(.., nummsgs, size, 1)` then `run(.., nummsgs, 1, size)` (for req
`requestor(.., nreq, bigsize, 1)` then `requestor(.., nreq, 1, bigsize)`): the
calls of the second run follow all the calls of the first, and are made only
when the first has returned. In a run with sizes `a` and `b` the main thread
only sends messages of size `a` and the created thread only messages of size
`b`; a run that returns has sent `nummsgs` messages, its main thread's calls
end with join, end instant and close, and the created thread's calls end with
the close of its socket. -/
theorem C22_two_runs_in_sequence (n size : Int) (hn : n ≤ INT_MAX) :
    (∀ (e1 p1 e2 p2 : List RecvOutcome),
        ((Pair.run n size 1 e1 p1).status ≠ Status.finished →
          Pair.main n size e1 p1 e2 p2
            = ⟨Pair.Event.ctxNew :: (Pair.run n size 1 e1 p1).main,
                (Pair.run n size 1 e1 p1).thread, [], (Pair.run n size 1 e1 p1).status⟩)
        ∧ ((Pair.run n size 1 e1 p1).status = Status.finished →
            ∃ tail, Pair.main n size e1 p1 e2 p2
                = ⟨Pair.Event.ctxNew :: (Pair.run n size 1 e1 p1).main
                    ++ (Pair.run n 1 size e2 p2).main ++ tail,
                  (Pair.run n size 1 e1 p1).thread, (Pair.run n 1 size e2 p2).thread,
                  (Pair.run n 1 size e2 p2).status⟩
              ∧ (tail = [] ∨ tail = [Pair.Event.ctxTerm])))
      ∧ (∀ (a b : Int) (e p : List RecvOutcome),
        (∀ s ∈ Pair.sizes (Pair.run n a b e p).main, s = a)
        ∧ (∀ s ∈ Pair.sizes (Pair.run n a b e p).thread, s = b)
        ∧ [Pair.Event.socket, Pair.Event.bind, Pair.Event.spawn n b]
            <+: (Pair.run n a b e p).main
        ∧ ((Pair.run n a b e p).status = Status.finished →
            ∃ L T, (Pair.run n a b e p).main
                  = [Pair.Event.socket, Pair.Event.bind, Pair.Event.spawn n b,
                      Pair.Event.start]
                      ++ L ++ [Pair.Event.join, Pair.Event.stop, Pair.Event.close]
              ∧ (∀ x ∈ L, x = Pair.Event.send a ∨ x = Pair.Event.recv)
              ∧ Pair.sizes L = List.replicate n.toNat a
              ∧ (Pair.run n a b e p).thread
                  = [Pair.Event.socket, Pair.Event.connect] ++ T ++ [Pair.Event.close]
              ∧ (∀ x ∈ T, x = Pair.Event.recv ∨ x = Pair.Event.send b)
              ∧ Pair.sizes T = List.replicate n.toNat b))
      ∧ (∀ (f1 f2 : Nat) (e1 q1 e2 q2 : List RecvOutcome),
        ((Req.requestor n size 1 f1 e1 q1).status ≠ Status.finished →
          Req.main n size f1 f2 e1 q1 e2 q2
            = ⟨(Req.requestor n size 1 f1 e1 q1).main,
                (Req.requestor n size 1 f1 e1 q1).thread, [],
                (Req.requestor n size 1 f1 e1 q1).status⟩)
        ∧ ((Req.requestor n size 1 f1 e1 q1).status = Status.finished →
            Req.main n size f1 f2 e1 q1 e2 q2
              = ⟨(Req.requestor n size 1 f1 e1 q1).main
                  ++ (Req.requestor n 1 size f2 e2 q2).main,
                (Req.requestor n size 1 f1 e1 q1).thread,
                (Req.requestor n 1 size f2 e2 q2).thread,
                (Req.requestor n 1 size f2 e2 q2).status⟩))
      ∧ (∀ (a b : Int) (f : Nat) (e q : List RecvOutcome),
        (∀ s ∈ Req.sizes (Req.requestor n a b f e q).main, s = a)
        ∧ (∀ s ∈ Req.sizes (Req.requestor n a b f e q).thread, s = b)
        ∧ [Req.Event.ctxNew, Req.Event.spawn b, Req.Event.sleep, Req.Event.socket,
            Req.Event.connect] <+: (Req.requestor n a b f e q).main
        ∧ ((Req.requestor n a b f e q).status = Status.finished →
            ∃ L T, (Req.requestor n a b f e q).main
                  = [Req.Event.ctxNew, Req.Event.spawn b, Req.Event.sleep, Req.Event.socket,
                      Req.Event.connect, Req.Event.start]
                      ++ L ++ [Req.Event.join, Req.Event.stop, Req.Event.close,
                        Req.Event.ctxTerm]
              ∧ (∀ x ∈ L, x = Req.Event.recv ∨ ∃ g, x = Req.Event.send g a)
              ∧ Req.sizes L = List.replicate n.toNat a
              ∧ (Req.requestor n a b f e q).thread
                  = [Req.Event.socket, Req.Event.setBuffering, Req.Event.bind] ++ T
                      ++ [Req.Event.close]
              ∧ (∀ x ∈ T, x = Req.Event.recv ∨ x = Req.Event.send f b))) := by
  refine ⟨?_, fun a b e p => pair_run_form n a b hn e p, ?_,
    fun a b f e q => req_requestor_form n a b f hn e q⟩
  · intro e1 p1 e2 p2
    constructor
    · intro h
      unfold Pair.main
      cases hs : (Pair.run n size 1 e1 p1).status
      · exact absurd hs h
      all_goals simp only [hs]
    · intro h
      unfold Pair.main
      simp only [h]
      cases hs : (Pair.run n 1 size e2 p2).status
      · exact ⟨[Pair.Event.ctxTerm], by simp only [hs], Or.inr rfl⟩
      all_goals exact ⟨[], by simp [hs], Or.inl rfl⟩
  · intro f1 f2 e1 q1 e2 q2
    constructor
    · intro h
      unfold Req.main
      cases hs : (Req.requestor n size 1 f1 e1 q1).status
      · exact absurd hs h
      all_goals simp only [hs]
    · intro h
      unfold Req.main
      simp only [h]

/-- C22 on one exchange with size 3: both programs return after two runs. -/
theorem C22_two_runs_in_sequence_witness :
    (1 : Int) ≤ INT_MAX
      ∧ Pair.main 1 3 [delivered [0]] [delivered [0]] [delivered [0]] [delivered [0]]
        = ⟨[Pair.Event.ctxNew, Pair.Event.socket, Pair.Event.bind, Pair.Event.spawn 1 1,
              Pair.Event.start, Pair.Event.send 3, Pair.Event.recv, Pair.Event.join,
              Pair.Event.stop, Pair.Event.close, Pair.Event.socket, Pair.Event.bind,
              Pair.Event.spawn 1 3, Pair.Event.start, Pair.Event.send 1, Pair.Event.recv,
              Pair.Event.join, Pair.Event.stop, Pair.Event.close, Pair.Event.ctxTerm],
            [Pair.Event.socket, Pair.Event.connect, Pair.Event.recv, Pair.Event.send 1,
              Pair.Event.close],
            [Pair.Event.socket, Pair.Event.connect, Pair.Event.recv, Pair.Event.send 3,
              Pair.Event.close], Status.finished⟩
      ∧ Req.main 1 3 7 7 [delivered [0]] [delivered [0]] [delivered [0]] [delivered [255]]
        = ⟨(Req.requestor 1 3 1 7 [delivered [0]] [delivered [0]]).main,
            (Req.requestor 1 3 1 7 [delivered [0]] [delivered [0]]).thread, [],
            Status.pending⟩ :=
  ⟨by decide, by decide,
   ((C22_two_runs_in_sequence 1 3 (by decide)).2.2.1 7 7 [delivered [0]] [delivered [0]]
      [delivered [0]] [delivered [255]]).1 (by decide)⟩

/-! ### A whole run of `reqrep.cpp` (C24) -/

theorem rr_byes_append (l : List (List Nat)) (m : List Nat) :
    ReqRep.byes (l ++ [m]) = ReqRep.byes l + (if m = bytes "BYE" then 1 else 0) := by
  unfold ReqRep.byes
  rw [List.count_append]
  by_cases h : m = bytes "BYE"
  · subst h
    simp
  · have h' : ¬ (bytes "BYE" = m) := fun e => h e.symm
    simp [List.count_cons, h, h']

theorem rr_client_step (cl cl' : ReqRep.Client) (hok : cl.ok)
    (h : ReqRep.clientStep cl = some cl') :
    cl'.ok ∧ cl'.sentBye = cl.sentBye := by
  obtain ⟨id, pc, outbox, inbox, received⟩ := cl
  cases pc
  · simp only [ReqRep.clientStep, Option.some.injEq] at h
    subst h
    simp only [ReqRep.Client.ok] at hok ⊢
    exact ⟨hok, by simp [ReqRep.Client.sentBye, ReqRep.ClientPc.stopped]⟩
  · simp only [ReqRep.clientStep, Option.some.injEq] at h
    subst h
    simp only [ReqRep.Client.ok] at hok ⊢
    obtain ⟨h1, h2, h3⟩ := hok
    subst h1
    subst h2
    exact ⟨⟨h3, by simp⟩, by simp [ReqRep.Client.sentBye, ReqRep.ClientPc.stopped]⟩
  · cases inbox with
    | nil => simp [ReqRep.clientStep] at h
    | cons m rest =>
      simp only [ReqRep.clientStep, Option.some.injEq] at h
      subst h
      simp only [ReqRep.Client.ok] at hok
      obtain ⟨h1, h2⟩ := hok
      simp only [List.length_cons] at h2
      have ho : outbox = [] := List.length_eq_zero.mp (by omega)
      have hr : rest = [] := List.length_eq_zero.mp (by omega)
      subst ho
      subst hr
      by_cases hm : m = bytes "BYE"
      · subst hm
        simp only [if_true, ReqRep.Client.ok, rr_byes_append, h1]
        exact ⟨by simp, by simp [ReqRep.Client.sentBye, ReqRep.ClientPc.stopped]⟩
      · have hm' : ¬ (bytes "BYE" = m) := fun e => hm e.symm
        simp only [hm, if_false, ReqRep.Client.ok, rr_byes_append, h1]
        exact ⟨by simp, by simp [ReqRep.Client.sentBye, ReqRep.ClientPc.stopped, hm']⟩
  · simp only [ReqRep.clientStep, Option.some.injEq] at h
    subst h
    simp only [ReqRep.Client.ok] at hok ⊢
    exact ⟨hok, by simp [ReqRep.Client.sentBye, ReqRep.ClientPc.stopped]⟩
  · simp [ReqRep.clientStep] at h

theorem rr_mem_set {α : Type} (P : α → Prop) (l : List α) (k : Nat) (x : α)
    (h : ∀ a ∈ l, P a) (hx : P x) : ∀ a ∈ l.set k x, P a := by
  intro a ha
  rcases List.mem_or_eq_of_mem_set ha with ha | rfl
  · exact h a ha
  · exact hx

theorem rr_countP_set (l : List ReqRep.Client) (k : Nat) (a x : ReqRep.Client)
    (h : l[k]? = some a) (hx : x.sentBye = a.sentBye) :
    (l.set k x).countP ReqRep.Client.sentBye = l.countP ReqRep.Client.sentBye := by
  have hb := countP_set_balance ReqRep.Client.sentBye l k a x h
  rw [hx] at hb
  omega

theorem rr_inv_init (cfg : ReqRep.Config) : ReqRep.Inv cfg ReqRep.init := by
  constructor <;> simp [ReqRep.init, ReqRep.ServerPc.answering, ReqRep.ServerPc.inBye,
    ReqRep.ServerPc.loopsDone, ReqRep.ServerPc.joined]

theorem rr_inv_clientStep (cfg : ReqRep.Config) (s : ReqRep.State) (k : Nat)
    (cl cl' : ReqRep.Client) (hinv : ReqRep.Inv cfg s) (hk : s.clients[k]? = some cl)
    (h : ReqRep.clientStep cl = some cl') :
    ReqRep.Inv cfg { s with clients := s.clients.set k cl' } := by
  have hmem : cl ∈ s.clients := List.getElem?_mem hk
  obtain ⟨hok', hsent⟩ := rr_client_step cl cl' (hinv.ok cl hmem) h
  have hcount := rr_countP_set s.clients k cl cl' hk hsent
  constructor
  · simpa using hinv.len
  · simpa using hinv.full
  · exact rr_mem_set _ _ _ _ hinv.ok hok'
  · intro c hc
    obtain ⟨a, ha, hpc, ho, hi⟩ := hinv.answering c hc
    have hne : k ≠ c := by
      rintro rfl
      rw [hk] at ha
      cases ha
      obtain ⟨id, pc, outbox, inbox, received⟩ := cl
      simp only at hpc hi
      subst hpc
      subst hi
      simp [ReqRep.clientStep] at h
    refine ⟨a, ?_, hpc, ho, hi⟩
    simp only [List.getElem?_set_ne hne]
    exact ha
  · intro hb
    simp only [hcount]
    exact hinv.before hb
  · intro hb
    simp only [hcount]
    exact hinv.during hb
  · exact hinv.last
  · intro hb
    simp only [hcount]
    exact hinv.after hb
  · intro hb
    have hclosed := hinv.joined hb cl hmem
    obtain ⟨id, pc, outbox, inbox, received⟩ := cl
    simp only at hclosed
    subst hclosed
    simp [ReqRep.clientStep] at h

theorem rr_getElem_set (l : List ReqRep.Client) (c : Nat) (a x : ReqRep.Client)
    (h : l[c]? = some a) : (l.set c x)[c]? = some x := by
  have hlt : c < l.length := by
    by_contra hge
    rw [List.getElem?_eq_none (by omega)] at h
    cases h
  exact List.getElem?_set_self hlt

theorem rr_takeRequest (c : Nat) (clients clients' : List ReqRep.Client)
    (hok : ∀ cl ∈ clients, cl.ok) (h : ReqRep.takeRequest c clients = some clients') :
    ∃ cl, clients[c]? = some cl ∧ cl.pc = ReqRep.ClientPc.recv ∧ cl.inbox = []
      ∧ clients' = clients.set c { cl with outbox := [] } := by
  unfold ReqRep.takeRequest at h
  cases hc : clients[c]? with
  | none => simp [hc] at h
  | some cl =>
    have hcl := hok cl (List.getElem?_mem hc)
    obtain ⟨id, pc, outbox, inbox, received⟩ := cl
    cases outbox with
    | nil => simp [hc] at h
    | cons x rest =>
      simp only [hc, Option.some.injEq] at h
      cases pc <;> simp only [ReqRep.Client.ok] at hcl
      · simp at hcl
      · simp at hcl
      · obtain ⟨_, h2⟩ := hcl
        simp only [List.length_cons] at h2
        have hr : rest = [] := List.length_eq_zero.mp (by omega)
        have hi : inbox = [] := List.length_eq_zero.mp (by omega)
        subst hr
        subst hi
        exact ⟨_, rfl, rfl, rfl, h.symm⟩
      · simp at hcl
      · simp at hcl

theorem rr_inv_take (cfg : ReqRep.Config) (s : ReqRep.State) (c : Nat)
    (clients : List ReqRep.Client) (hinv : ReqRep.Inv cfg s)
    (h : ReqRep.takeRequest c s.clients = some clients) :
    clients.length = s.clients.length
      ∧ (∀ cl ∈ clients, cl.ok)
      ∧ clients.countP ReqRep.Client.sentBye = s.clients.countP ReqRep.Client.sentBye
      ∧ (∃ cl, clients[c]? = some cl ∧ cl.pc = ReqRep.ClientPc.recv ∧ cl.outbox = []
          ∧ cl.inbox = [])
      ∧ ((∀ cl ∈ s.clients, cl.pc = ReqRep.ClientPc.closed) →
          ∀ cl ∈ clients, cl.pc = ReqRep.ClientPc.closed) := by
  obtain ⟨cl, hc, hpc, hin, rfl⟩ := rr_takeRequest c s.clients clients hinv.ok h
  have hcl := hinv.ok cl (List.getElem?_mem hc)
  obtain ⟨id, pc', outbox, inbox, received⟩ := cl
  simp only at hpc hin
  subst hpc
  subst hin
  simp only [ReqRep.Client.ok] at hcl
  refine ⟨by simp, ?_, ?_, ?_, ?_⟩
  · exact rr_mem_set _ _ _ _ hinv.ok (by simp [ReqRep.Client.ok, hcl.1])
  · exact rr_countP_set _ _ _ _ hc (by simp [ReqRep.Client.sentBye])
  · exact ⟨_, rr_getElem_set _ _ _ _ hc, rfl, rfl, rfl⟩
  · intro hall
    have := hall _ (List.getElem?_mem hc)
    simp at this

theorem rr_inv_send (cfg : ReqRep.Config) (s : ReqRep.State) (c : Nat) (m : List Nat)
    (hinv : ReqRep.Inv cfg s) (hc : s.mainPc.answering = some c) :
    (ReqRep.sendReply m c s.clients).length = s.clients.length
      ∧ (∀ cl ∈ ReqRep.sendReply m c s.clients, cl.ok)
      ∧ (ReqRep.sendReply m c s.clients).countP ReqRep.Client.sentBye
          = s.clients.countP ReqRep.Client.sentBye + (if m = bytes "BYE" then 1 else 0) := by
  obtain ⟨cl, hcl, hpc, hout, hin⟩ := hinv.answering c hc
  have hok := hinv.ok cl (List.getElem?_mem hcl)
  obtain ⟨id, pc', outbox, inbox, received⟩ := cl
  simp only at hpc hin hout
  subst hpc
  subst hin
  subst hout
  simp only [ReqRep.Client.ok] at hok
  simp only [ReqRep.sendReply, hcl, List.nil_append]
  refine ⟨by simp, ?_, ?_⟩
  · exact rr_mem_set _ _ _ _ hinv.ok (by simp [ReqRep.Client.ok, hok.1])
  · have hb := countP_set_balance ReqRep.Client.sentBye s.clients c _
      (⟨id, ReqRep.ClientPc.recv, [], [m], received⟩ : ReqRep.Client) hcl
    have h1 : ReqRep.Client.sentBye ⟨id, ReqRep.ClientPc.recv, [], [], received⟩ = false := by
      simp [ReqRep.Client.sentBye, ReqRep.ClientPc.stopped]
    have h2 : ReqRep.Client.sentBye ⟨id, ReqRep.ClientPc.recv, [], [m], received⟩
        = decide (m = bytes "BYE") := by
      by_cases hm : m = bytes "BYE"
      · simp [ReqRep.Client.sentBye, ReqRep.ClientPc.stopped, hm]
      · have hm' : ¬ (bytes "BYE" = m) := fun e => hm e.symm
        simp [ReqRep.Client.sentBye, ReqRep.ClientPc.stopped, hm, hm']
    rw [h1, h2] at hb
    by_cases hm : m = bytes "BYE"
    · simp only [hm, decide_True, if_true] at hb ⊢
      simp at hb
      omega
    · simp only [hm, decide_False, if_false] at hb ⊢
      simp at hb
      omega

theorem rr_inv_serverStep (cfg : ReqRep.Config) (hmax : (cfg.nclients : Int) ≤ INT_MAX)
    (c : Nat) (s s' : ReqRep.State) (hinv : ReqRep.Inv cfg s)
    (h : ReqRep.serverStep cfg c s = some s') : ReqRep.Inv cfg s' := by
  obtain ⟨pc, i, clients⟩ := s
  cases pc
  case spawn =>
    simp only [ReqRep.serverStep] at h
    split at h
    · rename_i hlt
      simp only [Option.some.injEq] at h
      subst h
      have hb := hinv.before rfl
      simp only at hb
      constructor
      · simp only [List.length_append, List.length_singleton]
        omega
      · intro hne
        exact absurd rfl hne
      · intro cl hcl
        rcases List.mem_append.mp hcl with hcl | hcl
        · exact hinv.ok cl hcl
        · simp only [List.mem_singleton] at hcl
          subst hcl
          simp [ReqRep.Client.ok, ReqRep.byes]
      · intro k hk
        simp [ReqRep.ServerPc.answering] at hk
      · intro _
        simp [List.countP_append, hb, List.countP_cons, ReqRep.Client.sentBye,
          ReqRep.ClientPc.stopped]
      · intro hb'
        simp [ReqRep.ServerPc.inBye] at hb'
      · intro k hk
        simp at hk
      · intro hb'
        simp [ReqRep.ServerPc.loopsDone] at hb'
      · intro hb'
        simp [ReqRep.ServerPc.joined] at hb'
    · rename_i hge
      simp only [Option.some.injEq] at h
      subst h
      have hlen := hinv.len
      simp only at hlen hge
      constructor
      · exact hlen
      · intro _
        simp only
        omega
      · exact hinv.ok
      · intro k hk
        simp [ReqRep.ServerPc.answering] at hk
      · intro _
        exact hinv.before rfl
      · intro hb'
        simp [ReqRep.ServerPc.inBye] at hb'
      · intro k hk
        simp at hk
      · intro hb'
        simp [ReqRep.ServerPc.loopsDone] at hb'
      · intro hb'
        simp [ReqRep.ServerPc.joined] at hb'
  case serve =>
    simp only [ReqRep.serverStep] at h
    have hfull := hinv.full (by simp)
    have hbefore := hinv.before rfl
    simp only at hfull hbefore
    split at h
    · cases ht : ReqRep.takeRequest c clients with
      | none => simp [ht] at h
      | some clients' =>
        simp only [ht, Option.some.injEq] at h
        subst h
        obtain ⟨t1, t2, t3, t4, _⟩ := rr_inv_take cfg _ c clients' hinv ht
        simp only at t1 t3
        constructor
        · simp only [t1]
          exact hinv.len
        · intro _
          simp only [t1]
          exact hfull
        · exact t2
        · intro k hk
          simp only [ReqRep.ServerPc.answering, Option.some.injEq] at hk
          subst hk
          exact t4
        · intro _
          simp only [t3]
          exact hbefore
        · intro hb'
          simp [ReqRep.ServerPc.inBye] at hb'
        · intro k hk
          simp at hk
        · intro hb'
          simp [ReqRep.ServerPc.loopsDone] at hb'
        · intro hb'
          simp [ReqRep.ServerPc.joined] at hb'
    · simp only [Option.some.injEq] at h
      subst h
      constructor
      · exact hinv.len
      · intro _
        exact hfull
      · exact hinv.ok
      · intro k hk
        simp [ReqRep.ServerPc.answering] at hk
      · intro hb'
        simp [ReqRep.ServerPc.beforeBye] at hb'
      · intro _
        simp only [hbefore]
        exact ⟨rfl, by omega⟩
      · intro k hk
        simp at hk
      · intro hb'
        simp [ReqRep.ServerPc.loopsDone] at hb'
      · intro hb'
        simp [ReqRep.ServerPc.joined] at hb'
  case reply k =>
    simp only [ReqRep.serverStep, Option.some.injEq] at h
    subst h
    have hfull := hinv.full (by simp)
    have hbefore := hinv.before rfl
    obtain ⟨t1, t2, t3⟩ := rr_inv_send cfg _ k (bytes "Keep going for now") hinv rfl
    have hne : ¬ (bytes "Keep going for now" = bytes "BYE") := by decide
    simp only [hne, if_false, Nat.add_zero] at t3
    simp only at hfull hbefore t1 t3
    constructor
    · simp only [t1]
      exact hinv.len
    · intro _
      simp only [t1]
      exact hfull
    · exact t2
    · intro k hk
      simp [ReqRep.ServerPc.answering] at hk
    · intro _
      simp only [t3]
      exact hbefore
    · intro hb'
      simp [ReqRep.ServerPc.inBye] at hb'
    · intro k hk
      simp at hk
    · intro hb'
      simp [ReqRep.ServerPc.loopsDone] at hb'
    · intro hb'
      simp [ReqRep.ServerPc.joined] at hb'
  case bye =>
    simp only [ReqRep.serverStep] at h
    have hfull := hinv.full (by simp)
    have hduring := hinv.during rfl
    simp only at hfull hduring
    split at h
    · rename_i hlt
      cases ht : ReqRep.takeRequest c clients with
      | none => simp [ht] at h
      | some clients' =>
        simp only [ht, Option.some.injEq] at h
        subst h
        obtain ⟨t1, t2, t3, t4, _⟩ := rr_inv_take cfg _ c clients' hinv ht
        simp only at t1 t3
        constructor
        · simp only [t1]
          exact hinv.len
        · intro _
          simp only [t1]
          exact hfull
        · exact t2
        · intro k hk
          simp only [ReqRep.ServerPc.answering, Option.some.injEq] at hk
          subst hk
          exact t4
        · intro hb'
          simp [ReqRep.ServerPc.beforeBye] at hb'
        · intro _
          simp only [t3]
          exact hduring
        · intro k _
          exact hlt
        · intro hb'
          simp [ReqRep.ServerPc.loopsDone] at hb'
        · intro hb'
          simp [ReqRep.ServerPc.joined] at hb'
    · rename_i hge
      simp only [Option.some.injEq] at h
      subst h
      constructor
      · exact hinv.len
      · intro _
        exact hfull
      · exact hinv.ok
      · intro k hk
        simp [ReqRep.ServerPc.answering] at hk
      · intro hb'
        simp [ReqRep.ServerPc.beforeBye] at hb'
      · intro hb'
        simp [ReqRep.ServerPc.inBye] at hb'
      · intro k hk
        simp at hk
      · intro _
        simp only at hge ⊢
        omega
      · intro hb'
        simp [ReqRep.ServerPc.joined] at hb'
  case replyBye k =>
    simp only [ReqRep.serverStep, Option.some.injEq] at h
    subst h
    have hfull := hinv.full (by simp)
    have hduring := hinv.during rfl
    have hlast := hinv.last k rfl
    obtain ⟨t1, t2, t3⟩ := rr_inv_send cfg _ k (bytes "BYE") hinv rfl
    simp only [if_true] at t3
    simp only at hfull hduring hlast t1 t3
    have hw : wrapInt (i + 1) = i + 1 :=
      wrapInt_of_range _ (by omega) (by unfold INT_MAX at hmax ⊢; omega)
    constructor
    · simp only [t1]
      exact hinv.len
    · intro _
      simp only [t1]
      exact hfull
    · exact t2
    · intro k hk
      simp [ReqRep.ServerPc.answering] at hk
    · intro hb'
      simp [ReqRep.ServerPc.beforeBye] at hb'
    · intro _
      simp only [t3, hw]
      push_cast
      omega
    · intro k hk
      simp at hk
    · intro hb'
      simp [ReqRep.ServerPc.loopsDone] at hb'
    · intro hb'
      simp [ReqRep.ServerPc.joined] at hb'
  case join =>
    simp only [ReqRep.serverStep] at h
    have hfull := hinv.full (by simp)
    have hafter := hinv.after rfl
    split at h
    · rename_i hall
      simp only [Option.some.injEq] at h
      subst h
      constructor
      · exact hinv.len
      · intro _
        exact hfull
      · exact hinv.ok
      · intro k hk
        simp [ReqRep.ServerPc.answering] at hk
      · intro hb'
        simp [ReqRep.ServerPc.beforeBye] at hb'
      · intro hb'
        simp [ReqRep.ServerPc.inBye] at hb'
      · intro k hk
        simp at hk
      · intro _
        exact hafter
      · intro _ cl hcl
        simp only [List.all_eq_true, beq_iff_eq] at hall
        exact hall cl hcl
    · simp at h
  case closeSock =>
    simp only [ReqRep.serverStep, Option.some.injEq] at h
    subst h
    exact ⟨hinv.len, fun _ => hinv.full (by simp), hinv.ok,
      fun k hk => by simp [ReqRep.ServerPc.answering] at hk,
      fun hb' => by simp [ReqRep.ServerPc.beforeBye] at hb',
      fun hb' => by simp [ReqRep.ServerPc.inBye] at hb',
      fun k hk => by simp at hk,
      fun _ => hinv.after rfl, fun _ => hinv.joined rfl⟩
  case term =>
    simp only [ReqRep.serverStep, Option.some.injEq] at h
    subst h
    exact ⟨hinv.len, fun _ => hinv.full (by simp), hinv.ok,
      fun k hk => by simp [ReqRep.ServerPc.answering] at hk,
      fun hb' => by simp [ReqRep.ServerPc.beforeBye] at hb',
      fun hb' => by simp [ReqRep.ServerPc.inBye] at hb',
      fun k hk => by simp at hk,
      fun _ => hinv.after rfl, fun _ => hinv.joined rfl⟩
  case finished =>
    simp [ReqRep.serverStep] at h

theorem rr_inv_step (cfg : ReqRep.Config) (hmax : (cfg.nclients : Int) ≤ INT_MAX)
    (s s' : ReqRep.State) (a : ReqRep.Move) (hinv : ReqRep.Inv cfg s)
    (h : ReqRep.step cfg s a = some s') : ReqRep.Inv cfg s' := by
  cases a with
  | main c => exact rr_inv_serverStep cfg hmax c s s' hinv h
  | client k =>
    simp only [ReqRep.step] at h
    cases hk : s.clients[k]? with
    | none => simp [hk] at h
    | some cl =>
      cases hc : ReqRep.clientStep cl with
      | none => simp [hk, hc] at h
      | some cl' =>
        simp only [hk, hc, Option.some.injEq] at h
        subst h
        exact rr_inv_clientStep cfg s k cl cl' hinv hk hc

theorem rr_inv_run (cfg : ReqRep.Config) (hmax : (cfg.nclients : Int) ≤ INT_MAX) :
    ∀ (sched : List ReqRep.Move) (s s' : ReqRep.State), ReqRep.Inv cfg s →
      ReqRep.run cfg s sched = some s' → ReqRep.Inv cfg s'
  | [], s, s', hinv, h => by
    simp only [ReqRep.run, Option.some.injEq] at h
    subst h
    exact hinv
  | a :: sched, s, s', hinv, h => by
    simp only [ReqRep.run] at h
    cases hs : ReqRep.step cfg s a with
    | none => simp [hs] at h
    | some s1 =>
      simp only [hs] at h
      exact rr_inv_run cfg hmax sched s1 s' (rr_inv_step cfg hmax s s1 a hinv hs) h

theorem rr_inv_reachable (cfg : ReqRep.Config) (hmax : (cfg.nclients : Int) ≤ INT_MAX)
    (s : ReqRep.State) (h : ReqRep.Reachable cfg s) : ReqRep.Inv cfg s := by
  obtain ⟨sched, hs⟩ := h
  exact rr_inv_run cfg hmax sched _ s (rr_inv_init cfg) hs

theorem rr_byes_of_ok (cl : ReqRep.Client) (hok : cl.ok) :
    ReqRep.byes cl.received ≤ 1
      ∧ (ReqRep.byes cl.received = 1 ↔ cl.pc.stopped = true)
      ∧ (cl.sentBye = true → ReqRep.byes (cl.received ++ cl.inbox) = 1) := by
  obtain ⟨id, pc, outbox, inbox, received⟩ := cl
  cases pc <;> simp only [ReqRep.Client.ok] at hok
  · obtain ⟨_, h2, h3⟩ := hok
    subst h2
    simp [h3, ReqRep.ClientPc.stopped, ReqRep.Client.sentBye]
  · obtain ⟨_, h2, h3⟩ := hok
    subst h2
    simp [h3, ReqRep.ClientPc.stopped, ReqRep.Client.sentBye]
  · obtain ⟨h1, h2⟩ := hok
    refine ⟨by
      show ReqRep.byes received ≤ 1
      omega, by simp [h1, ReqRep.ClientPc.stopped], ?_⟩
    intro hs
    cases inbox with
    | nil => simp [ReqRep.Client.sentBye, ReqRep.ClientPc.stopped] at hs
    | cons m rest =>
      simp only [List.length_cons] at h2
      have hr : rest = [] := List.length_eq_zero.mp (by omega)
      subst hr
      have hm : m = bytes "BYE" := by
        simpa [ReqRep.Client.sentBye, ReqRep.ClientPc.stopped, eq_comm] using hs
      simp only [rr_byes_append, h1, hm, if_true]
  · obtain ⟨_, h2, h3⟩ := hok
    subst h2
    simp [h3, ReqRep.ClientPc.stopped, ReqRep.Client.sentBye]
  · obtain ⟨_, h2, h3⟩ := hok
    subst h2
    simp [h3, ReqRep.ClientPc.stopped, ReqRep.Client.sentBye]

/-- C24, as stated, fails: with one client and no "Keep going for now"
reply, `main` has left both reply loops after `scheduleToJoin` while the
client has received nothing and is still in its loop; the "BYE" waits on its
socket. -/
theorem C24_bye_still_queued :
    ∃ s, ReqRep.run ReqRep.sampleCfg ReqRep.init ReqRep.scheduleToJoin = some s
      ∧ s.mainPc = ReqRep.ServerPc.join ∧ s.mainPc.loopsDone = true
      ∧ ∃ cl ∈ s.clients, ReqRep.byes cl.received = 0 ∧ cl.pc = ReqRep.ClientPc.recv
          ∧ cl.pc.stopped = false ∧ cl.inbox = [bytes "BYE"] :=
  ⟨⟨ReqRep.ServerPc.join, 1, [⟨0, ReqRep.ClientPc.recv, [], [bytes "BYE"], []⟩]⟩,
    by decide, rfl, rfl, ⟨0, ReqRep.ClientPc.recv, [], [bytes "BYE"], []⟩,
    List.mem_singleton.mpr rfl, by decide, rfl, rfl, rfl⟩

/-- C24 amended: in every reachable state of a run of `reqrep.cpp` no
client has received more than one "BYE", and a client has received one
exactly when it has left its loop; once both reply loops of `main` are
finished there are `nclients` clients and each has been sent exactly one
"BYE", received or still waiting on its socket; once the joins of `main` have
returned every client has received exactly one "BYE" and has closed its
socket. -/
theorem C24_one_bye_each (cfg : ReqRep.Config) (s : ReqRep.State)
    (hmax : (cfg.nclients : Int) ≤ INT_MAX) (h : ReqRep.Reachable cfg s) :
    (∀ cl ∈ s.clients, ReqRep.byes cl.received ≤ 1
        ∧ (ReqRep.byes cl.received = 1 ↔ cl.pc.stopped = true))
      ∧ (s.mainPc.loopsDone = true →
          s.clients.length = cfg.nclients
            ∧ ∀ cl ∈ s.clients, ReqRep.byes (cl.received ++ cl.inbox) = 1)
      ∧ (s.mainPc.joined = true →
          ∀ cl ∈ s.clients, ReqRep.byes cl.received = 1 ∧ cl.pc = ReqRep.ClientPc.closed) := by
  have hinv := rr_inv_reachable cfg hmax s h
  refine ⟨?_, ?_, ?_⟩
  · intro cl hcl
    obtain ⟨h1, h2, _⟩ := rr_byes_of_ok cl (hinv.ok cl hcl)
    exact ⟨h1, h2⟩
  · intro hdone
    have hfull : s.clients.length = cfg.nclients := by
      apply hinv.full
      intro hpc
      rw [hpc] at hdone
      simp [ReqRep.ServerPc.loopsDone] at hdone
    refine ⟨hfull, ?_⟩
    have hall : s.clients.countP ReqRep.Client.sentBye = s.clients.length := by
      rw [hinv.after hdone, hfull]
    rw [List.countP_eq_length] at hall
    intro cl hcl
    exact (rr_byes_of_ok cl (hinv.ok cl hcl)).2.2 (hall cl hcl)
  · intro hj cl hcl
    have hclosed := hinv.joined hj cl hcl
    refine ⟨?_, hclosed⟩
    rw [(rr_byes_of_ok cl (hinv.ok cl hcl)).2.1, hclosed]
    rfl

/-- C24 amended, on the run of `sampleCfg` that ends with the return of
`main`. -/
theorem C24_one_bye_each_witness :
    ReqRep.run ReqRep.sampleCfg ReqRep.init ReqRep.scheduleToEnd
        = some ⟨ReqRep.ServerPc.finished, 1,
            [⟨0, ReqRep.ClientPc.closed, [], [], [bytes "BYE"]⟩]⟩
      ∧ ReqRep.byes
          (⟨0, ReqRep.ClientPc.closed, [], [], [bytes "BYE"]⟩ : ReqRep.Client).received = 1
      ∧ (⟨0, ReqRep.ClientPc.closed, [], [], [bytes "BYE"]⟩ : ReqRep.Client).pc
          = ReqRep.ClientPc.closed :=
  ⟨by decide,
   (C24_one_bye_each ReqRep.sampleCfg
      ⟨ReqRep.ServerPc.finished, 1, [⟨0, ReqRep.ClientPc.closed, [], [], [bytes "BYE"]⟩]⟩
      (by decide) ⟨ReqRep.scheduleToEnd, by decide⟩).2.2 rfl
      ⟨0, ReqRep.ClientPc.closed, [], [], [bytes "BYE"]⟩ (List.mem_singleton.mpr rfl)⟩

end ZmqExamples
